import Mathlib

/-!
# godmarc: ingestion and aggregation of DMARC aggregate reports

A shallow embedding of the Go packages `internal/model`, `internal/parser`,
`internal/storage`, `internal/formatter` and `internal/ui`, and of the start-up
error handling of `cmd/godmarc`, with the properties their specification states
about them.

Modelling conventions.

* A Go `string` is a Lean `String`, read as the sequence of runes that Go's
  UTF-8 decoding of the bytes yields.  Every string stored in a report comes
  out of `encoding/xml`, which rejects input that is not valid UTF-8.
* A Go `int` used as a counter (`len`, `x++` once per element of a slice) is a
  `Nat`: the counters are bounded by the number of elements of slices held in
  memory, far below `2^63`.  An `int` decoded from the document (`Count`,
  `PCT`) is an `Int`; it is only ever copied.
* A Go `map[string]int` is an association list with distinct keys, kept in
  first-insertion order.  The order is an artefact of the model; the theorems
  about the aggregator speak about lookups and key membership only, and a
  `range` statement over a map visits the entries in an order given from outside
  (`RangeOrders`), any permutation of the list.
* Where the code slices a string or takes its `len`, the string is the list of
  its bytes (`goBytes`), which need not be valid UTF-8 after slicing.
* The components of Bubble Tea, the styles of lipgloss, the clock and the file
  system are parameters (`UILib`, `FormatLib`, `World`); a panic is `none`.
* A Go `error` is a `GoError`: a plain message, a `fmt.Errorf` value wrapping
  an inner error with `%w`, or a `strconv.NumError`.
-/

namespace GoDMARC

/-! ## Library: strings -/

/-- Go `unicode.IsSpace`: the runes with the Unicode White_Space property. -/
def isSpace (c : Char) : Bool :=
  let n := c.toNat
  (0x09 ≤ n && n ≤ 0x0d) || n == 0x20 || n == 0x85 || n == 0xA0 || n == 0x1680 ||
  (0x2000 ≤ n && n ≤ 0x200a) || n == 0x2028 || n == 0x2029 || n == 0x202f ||
  n == 0x205f || n == 0x3000

/-- Go `strings.TrimLeftFunc(s, unicode.IsSpace)` on the rune sequence. -/
def trimLeftSpace (l : List Char) : List Char := l.dropWhile isSpace

/-- Go `strings.TrimRightFunc(s, unicode.IsSpace)` on the rune sequence. -/
def trimRightSpace (l : List Char) : List Char := (l.reverse.dropWhile isSpace).reverse

/-- Go `strings.TrimSpace` / `bytes.TrimSpace`: leading and trailing white space
removed (`TrimRightFunc (TrimLeftFunc s)`). -/
def TrimSpace (s : String) : String := ⟨trimRightSpace (trimLeftSpace s.data)⟩

/-- Go `strings.HasPrefix` / `bytes.HasPrefix`. -/
def HasPrefix (s pre : String) : Bool := pre.data.isPrefixOf s.data

/-- Does `pat` occur in `l` at some position? -/
def containsChars (pat : List Char) : List Char → Bool
  | [] => pat.isPrefixOf []
  | c :: cs => pat.isPrefixOf (c :: cs) || containsChars pat cs

/-- Go `strings.Contains`. -/
def Contains (s substr : String) : Bool := containsChars substr.data s.data

/-! ## Library: errors -/

/-- A Go `error` value: what `errors.New`, `fmt.Errorf` and `strconv` build. -/
inductive GoError where
  /-- The value made by `errors.New(msg)` or by `fmt.Errorf` without `%w`. -/
  | errorString (msg : String)
  /-- The value made by `fmt.Errorf` with one `%w` verb: the formatted text before the
  verb, the wrapped error, and the formatted text after the verb. -/
  | wrapError (pre : String) (err : GoError) (post : String)
  /-- The value `&strconv.NumError{Func, Num, Err}`: `Num` is the input string. -/
  | numError (Func Num : String) (Err : GoError)
  deriving DecidableEq, Repr

namespace GoError

/-- Method `Error()`: the message.  The message of a `fmt.Errorf` value is the format with
the message of the wrapped error in place of `%w`; the message of a `NumError` quotes its
input with `strconv.Quote`, which is taken as the parameter `quote`. -/
def Error (quote : String → String) : GoError → String
  | errorString msg => msg
  | wrapError pre err post => pre ++ Error quote err ++ post
  | numError fn num err => "strconv." ++ fn ++ ": parsing " ++ quote num ++ ": " ++ Error quote err

/-- Function `errors.Unwrap`. -/
def Unwrap : GoError → Option GoError
  | errorString _ => none
  | wrapError _ err _ => some err
  | numError _ _ err => some err

end GoError

/-- Variable `strconv.ErrSyntax`. -/
def ErrSyntax : GoError := .errorString "invalid syntax"

/-- Variable `strconv.ErrRange`. -/
def ErrRange : GoError := .errorString "value out of range"

/-- The loop of `strconv.ParseUint(s, 10, 64)` over the characters of `s`, with `n` the
value read so far: a character that is not a decimal digit is a syntax error, a value
above `2^64 - 1` a range error. -/
def parseUintLoop : List Char → Nat → Except GoError Nat
  | [], n => .ok n
  | c :: cs, n =>
    if '0' ≤ c ∧ c ≤ '9' then
      if n ≥ (2 ^ 64 - 1) / 10 + 1 then .error ErrRange
      else if n * 10 + (c.toNat - '0'.toNat) > 2 ^ 64 - 1 then .error ErrRange
      else parseUintLoop cs (n * 10 + (c.toNat - '0'.toNat))
    else .error ErrSyntax

/-- Go `strconv.ParseInt(s, 10, 64)`: an optional sign followed by decimal digits, in the
range of `int64`; otherwise a `NumError` holding `s`. -/
def ParseInt (s : String) : Except GoError Int :=
  match s.data with
  | [] => .error (.numError "ParseInt" s ErrSyntax)
  | c :: cs =>
    let neg := c == '-'
    let digits := if c == '+' || c == '-' then cs else c :: cs
    match digits with
    | [] => .error (.numError "ParseInt" s ErrSyntax)
    | _ =>
      match parseUintLoop digits 0 with
      | .error e =>
        if e = ErrRange then .error (.numError "ParseInt" s ErrRange)
        else .error (.numError "ParseInt" s e)
      | .ok un =>
        if !neg && decide (un ≥ 2 ^ 63) then .error (.numError "ParseInt" s ErrRange)
        else if neg && decide (un > 2 ^ 63) then .error (.numError "ParseInt" s ErrRange)
        else .ok (if neg then -(un : Int) else (un : Int))

/-! ## Library: time -/

/-- The `*time.Location` held by a `time.Time`: the nil pointer (meaning UTC) of the zero
value, the pointer `time.Local`, or any other location. -/
inductive Location where
  | nil
  | Local
  | other (id : Nat)
  deriving DecidableEq, Repr

/-- A Go `time.Time` without monotonic clock reading (only `time.Now` sets one, and no
report field is ever assigned from it): `wall` holds the nanoseconds, `ext` the seconds
since January 1 of year 1, `loc` the location pointer.  Go's `==` on `time.Time` compares
the three fields, which is the derived equality here. -/
structure Time where
  wall : Nat
  ext : Int
  loc : Location
  deriving DecidableEq, Repr

namespace Time

/-- The zero value `time.Time{}`. -/
def zero : Time := ⟨0, 0, .nil⟩

/-- Method `sec`: seconds since January 1 of year 1. -/
def sec (t : Time) : Int := t.ext

/-- Method `nsec`: `wall & nsecMask`, with `nsecMask = 1<<30 - 1`. -/
def nsec (t : Time) : Nat := t.wall % 2 ^ 30

/-- Method `After`. -/
def After (t u : Time) : Bool :=
  decide (t.sec > u.sec) || (decide (t.sec = u.sec) && decide (t.nsec > u.nsec))

/-- Method `Before`. -/
def Before (t u : Time) : Bool :=
  decide (t.sec < u.sec) || (decide (t.sec = u.sec) && decide (t.nsec < u.nsec))

/-- Method `Equal`: the same instant, whatever the location. -/
def Equal (t u : Time) : Bool :=
  decide (t.sec = u.sec) && decide (t.nsec = u.nsec)

/-- Method `IsZero`: the instant is January 1, year 1, 00:00:00 UTC. -/
def IsZero (t : Time) : Bool :=
  decide (t.sec = 0) && decide (t.nsec = 0)

end Time

/-- Two's-complement wrap-around of a value into the range of `int64`. -/
def wrapInt64 (x : Int) : Int := (x + 2 ^ 63) % 2 ^ 64 - 2 ^ 63

/-- Constant `unixToInternal` of package `time`: seconds from year 1 to 1970. -/
def unixToInternal : Int := (1969 * 365 + 1969 / 4 - 1969 / 100 + 1969 / 400) * 86400

/-- Go `time.Unix(sec, nsec)`: the local `Time` that many seconds and nanoseconds after
the Unix epoch. -/
def Unix (sec nsec : Int) : Time :=
  let normalise := decide (nsec < 0) || decide (nsec ≥ 1000000000)
  let n := Int.tdiv nsec 1000000000
  let sec1 := if normalise then wrapInt64 (sec + n) else sec
  let nsec1 := if normalise then wrapInt64 (nsec - wrapInt64 (n * 1000000000)) else nsec
  let sec2 := if normalise && decide (nsec1 < 0) then wrapInt64 (sec1 - 1) else sec1
  let nsec2 := if normalise && decide (nsec1 < 0) then wrapInt64 (nsec1 + 1000000000) else nsec1
  ⟨nsec2.toNat, wrapInt64 (sec2 + unixToInternal), .Local⟩

/-! ## Package model: the report (dmarc.go) -/

/-- Struct `DateRange`. -/
structure DateRange where
  Begin : Time
  End : Time
  deriving DecidableEq, Repr

/-- Struct `ReportMetadata`. -/
structure ReportMetadata where
  OrgName : String
  Email : String
  ExtraContact : String
  ReportID : String
  DateRange : DateRange
  deriving DecidableEq, Repr

/-- Struct `PolicyPublished`. -/
structure PolicyPublished where
  Domain : String
  ADKIM : String
  ASPF : String
  P : String
  SP : String
  PCT : Int
  deriving DecidableEq, Repr

/-- The anonymous struct `Record.Row.PolicyEvaluated`. -/
structure PolicyEvaluated where
  Disposition : String
  DKIM : String
  SPF : String
  deriving DecidableEq, Repr

/-- The anonymous struct `Record.Row`. -/
structure Row where
  SourceIP : String
  Count : Int
  PolicyEvaluated : PolicyEvaluated
  deriving DecidableEq, Repr

/-- The anonymous struct `Record.Identifiers`. -/
structure Identifiers where
  HeaderFrom : String
  deriving DecidableEq, Repr

/-- An element of `Record.AuthResults.DKIM`. -/
structure DKIMAuthResult where
  Domain : String
  Result : String
  Selector : String
  deriving DecidableEq, Repr

/-- An element of `Record.AuthResults.SPF`. -/
structure SPFAuthResult where
  Domain : String
  Result : String
  Scope : String
  deriving DecidableEq, Repr

/-- The anonymous struct `Record.AuthResults`. -/
structure AuthResults where
  DKIM : List DKIMAuthResult
  SPF : List SPFAuthResult
  deriving DecidableEq, Repr

/-- Struct `Record`. -/
structure Record where
  Row : Row
  Identifiers : Identifiers
  AuthResults : AuthResults
  deriving DecidableEq, Repr

/-- Struct `DMARCReport`. -/
structure DMARCReport where
  ReportMetadata : ReportMetadata
  PolicyPublished : PolicyPublished
  Records : List Record
  deriving DecidableEq, Repr

/-- The zero value of `DateRange`. -/
def DateRange.zero : DateRange := ⟨Time.zero, Time.zero⟩

/-- The zero value of `DMARCReport` (`var report model.DMARCReport`). -/
def DMARCReport.zero : DMARCReport :=
  ⟨⟨"", "", "", "", DateRange.zero⟩, ⟨"", "", "", "", "", 0⟩, []⟩

/-! ## Package model: aggregation (aggregate.go) -/

/-- A Go `map[string]int` used as a frequency counter. -/
abbrev FreqMap := List (String × Nat)

namespace FreqMap

/-- The statement `m[k]++`. -/
def inc : FreqMap → String → FreqMap
  | [], k => [(k, 1)]
  | (k', v) :: rest, k => if k' = k then (k', v + 1) :: rest else (k', v) :: inc rest k

/-- The expression `m[k]`: the stored value, or 0 when the key is absent. -/
def get : FreqMap → String → Nat
  | [], _ => 0
  | (k', v) :: rest, k => if k' = k then v else get rest k

/-- The test `_, ok := m[k]`: is the key present? -/
def has : FreqMap → String → Bool
  | [], _ => false
  | (k', _) :: rest, k => decide (k' = k) || has rest k

end FreqMap

/-- Struct `FailedRecord`. -/
structure FailedRecord where
  SourceIP : String
  Domain : String
  Count : Int
  Reason : String
  deriving DecidableEq, Repr

/-- Struct `AggregatedReport`. -/
structure AggregatedReport where
  TotalReports : Nat
  TotalRecords : Nat
  DateRange : DateRange
  Domains : FreqMap
  Sources : FreqMap
  Dispositions : FreqMap
  DKIMResults : FreqMap
  SPFResults : FreqMap
  FailedRecords : List FailedRecord
  deriving DecidableEq, Repr

/-- The body of the inner loop of `AggregateReports` (aggregate.go, lines 73-98). -/
def aggregateRecord (aggr : AggregatedReport) (record : Record) : AggregatedReport :=
  let aggr := { aggr with
    TotalRecords := aggr.TotalRecords + 1
    Sources := aggr.Sources.inc record.Row.SourceIP
    Dispositions := aggr.Dispositions.inc record.Row.PolicyEvaluated.Disposition
    DKIMResults := aggr.DKIMResults.inc record.Row.PolicyEvaluated.DKIM
    SPFResults := aggr.SPFResults.inc record.Row.PolicyEvaluated.SPF }
  if record.Row.PolicyEvaluated.DKIM ≠ "pass" ∨ record.Row.PolicyEvaluated.SPF ≠ "pass" then
    let reason := ""
    let reason :=
      if record.Row.PolicyEvaluated.DKIM ≠ "pass" then
        reason ++ ("DKIM:" ++ record.Row.PolicyEvaluated.DKIM ++ " ")
      else reason
    let reason :=
      if record.Row.PolicyEvaluated.SPF ≠ "pass" then
        reason ++ ("SPF:" ++ record.Row.PolicyEvaluated.SPF)
      else reason
    { aggr with
      FailedRecords := aggr.FailedRecords ++
        [{ SourceIP := record.Row.SourceIP
           Domain := record.Identifiers.HeaderFrom
           Count := record.Row.Count
           Reason := TrimSpace reason }] }
  else aggr

/-- The body of the outer loop of `AggregateReports` (aggregate.go, lines 60-99). -/
def aggregateReport (aggr : AggregatedReport) (report : DMARCReport) : AggregatedReport :=
  let aggr :=
    if report.ReportMetadata.DateRange.Begin.Before aggr.DateRange.Begin then
      { aggr with DateRange := { aggr.DateRange with Begin := report.ReportMetadata.DateRange.Begin } }
    else aggr
  let aggr :=
    if report.ReportMetadata.DateRange.End.After aggr.DateRange.End then
      { aggr with DateRange := { aggr.DateRange with End := report.ReportMetadata.DateRange.End } }
    else aggr
  let aggr := { aggr with Domains := aggr.Domains.inc report.PolicyPublished.Domain }
  report.Records.foldl aggregateRecord aggr

/-- The value `aggr` of `AggregateReports` before its loop (aggregate.go, lines 44-58). -/
def aggregateInit (reports : List DMARCReport) : AggregatedReport :=
  let aggr : AggregatedReport :=
    { TotalReports := reports.length
      TotalRecords := 0
      DateRange := DateRange.zero
      Domains := []
      Sources := []
      Dispositions := []
      DKIMResults := []
      SPFResults := []
      FailedRecords := [] }
  match reports with
  | [] => aggr
  | first :: _ =>
    { aggr with
      DateRange := ⟨first.ReportMetadata.DateRange.Begin, first.ReportMetadata.DateRange.End⟩ }

/-- Function `AggregateReports` (aggregate.go, lines 43-102). -/
def AggregateReports (reports : List DMARCReport) : AggregatedReport :=
  reports.foldl aggregateReport (aggregateInit reports)

/-! ## Package model: decoding the date range (dmarc.go) -/

/-- The local struct `dateRange` of `UnmarshalXML`: the raw texts of `begin` and `end`. -/
structure dateRange where
  Begin : String
  End : String
  deriving DecidableEq, Repr

/-- Method `(*DateRange).UnmarshalXML` (dmarc.go, lines 85-114).  `decodeElement` is what
`d.DecodeElement(&raw, &start)` leaves in `raw` and returns; the result is the receiver
after the call and the returned error. -/
def DateRange.UnmarshalXML (dr : DateRange) (decodeElement : dateRange × Option GoError) :
    DateRange × Option GoError :=
  let raw := decodeElement.1
  match decodeElement.2 with
  | some err => (dr, some err)
  | none =>
    match ParseInt raw.Begin with
    | .error err => (dr, some (.wrapError "invalid begin timestamp: " err ""))
    | .ok beginInt =>
      let dr := { dr with Begin := Unix beginInt 0 }
      match ParseInt raw.End with
      | .error err => (dr, some (.wrapError "invalid end timestamp: " err ""))
      | .ok endInt => ({ dr with End := Unix endInt 0 }, none)

/-! ## Library: what `encoding/xml` does with a document -/

/-- One step of `decoder.Decode(&report)`, in document order. -/
inductive DecodeStep where
  /-- The decoder stores character data in a field of the report other than the date
  range (whatever `set` does to the date range is discarded). -/
  | field (set : DMARCReport → DMARCReport)
  /-- The decoder meets a `date_range` element of `report_metadata` and calls
  `UnmarshalXML` on the report's `DateRange`; `elem` is the outcome of the call of
  `DecodeElement` inside it. -/
  | dateRange (elem : dateRange × Option GoError)
  /-- The decoder stops with an error of its own (malformed input, unexpected EOF). -/
  | fail (err : GoError)

/-- Run the steps of a decoding on `report`: the first error stops it, and the report is
left as it was populated up to there. -/
def runDecode : List DecodeStep → DMARCReport → DMARCReport × Option GoError
  | [], report => (report, none)
  | .field set :: rest, report =>
    let r := set report
    runDecode rest
      { r with ReportMetadata :=
          { r.ReportMetadata with DateRange := report.ReportMetadata.DateRange } }
  | .dateRange elem :: rest, report =>
    match report.ReportMetadata.DateRange.UnmarshalXML elem with
    | (dr, some err) =>
      ({ report with ReportMetadata := { report.ReportMetadata with DateRange := dr } }, some err)
    | (dr, none) =>
      runDecode rest { report with ReportMetadata := { report.ReportMetadata with DateRange := dr } }
  | .fail err :: _, report => (report, some err)

/-! ## Package parser (parser.go) -/

/-- The outcome of `os.Stat`: the size of the file, or an error together with the answer
of `os.IsNotExist` on it. -/
inductive StatResult where
  | ok (size : Int)
  | err (e : GoError) (isNotExist : Bool)
  deriving DecidableEq, Repr

/-- The world around the parser: the file system (`os.Stat`, `os.ReadFile`) and the
decoder of `encoding/xml` configured with `Strict = true` and `Entity = xml.HTMLEntity`,
given by the steps it takes on a text. -/
structure Env where
  Stat : String → StatResult
  ReadFile : String → Except GoError String
  xmlSteps : String → List DecodeStep

/-- Function `hasXMLHeader` (parser.go, lines 92-94). -/
def hasXMLHeader (data : String) : Bool :=
  HasPrefix (TrimSpace data) "<?xml"

/-- Function `hasRootElement` (parser.go, lines 97-100). -/
def hasRootElement (data : String) : Bool :=
  let s := TrimSpace data
  Contains s "<feedback" || Contains s "<report"

/-- Function `validateReport` (parser.go, lines 103-124). -/
def validateReport (report : DMARCReport) : Option GoError :=
  if report.ReportMetadata.ReportID = "" then
    some (.errorString "missing report ID")
  else if report.ReportMetadata.OrgName = "" then
    some (.errorString "missing organization name")
  else if report.PolicyPublished.Domain = "" then
    some (.errorString "missing domain in policy")
  else
    let zeroTime := Time.zero
    if report.ReportMetadata.DateRange.Begin = zeroTime ∨
        report.ReportMetadata.DateRange.End = zeroTime then
      some (.errorString "invalid date range")
    else none

/-- Function `ParseDMARCReport` (parser.go, lines 29-89): the returned report and error. -/
def ParseDMARCReport (env : Env) (filepath : String) : DMARCReport × Option GoError :=
  let report := DMARCReport.zero
  match env.Stat filepath with
  | .err e isNotExist =>
    if isNotExist then (report, some (.errorString ("file not found: " ++ filepath)))
    else (report, some (.wrapError ("error accessing file " ++ filepath ++ ": ") e ""))
  | .ok size =>
    if size = 0 then (report, some (.errorString ("file is empty: " ++ filepath)))
    else
      match env.ReadFile filepath with
      | .error e => (report, some (.wrapError ("could not read file " ++ filepath ++ ": ") e ""))
      | .ok data =>
        if !hasXMLHeader data && !hasRootElement data then
          (report, some (.errorString ("file " ++ filepath ++ " does not appear to be valid XML")))
        else
          let data := TrimSpace data
          match runDecode (env.xmlSteps data) report with
          | (report, some err) =>
            (report, some (.wrapError ("invalid XML in file " ++ filepath ++ ": ") err ""))
          | (report, none) =>
            match validateReport report with
            | some err =>
              (report, some (.wrapError ("invalid DMARC report in file " ++ filepath ++ ": ") err ""))
            | none => (report, none)

/-! ## Vocabulary of the properties -/

/-- All records of a list of reports: reports in list order, the records of each report in
their order. -/
def allRecords (reports : List DMARCReport) : List Record :=
  reports.flatMap (fun report => report.Records)

/-- The condition of aggregate.go, lines 81-82: the policy-evaluated DKIM is not exactly
"pass" or the policy-evaluated SPF is not exactly "pass". -/
def Record.failed (record : Record) : Bool :=
  decide (record.Row.PolicyEvaluated.DKIM ≠ "pass" ∨ record.Row.PolicyEvaluated.SPF ≠ "pass")

/-- The reason string that aggregate.go, lines 83-95, builds for a record. -/
def Record.reason (record : Record) : String :=
  let reason := ""
  let reason :=
    if record.Row.PolicyEvaluated.DKIM ≠ "pass" then
      reason ++ ("DKIM:" ++ record.Row.PolicyEvaluated.DKIM ++ " ")
    else reason
  let reason :=
    if record.Row.PolicyEvaluated.SPF ≠ "pass" then
      reason ++ ("SPF:" ++ record.Row.PolicyEvaluated.SPF)
    else reason
  TrimSpace reason

/-- The `FailedRecord` that aggregate.go, lines 91-96, appends for a record. -/
def Record.failedRecord (record : Record) : FailedRecord :=
  { SourceIP := record.Row.SourceIP
    Domain := record.Identifiers.HeaderFrom
    Count := record.Row.Count
    Reason := record.reason }

/-- The reason string as the specification words it, for policy-evaluated DKIM `d` and SPF
`s` of a failed record: "DKIM:d" when only DKIM is not "pass", "SPF:s" when only SPF is not
"pass", "DKIM:d SPF:s" when both are not, trimmed of surrounding white space. -/
def reasonSpec (d s : String) : String :=
  if d ≠ "pass" ∧ s = "pass" then TrimSpace ("DKIM:" ++ d)
  else if d = "pass" ∧ s ≠ "pass" then TrimSpace ("SPF:" ++ s)
  else TrimSpace ("DKIM:" ++ d ++ " SPF:" ++ s)

/-- The first rune of the string is white space. -/
def hasLeadingSpace (s : String) : Bool :=
  match s.data.head? with
  | some c => isSpace c
  | none => false

/-- The last rune of the string is white space. -/
def hasTrailingSpace (s : String) : Bool :=
  match s.data.getLast? with
  | some c => isSpace c
  | none => false

/-- The statement `m[k]++` executed for each key of a list in turn. -/
def FreqMap.incAll (m : FreqMap) (keys : List String) : FreqMap :=
  keys.foldl FreqMap.inc m

/-- The date range after the two updates of aggregate.go, lines 62-67, for one report. -/
def DateRange.extend (dr : DateRange) (report : DMARCReport) : DateRange :=
  let dr :=
    if report.ReportMetadata.DateRange.Begin.Before dr.Begin then
      { dr with Begin := report.ReportMetadata.DateRange.Begin }
    else dr
  if report.ReportMetadata.DateRange.End.After dr.End then
    { dr with End := report.ReportMetadata.DateRange.End }
  else dr

/-- The record with its `Count` field set to 0: what is left of a record when its count is
disregarded. -/
def Record.eraseCount (record : Record) : Record :=
  { record with Row := { record.Row with Count := 0 } }

/-- The report with the `Count` field of every record set to 0. -/
def DMARCReport.eraseCounts (report : DMARCReport) : DMARCReport :=
  { report with Records := report.Records.map Record.eraseCount }

/-- The input begins, after leading white space, with the XML declaration `<?xml`. -/
def beginsWithXMLDeclaration (data : String) : Bool :=
  "<?xml".data.isPrefixOf (data.data.dropWhile isSpace)

/-- The input contains `<feedback` or `<report`. -/
def containsRootTag (data : String) : Bool :=
  Contains data "<feedback" || Contains data "<report"

/-! ## Sample data -/

/-- A record with the given source IP, count and policy-evaluated DKIM and SPF. -/
def sampleRecord (ip : String) (count : Int) (dkim spf : String) : Record :=
  { Row := { SourceIP := ip, Count := count,
             PolicyEvaluated := { Disposition := "none", DKIM := dkim, SPF := spf } }
    Identifiers := { HeaderFrom := "example.com" }
    AuthResults := { DKIM := [], SPF := [] } }

/-- A report of `example.com` with the given identifier, date range in Unix seconds and
records. -/
def sampleReport (id : String) (b e : Int) (records : List Record) : DMARCReport :=
  { ReportMetadata := { OrgName := "google.com", Email := "noreply@google.com",
                        ExtraContact := "", ReportID := id,
                        DateRange := ⟨Unix b 0, Unix e 0⟩ }
    PolicyPublished := { Domain := "example.com", ADKIM := "r", ASPF := "r", P := "none",
                         SP := "none", PCT := 100 }
    Records := records }

/-- A report for 2024-01-01 to 2024-01-05 with one failing and one passing record. -/
def sampleReportA : DMARCReport :=
  sampleReport "A" 1704067200 1704412800
    [sampleRecord "192.0.2.1" 5 "fail" "pass", sampleRecord "192.0.2.2" 7 "pass" "pass"]

/-- A report for 2024-01-03 to 2024-01-10 with one record failing both mechanisms. -/
def sampleReportB : DMARCReport :=
  sampleReport "B" 1704240000 1704844800 [sampleRecord "192.0.2.1" 2 "fail" "fail"]

/-- The report `sampleReportA` with other counts in its records. -/
def sampleReportA2 : DMARCReport :=
  sampleReport "A" 1704067200 1704412800
    [sampleRecord "192.0.2.1" 50 "fail" "pass", sampleRecord "192.0.2.2" 70 "pass" "pass"]

/-- The report with its date range replaced. -/
def DMARCReport.withDateRange (report : DMARCReport) (dr : DateRange) : DMARCReport :=
  { report with ReportMetadata := { report.ReportMetadata with DateRange := dr } }

/-- The text of a small report document with the given report identifier and begin of the
date range. -/
def sampleDocument (id begin_ : String) : String :=
  "<feedback><report_metadata><org_name>google.com</org_name><report_id>" ++ id ++
  "</report_id><date_range><begin>" ++ begin_ ++
  "</begin><end>1704412800</end></date_range></report_metadata>" ++
  "<policy_published><domain>example.com</domain></policy_published></feedback>"

/-- The steps of the decoder on `sampleDocument id begin_`: it stores the organisation
name and the report identifier, meets the date range, and stores the policy domain. -/
def sampleSteps (id begin_ : String) : List DecodeStep :=
  [ .field (fun r => { r with ReportMetadata := { r.ReportMetadata with OrgName := "google.com" } }),
    .field (fun r => { r with ReportMetadata := { r.ReportMetadata with ReportID := id } }),
    .dateRange (⟨begin_, "1704412800"⟩, none),
    .field (fun r => { r with PolicyPublished := { r.PolicyPublished with Domain := "example.com" } }) ]

/-- A world with one readable file, `report.xml`, holding `sampleDocument id begin_`
followed by a line end. -/
def sampleEnv (id begin_ : String) : Env :=
  { Stat := fun path =>
      if path = "report.xml" then .ok ((sampleDocument id begin_).length + 1)
      else .err (.errorString ("stat " ++ path ++ ": no such file or directory")) true
    ReadFile := fun path =>
      if path = "report.xml" then .ok (sampleDocument id begin_ ++ "\n")
      else .error (.errorString ("open " ++ path ++ ": no such file or directory"))
    xmlSteps := fun text =>
      if text = sampleDocument id begin_ then sampleSteps id begin_
      else [.fail (.errorString "EOF")] }

/-- The report that decoding `sampleDocument id begin_` leaves, when `begin_` is the
decimal text of `b`. -/
def sampleDecoded (id : String) (b : Int) : DMARCReport :=
  { ReportMetadata := { OrgName := "google.com", Email := "", ExtraContact := "", ReportID := id,
                        DateRange := ⟨Unix b 0, Unix 1704412800 0⟩ }
    PolicyPublished := { Domain := "example.com", ADKIM := "", ASPF := "", P := "", SP := "",
                         PCT := 0 }
    Records := [] }

/-- A world with one readable file, `notes.txt`, holding `data`. -/
def textFileEnv (data : String) : Env :=
  { Stat := fun path =>
      if path = "notes.txt" then .ok data.length
      else .err (.errorString ("stat " ++ path ++ ": no such file or directory")) true
    ReadFile := fun path =>
      if path = "notes.txt" then .ok data
      else .error (.errorString ("open " ++ path ++ ": no such file or directory"))
    xmlSteps := fun _ => [.fail (.errorString "EOF")] }

/-! ## Vocabulary of the properties: timestamps -/

/-- Method `Time.Unix()`: the seconds since the Unix epoch, `t.sec() + internalToUnix` in
`int64` arithmetic. -/
def Time.Unix (t : Time) : Int := wrapInt64 (t.sec + -unixToInternal)

/-- The value of a string of decimal digits read after the value `acc`; `none` when a
character is not a decimal digit. -/
def digitsValue (acc : Nat) : List Char → Option Nat
  | [] => some acc
  | c :: cs =>
    if '0' ≤ c ∧ c ≤ '9' then digitsValue (acc * 10 + (c.toNat - '0'.toNat)) cs else none

/-- The integer a string denotes as a base-10 signed 64-bit integer, as the specification
words it: an optional sign, then at least one decimal digit and nothing else, with a value
from `-2^63` to `2^63 - 1`; `none` for every other string. -/
def decimalInt64 (s : String) : Option Int :=
  match s.data with
  | [] => none
  | c :: cs =>
    let digits := if c = '+' ∨ c = '-' then cs else c :: cs
    match digits with
    | [] => none
    | d :: ds =>
      match digitsValue 0 (d :: ds) with
      | none => none
      | some v =>
        let n : Int := if c = '-' then -(v : Int) else (v : Int)
        if -(2 : Int) ^ 63 ≤ n ∧ n < (2 : Int) ^ 63 then some n else none

/-! ## Library: file paths (package path/filepath on Unix) -/

/-- The string of the single character backslash. -/
def backslash : String := String.singleton (Char.ofNat 92)

/-- Go `filepath.IsAbs` on Unix: the path begins with a slash. -/
def IsAbs (path : String) : Bool := HasPrefix path "/"

/-- Where the reading position of `filepath.Clean` stands: at the start of a path element,
inside a real path element that is being copied, or on the second dot of a `..` element. -/
inductive cleanMode where
  | elementStart
  | copying
  | secondDot
  deriving DecidableEq, Repr

/-- The index at which the `..` case of `filepath.Clean` truncates its buffer, starting
from `w`: `for out.w > dotdot && !os.IsPathSeparator(out.index(out.w)) { out.w-- }`. -/
def backtrackIndex (buf : List Char) (dotdot : Nat) : Nat → Nat
  | 0 => 0
  | w + 1 =>
    if w + 1 > dotdot ∧ buf.getD (w + 1) '/' ≠ '/' then backtrackIndex buf dotdot w
    else w + 1

/-- The loop of `filepath.Clean` over the rest of the path: `out` is the buffer written so
far, `dotdot` the index in it where `..` must stop. -/
def cleanLoop (rooted : Bool) : List Char → cleanMode → List Char → Nat → List Char
  | [], _, out, _ => out
  | _ :: rest, .secondDot, out, dotdot => cleanLoop rooted rest .elementStart out dotdot
  | c :: rest, .copying, out, dotdot =>
    if c = '/' then cleanLoop rooted rest .elementStart out dotdot
    else cleanLoop rooted rest .copying (out ++ [c]) dotdot
  | c :: rest, .elementStart, out, dotdot =>
    if c = '/' then
      -- empty path element
      cleanLoop rooted rest .elementStart out dotdot
    else if c = '.' ∧ (rest = [] ∨ rest.head? = some '/') then
      -- . element
      cleanLoop rooted rest .elementStart out dotdot
    else if c = '.' ∧ rest.head? = some '.' ∧
        (rest.tail = [] ∨ rest.tail.head? = some '/') then
      -- .. element: remove to last separator
      if out.length > dotdot then
        cleanLoop rooted rest .secondDot
          (out.take (backtrackIndex out dotdot (out.length - 1))) dotdot
      else if !rooted then
        let out1 := if out.length > 0 then out ++ ['/'] else out
        cleanLoop rooted rest .secondDot (out1 ++ ['.', '.']) (out1.length + 2)
      else cleanLoop rooted rest .secondDot out dotdot
    else
      -- real path element: add slash if needed, copy element
      let out1 :=
        if (rooted && decide (out.length ≠ 1)) || (!rooted && decide (out.length ≠ 0)) then
          out ++ ['/']
        else out
      cleanLoop rooted rest .copying (out1 ++ [c]) dotdot

/-- Go `filepath.Clean` on Unix: the shortest path name equivalent to `path` by purely
lexical processing. -/
def Clean (path : String) : String :=
  match path.data with
  | [] => "."
  | c :: rest =>
    let out :=
      if c = '/' then cleanLoop true rest .elementStart ['/'] 1
      else cleanLoop false (c :: rest) .elementStart [] 0
    if out.length = 0 then "." else ⟨out⟩

/-- Go `strings.Join`: the elements with `sep` between them. -/
def stringsJoin : List String → String → String
  | [], _ => ""
  | [a], _ => a
  | a :: b :: rest, sep => a ++ sep ++ stringsJoin (b :: rest) sep

/-- Go `filepath.Join(dir, name)`: the non-empty elements joined with a slash, cleaned. -/
def Join (dir name : String) : String :=
  if dir ≠ "" then Clean (stringsJoin [dir, name] "/")
  else if name ≠ "" then Clean (stringsJoin [name] "/")
  else ""

/-! ## Package storage (storage.go) -/

/-- What `LoadReports` uses of an `os.DirEntry`: its name and whether it is a directory. -/
structure DirEntry where
  Name : String
  IsDir : Bool
  deriving DecidableEq, Repr

/-- Struct `ReportLoader`. -/
structure ReportLoader where
  ConfigDir : String
  deriving DecidableEq, Repr

/-- Variable `ErrNoReports`. -/
def ErrNoReports : GoError := .errorString "no DMARC reports found"

/-- Function `errors.Is`: the error or one of the errors it wraps is the target.  Go
compares `errors.New` values by identity; here two such values are the same when their
messages are. -/
def GoError.Is : GoError → GoError → Bool
  | .errorString msg, target => decide (GoError.errorString msg = target)
  | .wrapError pre err post, target =>
    decide (GoError.wrapError pre err post = target) || GoError.Is err target
  | .numError fn num err, target =>
    decide (GoError.numError fn num err = target) || GoError.Is err target

/-- The local variables of `LoadReports` during its loop, and `parsed`, the file paths that
were passed to `ParseDMARCReport` so far, in call order. -/
structure loadState where
  reports : List DMARCReport
  parseErrors : List String
  successCount : Nat
  failureCount : Nat
  parsed : List String
  deriving DecidableEq, Repr

/-- The body of the loop of `LoadReports` (storage.go, lines 93-132) for one entry. -/
def loadReportsStep (env : Env) (quote : String → String) (l : ReportLoader)
    (st : loadState) (file : DirEntry) : loadState :=
  if file.IsDir then st
  else
    let filename := file.Name
    let cleanPath := Clean filename
    if cleanPath ≠ filename ∨ IsAbs cleanPath = true ∨ Contains cleanPath ".." = true ∨
        Contains cleanPath "/" = true ∨ Contains cleanPath backslash = true then
      { st with
        parseErrors := st.parseErrors ++
          ["Security warning: skipping suspicious filename: " ++ filename]
        failureCount := st.failureCount + 1 }
    else
      let filePath := Join l.ConfigDir filename
      match ParseDMARCReport env filePath with
      | (_, some err) =>
        { st with
          parsed := st.parsed ++ [filePath]
          parseErrors := st.parseErrors ++
            ["Error parsing " ++ filename ++ ": " ++ err.Error quote]
          failureCount := st.failureCount + 1 }
      | (report, none) =>
        { st with
          parsed := st.parsed ++ [filePath]
          reports := st.reports ++ [report]
          successCount := st.successCount + 1 }

/-- What a call of `LoadReports` yields: the two returned values, the text printed on the
standard output, and the file paths passed to `ParseDMARCReport`, in call order. -/
structure LoadResult where
  reports : List DMARCReport
  err : Option GoError
  stdout : String
  parsed : List String
  deriving DecidableEq, Repr

/-- The lines `fmt.Println(errMsg)` for each message, in order. -/
def printLines : List String → String
  | [] => ""
  | msg :: rest => msg ++ "\n" ++ printLines rest

/-- Method `(*ReportLoader).LoadReports` (storage.go, lines 72-159).  `ReadDir` is
`os.ReadDir`, `quote` is `strconv.Quote`. -/
def LoadReports (env : Env) (ReadDir : String → Except GoError (List DirEntry))
    (quote : String → String) (l : ReportLoader) : LoadResult :=
  match ReadDir l.ConfigDir with
  | .error err =>
    { reports := []
      err := some (.wrapError ("failed to read directory " ++ l.ConfigDir ++ ": ") err "")
      stdout := "", parsed := [] }
  | .ok files =>
    if files.length = 0 then
      { reports := []
        err := some (.wrapError "" ErrNoReports (" in " ++ l.ConfigDir))
        stdout := "", parsed := [] }
    else
      let st := files.foldl (loadReportsStep env quote l)
        { reports := [], parseErrors := [], successCount := 0, failureCount := 0, parsed := [] }
      if st.reports.length = 0 then
        if st.parseErrors.length > 0 then
          { reports := []
            err := some (.errorString
              ("failed to parse any reports: " ++ stringsJoin st.parseErrors "; "))
            stdout := "", parsed := st.parsed }
        else { reports := [], err := some ErrNoReports, stdout := "", parsed := st.parsed }
      else if st.parseErrors.length > 0 then
        { reports := st.reports
          err := none
          stdout := "Warning: " ++ toString st.failureCount ++ " of " ++
            toString (st.successCount + st.failureCount) ++ " files failed to parse\n" ++
            printLines st.parseErrors
          parsed := st.parsed }
      else { reports := st.reports, err := none, stdout := "", parsed := st.parsed }

/-! ## Package main and package ui: the start-up error (main.go, app.go) -/

/-- The error that `NewModel` returns when the initial `LoadReports` fails with `err`
(app.go, line 86). -/
def startupLoadError (err : GoError) : GoError :=
  .wrapError "failed to load reports: " err ""

/-- The onboarding guidance that `handleStartupError` prints for the no-reports condition
(main.go, lines 57-60). -/
def noReportsGuidance : String :=
  "No DMARC reports found!\n" ++ "To use godmarc:\n" ++
  "1. Place your DMARC XML reports in ~/.godmarc\n" ++ "2. Run godmarc again\n"

/-- Function `handleStartupError` (main.go, lines 54-82): the text it prints.
`IsPermission` is `os.IsPermission`. -/
def handleStartupError (quote : String → String) (IsPermission : GoError → Bool)
    (err : GoError) : String :=
  if Contains (err.Error quote) (ErrNoReports.Error quote) then
    noReportsGuidance
  else if IsPermission err then
    "Permission denied when accessing the configuration directory.\n" ++
    "Please check permissions for ~/.godmarc\n"
  else if Contains (err.Error quote) "home directory" then
    "Could not determine your home directory.\n" ++
    "godmarc stores configuration in ~/.godmarc\n"
  else
    "Error initializing application: " ++ err.Error quote ++ "\n"

/-! ## Vocabulary of the properties: the loader -/

/-- The condition of the specification on a file name: it differs from its cleaned form,
is an absolute path, or contains "..", "/" or a backslash. -/
def suspiciousName (name : String) : Bool :=
  decide (Clean name ≠ name) || IsAbs name || Contains name ".." || Contains name "/" ||
    Contains name backslash

/-- The segments of a path: the pieces between its separators (slash and backslash). -/
def pathSegments (path : String) : List (List Char) :=
  path.data.splitOn '/' |>.flatMap (fun seg => seg.splitOn (Char.ofNat 92))

/-- The name has a parent-directory segment: one of its segments is `..`. -/
def hasParentSegment (name : String) : Bool :=
  decide (['.', '.'] ∈ pathSegments name)

/-- What `LoadReports` makes of one candidate file: the report when the name is accepted
and the file parses, otherwise the message it records. -/
def fileOutcome (env : Env) (quote : String → String) (l : ReportLoader) (file : DirEntry) :
    Except String DMARCReport :=
  if suspiciousName file.Name then
    .error ("Security warning: skipping suspicious filename: " ++ file.Name)
  else
    match ParseDMARCReport env (Join l.ConfigDir file.Name) with
    | (_, some err) => .error ("Error parsing " ++ file.Name ++ ": " ++ err.Error quote)
    | (report, none) => .ok report

/-- The candidate files of a listing: its entries that are not directories. -/
def candidates (files : List DirEntry) : List DirEntry :=
  files.filter (fun f => !f.IsDir)

/-- The reports of the candidates that parse, in enumeration order. -/
def successes (env : Env) (quote : String → String) (l : ReportLoader)
    (files : List DirEntry) : List DMARCReport :=
  (candidates files).filterMap (fun f =>
    match fileOutcome env quote l f with
    | .ok report => some report
    | .error _ => none)

/-- The messages of the candidates that are rejected or fail to parse, in enumeration
order. -/
def failures (env : Env) (quote : String → String) (l : ReportLoader)
    (files : List DirEntry) : List String :=
  (candidates files).filterMap (fun f =>
    match fileOutcome env quote l f with
    | .ok _ => none
    | .error msg => some msg)

/-- The file paths of the candidates whose name is accepted, in enumeration order. -/
def acceptedPaths (l : ReportLoader) (files : List DirEntry) : List String :=
  ((candidates files).filter (fun f => !suspiciousName f.Name)).map
    (fun f => Join l.ConfigDir f.Name)

/-! ## Sample data: a directory of reports -/

/-- A world whose files are those of `files` (name and content) inside the directory
`dir`, each content in `docs` (identifier and begin) decoding as that sample document. -/
def dirEnv (dir : String) (files : List (String × String)) (docs : List (String × String)) :
    Env :=
  { Stat := fun path =>
      match files.find? (fun f => dir ++ "/" ++ f.1 = path) with
      | some f => .ok f.2.length
      | none => .err (.errorString ("stat " ++ path ++ ": no such file or directory")) true
    ReadFile := fun path =>
      match files.find? (fun f => dir ++ "/" ++ f.1 = path) with
      | some f => .ok f.2
      | none => .error (.errorString ("open " ++ path ++ ": no such file or directory"))
    xmlSteps := fun text =>
      match docs.find? (fun d => sampleDocument d.1 d.2 = text) with
      | some d => sampleSteps d.1 d.2
      | none => [.fail (.errorString "EOF")] }

/-- The directory of the sample loader. -/
def sampleLoader : ReportLoader := ⟨"/home/u/.godmarc"⟩

/-- Three parseable report files and two malformed files. -/
def sampleDirEnv : Env :=
  dirEnv "/home/u/.godmarc"
    [("a.xml", sampleDocument "A" "1704067200"), ("b.xml", sampleDocument "B" "1704153600"),
     ("c.xml", sampleDocument "C" "1704240000"), ("d.txt", "hello"),
     ("e.xml", sampleDocument "E" "x")]
    [("A", "1704067200"), ("B", "1704153600"), ("C", "1704240000"), ("E", "x")]

/-- The listing of the sample directory: five files and one subdirectory. -/
def sampleListing : List DirEntry :=
  [⟨"a.xml", false⟩, ⟨"archive", true⟩, ⟨"d.txt", false⟩, ⟨"b.xml", false⟩,
   ⟨"e.xml", false⟩, ⟨"c.xml", false⟩]

/-- Function `os.ReadDir` of a world in which the sample directory has `listing`. -/
def sampleReadDir (listing : List DirEntry) : String → Except GoError (List DirEntry) :=
  fun dir =>
    if dir = "/home/u/.godmarc" then .ok listing
    else .error (.errorString ("open " ++ dir ++ ": no such file or directory"))

/-- A world whose sample directory holds the single file `name`, a plain text file. -/
def oneTextFileEnv (name : String) : Env :=
  dirEnv "/home/u/.godmarc" [(name, "hello")] []

/-! ## Library: package sort (pattern-defeating quicksort, Go 1.19 and later)

The slice is a list; an index out of range (a panic in Go) and the exhaustion of the fuel
of a loop both give `none`. -/

/-- The call `data.Less(i, j)`: `less` on the elements at `i` and `j`. -/
def lessAt {α : Type} (less : α → α → Bool) (data : List α) (i j : Nat) : Option Bool :=
  match data[i]?, data[j]? with
  | some x, some y => some (less x y)
  | _, _ => none

/-- The call `data.Swap(i, j)`. -/
def swapAt {α : Type} (data : List α) (i j : Nat) : Option (List α) :=
  match data[i]?, data[j]? with
  | some x, some y => some ((data.set i y).set j x)
  | _, _ => none

/-- The inner loop of `insertionSort_func`:
`for j := i; j > a && data.Less(j, j-1); j-- { data.Swap(j, j-1) }`. -/
def insertionInner {α : Type} (less : α → α → Bool) (a : Nat) :
    Nat → List α → Option (List α)
  | 0, data => some data
  | j + 1, data =>
    if j + 1 > a then
      match lessAt less data (j + 1) j with
      | none => none
      | some true =>
        match swapAt data (j + 1) j with
        | none => none
        | some data1 => insertionInner less a j data1
      | some false => some data
    else some data

/-- The outer loop of `insertionSort_func`, `count` iterations from index `i`. -/
def insertionOuter {α : Type} (less : α → α → Bool) (a : Nat) :
    Nat → Nat → List α → Option (List α)
  | 0, _, data => some data
  | count + 1, i, data =>
    match insertionInner less a i data with
    | none => none
    | some data1 => insertionOuter less a count (i + 1) data1

/-- Function `insertionSort_func(data, a, b)`: `for i := a + 1; i < b; i++ { ... }`. -/
def insertionSort_func {α : Type} (less : α → α → Bool) (data : List α) (a b : Nat) :
    Option (List α) :=
  insertionOuter less a (b - (a + 1)) (a + 1) data

/-- Function `siftDown_func(data, lo, hi, first)`, with `root` starting at `lo`. -/
def siftDown_func {α : Type} (less : α → α → Bool) (hi first : Nat) :
    Nat → Nat → List α → Option (List α)
  | 0, _, _ => none
  | fuel + 1, root, data =>
    let child := 2 * root + 1
    if child ≥ hi then some data
    else do
      let child1 ←
        if child + 1 < hi then do
          let lt ← lessAt less data (first + child) (first + child + 1)
          pure (if lt then child + 1 else child)
        else pure child
      let lt ← lessAt less data (first + root) (first + child1)
      if !lt then pure data
      else do
        let data1 ← swapAt data (first + root) (first + child1)
        siftDown_func less hi first fuel child1 data1

/-- The first loop of `heapSort_func`: `siftDown_func(data, i, hi, first)` for `i` from
`n - 1` down to 0. -/
def heapBuild {α : Type} (less : α → α → Bool) (hi first : Nat) :
    Nat → List α → Option (List α)
  | 0, data => some data
  | n + 1, data => do
    let data1 ← siftDown_func less hi first (hi + 1) n data
    heapBuild less hi first n data1

/-- The second loop of `heapSort_func`: for `i` from `n - 1` down to 0,
`data.Swap(first, first+i); siftDown_func(data, lo, i, first)`. -/
def heapPop {α : Type} (less : α → α → Bool) (first : Nat) :
    Nat → List α → Option (List α)
  | 0, data => some data
  | n + 1, data => do
    let data1 ← swapAt data first (first + n)
    let data2 ← siftDown_func less n first (n + 1) 0 data1
    heapPop less first n data2

/-- Function `heapSort_func(data, a, b)`. -/
def heapSort_func {α : Type} (less : α → α → Bool) (data : List α) (a b : Nat) :
    Option (List α) := do
  let hi := b - a
  let data1 ← heapBuild less hi a ((hi - 1) / 2 + 1) data
  heapPop less a hi data1

/-- The loop `for i <= j && test(i) { i++ }`: the final `i`. -/
def scanUp (test : Nat → Option Bool) : Nat → Nat → Nat → Option Nat
  | 0, _, _ => none
  | fuel + 1, i, j =>
    if i ≤ j then
      match test i with
      | none => none
      | some true => scanUp test fuel (i + 1) j
      | some false => some i
    else some i

/-- The loop `for i <= j && test(j) { j-- }`: the final `j`. -/
def scanDown (test : Nat → Option Bool) : Nat → Nat → Nat → Option Nat
  | 0, _, _ => none
  | fuel + 1, i, j =>
    if i ≤ j then
      match test j with
      | none => none
      | some true => scanDown test fuel i (j - 1)
      | some false => some j
    else some j

/-- The main loop of `partition_func`, from the indices `i` and `j`: the slice and the
final `j`. -/
def partitionLoop {α : Type} (less : α → α → Bool) (a : Nat) :
    Nat → List α → Nat → Nat → Option (List α × Nat)
  | 0, _, _, _ => none
  | fuel + 1, data, i, j => do
    let i1 ← scanUp (fun k => lessAt less data k a) (data.length + 1) i j
    let j1 ← scanDown (fun k => (lessAt less data k a).map (fun lt => !lt))
      (data.length + 1) i1 j
    if i1 > j1 then pure (data, j1)
    else do
      let data1 ← swapAt data i1 j1
      partitionLoop less a fuel data1 (i1 + 1) (j1 - 1)

/-- Function `partition_func(data, a, b, pivot)`: the slice, the new pivot index and
whether the slice was already partitioned. -/
def partition_func {α : Type} (less : α → α → Bool) (data : List α) (a b pivot : Nat) :
    Option (List α × Nat × Bool) := do
  let data0 ← swapAt data a pivot
  let i ← scanUp (fun k => lessAt less data0 k a) (data0.length + 1) (a + 1) (b - 1)
  let j ← scanDown (fun k => (lessAt less data0 k a).map (fun lt => !lt))
    (data0.length + 1) i (b - 1)
  if i > j then do
    let data1 ← swapAt data0 j a
    pure (data1, j, true)
  else do
    let data1 ← swapAt data0 i j
    let (data2, j2) ← partitionLoop less a (data1.length + 1) data1 (i + 1) (j - 1)
    let data3 ← swapAt data2 j2 a
    pure (data3, j2, false)

/-- The loop of `partitionEqual_func`, from the indices `i` and `j`: the slice and the
final `i`. -/
def partitionEqualLoop {α : Type} (less : α → α → Bool) (a : Nat) :
    Nat → List α → Nat → Nat → Option (List α × Nat)
  | 0, _, _, _ => none
  | fuel + 1, data, i, j => do
    let i1 ← scanUp (fun k => (lessAt less data a k).map (fun lt => !lt))
      (data.length + 1) i j
    let j1 ← scanDown (fun k => lessAt less data a k) (data.length + 1) i1 j
    if i1 > j1 then pure (data, i1)
    else do
      let data1 ← swapAt data i1 j1
      partitionEqualLoop less a fuel data1 (i1 + 1) (j1 - 1)

/-- Function `partitionEqual_func(data, a, b, pivot)`: the slice and the new pivot. -/
def partitionEqual_func {α : Type} (less : α → α → Bool) (data : List α) (a b pivot : Nat) :
    Option (List α × Nat) := do
  let data0 ← swapAt data a pivot
  partitionEqualLoop less a (data0.length + 1) data0 (a + 1) (b - 1)

/-- The loop `for j := start; j >= 1; j-- { if !data.Less(j, j-1) { break };
data.Swap(j, j-1) }` of `partialInsertionSort_func`. -/
def shiftLeft {α : Type} (less : α → α → Bool) : Nat → List α → Option (List α)
  | 0, data => some data
  | j + 1, data => do
    let lt ← lessAt less data (j + 1) j
    if !lt then pure data
    else do
      let data1 ← swapAt data (j + 1) j
      shiftLeft less j data1

/-- The loop `for j := start; j < b; j++ { if !data.Less(j, j-1) { break };
data.Swap(j, j-1) }` of `partialInsertionSort_func`, `count` iterations at most. -/
def shiftRight {α : Type} (less : α → α → Bool) : Nat → Nat → List α → Option (List α)
  | 0, _, data => some data
  | count + 1, j, data => do
    let lt ← lessAt less data j (j - 1)
    if !lt then pure data
    else do
      let data1 ← swapAt data j (j - 1)
      shiftRight less count (j + 1) data1

/-- The loop of `partialInsertionSort_func` over its steps, from index `i`: the slice and
whether it is sorted at the end. -/
def partialInsertionLoop {α : Type} (less : α → α → Bool) (a b : Nat) :
    Nat → Nat → List α → Option (List α × Bool)
  | 0, _, data => some (data, false)
  | steps + 1, i, data => do
    let i1 ← scanUp (fun k => (lessAt less data k (k - 1)).map (fun lt => !lt))
      (data.length + 1) i (b - 1)
    if i1 = b then pure (data, true)
    else if b - a < 50 then pure (data, false)
    else do
      let data1 ← swapAt data i1 (i1 - 1)
      let data2 ← if i1 - a ≥ 2 then shiftLeft less (i1 - 1) data1 else pure data1
      let data3 ←
        if b - i1 ≥ 2 then shiftRight less (b - (i1 + 1)) (i1 + 1) data2 else pure data2
      partialInsertionLoop less a b steps i1 data3

/-- Function `partialInsertionSort_func(data, a, b)`, with `maxSteps = 5` and
`shortestShifting = 50`. -/
def partialInsertionSort_func {α : Type} (less : α → α → Bool) (data : List α) (a b : Nat) :
    Option (List α × Bool) :=
  partialInsertionLoop less a b 5 (a + 1) data

/-- Function `bits.Len` on a 64-bit word: the number of bits needed to write `x`. -/
def bitsLen (x : Nat) : Nat :=
  (List.range 64).foldl (fun n k => if x / 2 ^ k > 0 then k + 1 else n) 0

/-- The loop of `breakPatterns_func`: three swaps at pseudo-random places, of the elements
at `idx`, `idx + 1` and `idx + 2`, where `idx` is `a + (length/4)*2 - 1`; `next` is the
method `Next` of the `xorshift` generator, from state to state. -/
def breakPatternsLoop {α : Type} (next : Nat → Nat) (a length modulus idx : Nat) :
    Nat → Nat → Nat → List α → Option (List α)
  | 0, _, _, data => some data
  | count + 1, i, random, data => do
    let random1 := next random
    let other0 := random1 % modulus
    let other := if other0 ≥ length then other0 - length else other0
    let data1 ← swapAt data (idx + i) (a + other)
    breakPatternsLoop next a length modulus idx count (i + 1) random1 data1

/-- Function `breakPatterns_func(data, a, b)`. -/
def breakPatterns_func {α : Type} (next : Nat → Nat) (data : List α) (a b : Nat) :
    Option (List α) :=
  let length := b - a
  if length ≥ 8 then
    breakPatternsLoop next a length (2 ^ bitsLen length) (a + (length / 4) * 2 - 1) 3 0
      length data
  else some data

/-- Function `order2_func(data, a, b, swaps)`: the two indices in order and the new count
of swaps. -/
def order2_func {α : Type} (less : α → α → Bool) (data : List α) (a b swaps : Nat) :
    Option (Nat × Nat × Nat) := do
  let lt ← lessAt less data b a
  if lt then pure (b, a, swaps + 1) else pure (a, b, swaps)

/-- Function `median_func(data, a, b, c, swaps)`: the index of the median and the new
count of swaps. -/
def median_func {α : Type} (less : α → α → Bool) (data : List α) (a b c swaps : Nat) :
    Option (Nat × Nat) := do
  let (a1, b1, s1) ← order2_func less data a b swaps
  let (b2, _, s2) ← order2_func less data b1 c s1
  let (_, b3, s3) ← order2_func less data a1 b2 s2
  pure (b3, s3)

/-- The hint of `choosePivot_func` on the order of the slice. -/
inductive sortedHint where
  | unknownHint
  | increasingHint
  | decreasingHint
  deriving DecidableEq, Repr

/-- Function `choosePivot_func(data, a, b)`, with `shortestNinther = 50` and
`maxSwaps = 4 * 3`. -/
def choosePivot_func {α : Type} (less : α → α → Bool) (data : List α) (a b : Nat) :
    Option (Nat × sortedHint) := do
  let l := b - a
  let i := a + l / 4 * 1
  let j := a + l / 4 * 2
  let k := a + l / 4 * 3
  let (j1, swaps) ←
    if l ≥ 8 then do
      let (i1, j0, k1, s1) ←
        if l ≥ 50 then do
          let (i1, s1) ← median_func less data (i - 1) i (i + 1) 0
          let (j0, s2) ← median_func less data (j - 1) j (j + 1) s1
          let (k1, s3) ← median_func less data (k - 1) k (k + 1) s2
          pure (i1, j0, k1, s3)
        else pure (i, j, k, 0)
      median_func less data i1 j0 k1 s1
    else pure (j, 0)
  if swaps = 0 then pure (j1, .increasingHint)
  else if swaps = 4 * 3 then pure (j1, .decreasingHint)
  else pure (j1, .unknownHint)

/-- Function `reverseRange_func(data, a, b)`: `count` swaps from the two ends. -/
def reverseRangeLoop {α : Type} : Nat → Nat → Nat → List α → Option (List α)
  | 0, _, _, data => some data
  | count + 1, i, j, data =>
    if i < j then do
      let data1 ← swapAt data i j
      reverseRangeLoop count (i + 1) (j - 1) data1
    else some data

/-- Function `pdqsort_func(data, a, b, limit)`, with its loop variables `wasBalanced` and
`wasPartitioned`; `maxInsertion = 12`. -/
def pdqsort_func {α : Type} (less : α → α → Bool) (next : Nat → Nat) :
    Nat → List α → Nat → Nat → Nat → Bool → Bool → Option (List α)
  | 0, _, _, _, _, _, _ => none
  | fuel + 1, data, a, b, limit, wasBalanced, wasPartitioned =>
    let length := b - a
    if length ≤ 12 then insertionSort_func less data a b
    else if limit = 0 then heapSort_func less data a b
    else do
      let (data1, limit1) ←
        if !wasBalanced then do
          let d ← breakPatterns_func next data a b
          pure (d, limit - 1)
        else pure (data, limit)
      let (pivot0, hint0) ← choosePivot_func less data1 a b
      let (data2, pivot, hint) ←
        if hint0 = .decreasingHint then do
          let d ← reverseRangeLoop (b - a) a (b - 1) data1
          pure (d, (b - 1) - (pivot0 - a), sortedHint.increasingHint)
        else pure (data1, pivot0, hint0)
      let (data3, sorted) ←
        if wasBalanced && wasPartitioned && decide (hint = .increasingHint) then
          partialInsertionSort_func less data2 a b
        else pure (data2, false)
      if sorted then pure data3
      else do
        let dup ← if a > 0 then (lessAt less data3 (a - 1) pivot).map (fun lt => !lt)
          else pure false
        if dup then do
          let (data4, mid) ← partitionEqual_func less data3 a b pivot
          pdqsort_func less next fuel data4 mid b limit1 wasBalanced wasPartitioned
        else do
          let (data4, mid, alreadyPartitioned) ← partition_func less data3 a b pivot
          let leftLen := mid - a
          let rightLen := b - mid
          let balanceThreshold := length / 8
          if leftLen < rightLen then do
            let data5 ← pdqsort_func less next fuel data4 a mid limit1 true true
            pdqsort_func less next fuel data5 (mid + 1) b limit1
              (decide (leftLen ≥ balanceThreshold)) alreadyPartitioned
          else do
            let data5 ← pdqsort_func less next fuel data4 (mid + 1) b limit1 true true
            pdqsort_func less next fuel data5 a mid limit1
              (decide (rightLen ≥ balanceThreshold)) alreadyPartitioned

/-- Go `sort.Slice(x, less)`: `pdqsort_func(data, 0, length, bits.Len(length))`.  The
fuel bounds the number of nested rounds of the loop of `pdqsort_func`. -/
def sortSlice {α : Type} (less : α → α → Bool) (next : Nat → Nat) (data : List α) :
    Option (List α) :=
  pdqsort_func less next (data.length + 1) data 0 data.length (bitsLen data.length) true true

/-- The method `Next` of the `xorshift` generator of package sort, on 64-bit words. -/
def xorshiftNext (r : Nat) : Nat :=
  let r1 := Nat.xor r (r * 2 ^ 13 % 2 ^ 64)
  let r2 := Nat.xor r1 (r1 / 2 ^ 7)
  Nat.xor r2 (r2 * 2 ^ 17 % 2 ^ 64)

/-! ## Package storage: sorting (storage.go) -/

/-- What a call of `sort.Slice(reports, less)` does to the slice, as a function from the
slice before the call to the slice after it; `less` is given on the elements. -/
abbrev SliceSorter := (DMARCReport → DMARCReport → Bool) → List DMARCReport → List DMARCReport

/-- The `less` function that `SortReportsByDate` passes to `sort.Slice` (storage.go, lines
163-168): the begin of the first report is after the begin of the second. -/
def newestFirst (ri rj : DMARCReport) : Bool :=
  ri.ReportMetadata.DateRange.Begin.After rj.ReportMetadata.DateRange.Begin

/-- Function `SortReportsByDate` (storage.go, lines 162-169): the slice after the call.
`slice` is `sort.Slice`. -/
def SortReportsByDate (slice : SliceSorter) (reports : List DMARCReport) : List DMARCReport :=
  slice newestFirst reports

/-- Go's `sort.Slice` on reports, by the pattern-defeating quicksort of package sort. -/
def goSlice : SliceSorter :=
  fun less data => (sortSlice less xorshiftNext data).getD data

/-! ## Vocabulary of the properties: sorting -/

/-- The requirement of package sort on a `less` function: it is a strict weak ordering
(irreflexive, transitive, and with a transitive incomparability). -/
def IsStrictWeakOrder {α : Type} (less : α → α → Bool) : Prop :=
  (∀ x, less x x = false) ∧
  (∀ x y z, less x y = true → less y z = true → less x z = true) ∧
  (∀ x y z, less x y = false → less y z = false → less x z = false)

/-- The contract of `sort.Slice` in the documentation of package sort: the slice is
rearranged (only swaps are made), and when `less` is a strict weak ordering the slice ends
sorted, which is what `sort.SliceIsSorted` tests: no element is less than the element right
before it. -/
def SortsSlices (slice : SliceSorter) : Prop :=
  (∀ less data, (slice less data).Perm data) ∧
  (∀ less, IsStrictWeakOrder less → ∀ data,
    (slice less data).Chain' (fun x y => less y x = false))

/-- A sorting function that meets the contract of `sort.Slice`: insertion into a sorted
list. -/
def insertionSlice : SliceSorter :=
  fun less data => data.insertionSort (fun x y => less y x = false)

/-- The reports of a list whose begin is the instant of `t`, in their order in the list. -/
def reportsAt (t : Time) (reports : List DMARCReport) : List DMARCReport :=
  reports.filter (fun r => r.ReportMetadata.DateRange.Begin.Equal t)

/-- Thirteen reports without records: twelve that begin at 2024-01-01, with the
identifiers 0 to 11, followed by one that begins at 2024-01-02, with the identifier 12. -/
def thirteenReports : List DMARCReport :=
  ["0", "1", "2", "3", "4", "5", "6", "7", "8", "9", "10", "11"].map
      (fun id => sampleReport id 1704067200 1704412800 []) ++
    [sampleReport "12" 1704153600 1704412800 []]

/-- One pass of the inner loop of insertion sort, seen on the sorted part read from its
right end: `x` moves left past every element it is less than. -/
def insertFromRight {α : Type} (less : α → α → Bool) (x : α) : List α → List α
  | [] => [x]
  | y :: ys => if less x y then y :: insertFromRight less x ys else x :: y :: ys

/-- The sorted part of insertion sort after all elements of `data` were inserted in turn,
read from its right end. -/
def insertAll {α : Type} (less : α → α → Bool) (sortedPart data : List α) : List α :=
  data.foldl (fun acc x => insertFromRight less x acc) sortedPart

/-! ## Library: the bytes of a string -/

/-- The bytes of a Go string whose runes are the characters of `s`: its UTF-8 encoding.
The Go expression `len(s)` is the length of this list, and `s[:k]` keeps its first `k`
elements. -/
def goBytes (s : String) : List UInt8 := s.data.flatMap String.utf8EncodeChar

/-! ## Package formatter: helpers (report.go) -/

/-- Function `TruncateString` (report.go, lines 121-126), on the bytes of `s`.  The
subtraction `maxLen-3` is made on 64-bit integers; `none` is the run-time panic of the
slice expression `s[:maxLen-3]` when its bound is negative or exceeds `len(s)`. -/
def TruncateString (s : List UInt8) (maxLen : Int) : Option (List UInt8) :=
  if (s.length : Int) ≤ maxLen then some s
  else
    let high := wrapInt64 (maxLen - 3)
    if 0 ≤ high ∧ high ≤ (s.length : Int) then some (s.take high.toNat ++ goBytes "...")
    else none

/-- Function `Max` (report.go, lines 129-134). -/
def Max (a b : Nat) : Nat := if a > b then a else b

/-- Function `Min` (report.go, lines 137-142). -/
def Min (a b : Nat) : Nat := if a < b then a else b

/-! ## Vocabulary of the properties: the first extreme element of a sequence -/

/-- The loop `for _, t := range ts { if lt(t, acc) { acc = t } }` started at `a`: the value
of `acc` at its end. -/
def pickFirst {α : Type} (lt : α → α → Bool) (a : α) (ts : List α) : α :=
  ts.foldl (fun acc t => if lt t acc then t else acc) a

/-! ## Library: package fmt -/

/-- The verb `%-Ns` of `fmt.Sprintf` on a string, `N` being `width`: spaces are added on
the right until the text has `width` runes. -/
def padRight (width : Nat) (s : String) : String :=
  s ++ String.mk (List.replicate (width - s.length) ' ')

/-- The verb `%-*s` of `fmt.Sprintf` on a string, the width being an argument: a width
above 1000000 is refused, the text "%!(BADWIDTH)" is written and the string follows
without padding. -/
def padRightStar (width : Nat) (s : String) : String :=
  if width > 1000000 then "%!(BADWIDTH)" ++ s else padRight width s

/-- The verb `%-Ns` on a string given by its bytes; `RuneCount` is `utf8.RuneCount`. -/
def padRightBytes (RuneCount : List UInt8 → Nat) (width : Nat) (s : List UInt8) :
    List UInt8 :=
  s ++ List.replicate (width - RuneCount s) 32

/-! ## Package formatter: the aggregated report (aggregate.go) -/

/-- The local type `sourceCount` of `FormatAggregatedReport` (aggregate.go, lines
162-165). -/
structure sourceCount where
  source : String
  count : Nat
  deriving DecidableEq, Repr

/-- What `FormatAggregatedReport` and `FormatReport` take from outside the two files of
the package: the two styles of the package (their declaration is in another file),
`time.Time.Format` with the layout "2006-01-02", the two sorting functions of package sort
as functions from the slice before the call to the slice after it, and
`utf8.RuneCount`, by which package fmt measures a padded string. -/
structure FormatLib where
  Render : String → String
  SelectedRender : String → String
  Format : Time → String
  Strings : List String → List String
  Slice : (sourceCount → sourceCount → Bool) → List sourceCount → List sourceCount
  RuneCount : List UInt8 → Nat

/-- The order in which each `range` statement of `FormatAggregatedReport` over a map
visits the entries of the map: for each of the eight statements, a function from the map
to the sequence of entries visited. -/
structure RangeOrders where
  domains : FreqMap → List (String × Nat)
  dispositionLengths : FreqMap → List (String × Nat)
  dkimLengths : FreqMap → List (String × Nat)
  spfLengths : FreqMap → List (String × Nat)
  dispositions : FreqMap → List (String × Nat)
  dkimResults : FreqMap → List (String × Nat)
  spfResults : FreqMap → List (String × Nat)
  sources : FreqMap → List (String × Nat)

/-- The overview (aggregate.go, lines 30-35). -/
def formatOverview (lib : FormatLib) (aggr : AggregatedReport) : String :=
  lib.Render "Aggregated Report" ++ "\n" ++
  ("  Total Reports:    " ++ toString aggr.TotalReports ++ "\n") ++
  ("  Total Records:    " ++ toString aggr.TotalRecords ++ "\n") ++
  ("  Date Range:       " ++ lib.Format aggr.DateRange.Begin ++ " to " ++
    lib.Format aggr.DateRange.End ++ "\n")

/-- The slice `domainEntries` after `sort.Strings` (aggregate.go, lines 41-52). -/
def domainEntries (lib : FormatLib) (visited : List (String × Nat)) : List String :=
  lib.Strings (visited.map (fun p => padRight 35 p.1 ++ " " ++ toString p.2))

/-- The loop over `domainEntries` (aggregate.go, lines 55-63), on the pair of the text
written and the variable `domainLine`; `i` is the index of the first entry of the list. -/
def domainsLoop : List String → Nat → String × String → String × String
  | [], _, state => state
  | entry :: rest, i, (sb, domainLine) =>
    if i % 2 = 0 then domainsLoop rest (i + 1) (sb, "  " ++ entry)
    else domainsLoop rest (i + 1) (sb ++ (padRight 50 domainLine ++ " " ++ entry ++ "\n"), "")

/-- The section "Domains" (aggregate.go, lines 38-68). -/
def formatDomains (lib : FormatLib) (visited : List (String × Nat)) : String :=
  let sb := "\n" ++ lib.Render "Domains" ++ "\n"
  let (sb, domainLine) := domainsLoop (domainEntries lib visited) 0 (sb, "")
  if domainLine ≠ "" then sb ++ (domainLine ++ "\n") else sb

/-- One of the three loops of aggregate.go, lines 85-101: the greatest `len(key)`, in
bytes, over the entries visited. -/
def maxKeyLen (visited : List (String × Nat)) : Nat :=
  visited.foldl (fun m p => if p.1.utf8ByteSize > m then p.1.utf8ByteSize else m) 0

/-- One of the three columns of entries after `sort.Strings` (aggregate.go, lines
104-131). -/
def columnEntries (lib : FormatLib) (maxLen : Nat) (visited : List (String × Nat)) :
    List String :=
  lib.Strings (visited.map (fun p => padRightStar (maxLen + 2) p.1 ++ " " ++ toString p.2))

/-- The rows of the three columns side by side (aggregate.go, lines 134-156). -/
def summaryRows (dispEntries dkimEntries spfEntries : List String) : String :=
  (List.range (Max dispEntries.length (Max dkimEntries.length spfEntries.length))).foldl
    (fun sb i =>
      let disp := if i < dispEntries.length then dispEntries.getD i "" else ""
      let dkim := if i < dkimEntries.length then dkimEntries.getD i "" else ""
      let spf := if i < spfEntries.length then spfEntries.getD i "" else ""
      sb ++ ("  " ++ padRight 20 disp ++ "     " ++ padRight 20 dkim ++ "     " ++
        padRight 20 spf ++ "\n"))
    ""

/-- The section "Summary Statistics" (aggregate.go, lines 71-156). -/
def formatSummary (lib : FormatLib) (o : RangeOrders) (aggr : AggregatedReport) : String :=
  let maxDispLen := maxKeyLen (o.dispositionLengths aggr.Dispositions)
  let maxDkimLen := maxKeyLen (o.dkimLengths aggr.DKIMResults)
  let maxSpfLen := maxKeyLen (o.spfLengths aggr.SPFResults)
  "\n" ++ lib.Render "Summary Statistics" ++ "\n" ++
  ("  " ++ lib.Render "Dispositions" ++ "          " ++ lib.Render "DKIM Results" ++
    "          " ++ lib.Render "SPF Results" ++ "\n") ++
  summaryRows (columnEntries lib maxDispLen (o.dispositions aggr.Dispositions))
    (columnEntries lib maxDkimLen (o.dkimResults aggr.DKIMResults))
    (columnEntries lib maxSpfLen (o.spfResults aggr.SPFResults))

/-- The function passed to `sort.Slice` (aggregate.go, lines 173-175): the count of the
first element is greater than the count of the second. -/
def countDescending (a b : sourceCount) : Bool := decide (a.count > b.count)

/-- The slice `sourceCounts` after `sort.Slice` (aggregate.go, lines 167-175). -/
def sortedSources (lib : FormatLib) (visited : List (String × Nat)) : List sourceCount :=
  lib.Slice countDescending (visited.map (fun p => ⟨p.1, p.2⟩))

/-- The loop of aggregate.go, lines 179-198, over the values that `i` takes; `none` is
the panic of an index out of range. -/
def topSourcesLoop (sourceCounts : List sourceCount) (topCount : Nat) :
    List Nat → String → Option String
  | [], sb => some sb
  | i :: rest, sb => do
    let l ← sourceCounts.get? i
    let left := padRight 20 l.source ++ " " ++ toString l.count
    let right ←
      if i + 1 < topCount then
        (sourceCounts.get? (i + 1)).map (fun r => padRight 20 r.source ++ " " ++ toString r.count)
      else some ""
    if right ≠ "" then
      topSourcesLoop sourceCounts topCount rest
        (sb ++ ("  " ++ padRight 35 left ++ " " ++ right ++ "\n"))
    else
      topSourcesLoop sourceCounts topCount rest (sb ++ ("  " ++ left ++ "\n"))

/-- The section "Top Sources" (aggregate.go, lines 159-198).  The loop variable `i` takes
the even values below `topCount`. -/
def formatTopSources (lib : FormatLib) (visited : List (String × Nat)) : Option String :=
  let sourceCounts := sortedSources lib visited
  let topCount := Min 20 sourceCounts.length
  topSourcesLoop sourceCounts topCount ((List.range topCount).filter (fun i => i % 2 = 0))
    ("\n" ++ lib.Render "Top Sources" ++ "\n")

/-- The loop over the failed records (aggregate.go, lines 217-233), on the bytes written;
`i` is the index of the first record of the list and `total` is
`len(aggr.FailedRecords)`. -/
def failedRecordsLoop (lib : FormatLib) (total : Nat) :
    List FailedRecord → Nat → List UInt8 → Option (List UInt8)
  | [], _, sb => some sb
  | record :: rest, i, sb =>
    if i ≥ 20 then
      some (sb ++ goBytes ("\n  ... and " ++ toString ((total : Int) - 20) ++
        " more (press the key for details)\n"))
    else do
      let sourceIP ← TruncateString (goBytes record.SourceIP) 20
      let domain ← TruncateString (goBytes record.Domain) 30
      failedRecordsLoop lib total rest (i + 1)
        (sb ++ (goBytes "  " ++ padRightBytes lib.RuneCount 20 sourceIP ++ goBytes " " ++
          padRightBytes lib.RuneCount 30 domain ++ goBytes " " ++
          goBytes (padRight 8 (toString record.Count)) ++ goBytes " " ++
          goBytes record.Reason ++ goBytes "\n"))

/-- The section "Failed Records" (aggregate.go, lines 201-233). -/
def formatFailedRecords (lib : FormatLib) (records : List FailedRecord) :
    Option (List UInt8) :=
  failedRecordsLoop lib records.length records 0
    (goBytes ("\n" ++
        lib.Render ("Failed Records (" ++ toString records.length ++ ")") ++ "\n") ++
      goBytes ("  " ++ padRight 20 "Source IP" ++ " " ++ padRight 30 "Domain" ++ " " ++
        padRight 8 "Count" ++ " " ++ "Reason" ++ "\n") ++
      goBytes ("  " ++ String.mk (List.replicate 78 '-') ++ "\n"))

/-- Function `FormatAggregatedReport` (aggregate.go, lines 26-236): the bytes of the text
returned, or `none` when the function panics.  `o` gives the order in which each `range`
statement visits its map. -/
def FormatAggregatedReport (lib : FormatLib) (o : RangeOrders) (aggr : AggregatedReport) :
    Option (List UInt8) := do
  let top ← formatTopSources lib (o.sources aggr.Sources)
  let failed ← formatFailedRecords lib aggr.FailedRecords
  some (goBytes (formatOverview lib aggr ++ formatDomains lib (o.domains aggr.Domains) ++
    formatSummary lib o aggr ++ top) ++ failed)

/-! ## Vocabulary of the properties: the order of iteration over a map -/

/-- A `range` statement over a map visits every entry of the map once, in an order that
the language leaves open. -/
def RangeOrders.Valid (o : RangeOrders) : Prop :=
  ∀ m : FreqMap,
    (o.domains m).Perm m ∧ (o.dispositionLengths m).Perm m ∧ (o.dkimLengths m).Perm m ∧
    (o.spfLengths m).Perm m ∧ (o.dispositions m).Perm m ∧ (o.dkimResults m).Perm m ∧
    (o.spfResults m).Perm m ∧ (o.sources m).Perm m

/-- Every `range` statement visits the entries in the order in which their keys were first
stored. -/
def insertionOrder : RangeOrders :=
  ⟨id, id, id, id, id, id, id, id⟩

/-- Every `range` statement visits the entries in the reverse of the order in which their
keys were first stored. -/
def reverseOrder : RangeOrders :=
  ⟨List.reverse, List.reverse, List.reverse, List.reverse, List.reverse, List.reverse,
    List.reverse, List.reverse⟩

/-- The library functions of the formatter with the sorting functions of package sort:
`sort.Strings` and `sort.Slice` by its pattern-defeating quicksort.  The styles leave the
text as it is, every date is written as "2024-01-01" and a string of ASCII characters has
as many runes as bytes. -/
def plainFormatLib : FormatLib :=
  { Render := fun s => s
    SelectedRender := fun s => s
    Format := fun _ => "2024-01-01"
    Strings := fun x => (sortSlice (fun a b => decide (a < b)) xorshiftNext x).getD x
    Slice := fun less x => (sortSlice less xorshiftNext x).getD x
    RuneCount := List.length }

/-- An aggregate of one report with two records, from the sources 192.0.2.1 and
192.0.2.2, both passing; each source has the count 1. -/
def twoSourcesAggregate : AggregatedReport :=
  AggregateReports
    [sampleReport "A" 1704067200 1704412800
      [sampleRecord "192.0.2.1" 1 "pass" "pass", sampleRecord "192.0.2.2" 1 "pass" "pass"]]

/-! ## Package formatter: a single report (report.go) -/

/-- The lines for the DKIM results of a record (report.go, lines 93-102). -/
def formatDKIMAuth (results : List DKIMAuthResult) : String :=
  "\n  DKIM Authentication:\n" ++
  if results.length = 0 then "    None\n"
  else
    results.foldl
      (fun sb dkim => sb ++ ("    Domain: " ++ padRight 30 dkim.Domain ++ " Result: " ++
        padRight 10 dkim.Result ++ " Selector: " ++ dkim.Selector ++ "\n"))
      ""

/-- The lines for the SPF results of a record (report.go, lines 105-114). -/
def formatSPFAuth (results : List SPFAuthResult) : String :=
  "\n  SPF Authentication:\n" ++
  if results.length = 0 then "    None\n"
  else
    results.foldl
      (fun sb spf => sb ++ ("    Domain: " ++ padRight 30 spf.Domain ++ " Result: " ++
        padRight 10 spf.Result ++ " Scope: " ++ spf.Scope ++ "\n"))
      ""

/-- The loop over the records of a report (report.go, lines 71-115); `i` is the index of
the first record of the list. -/
def recordsLoop (lib : FormatLib) : List Record → Nat → String → String
  | [], _, sb => sb
  | record :: rest, i, sb =>
    recordsLoop lib rest (i + 1)
      (sb ++ ("\n" ++ lib.SelectedRender ("Record #" ++ toString (i + 1)) ++ "\n") ++
        ("  Source IP: " ++ padRight 40 record.Row.SourceIP ++ " Count: " ++
          padRight 10 (toString record.Row.Count) ++ " Disposition: " ++
          padRight 15 record.Row.PolicyEvaluated.Disposition ++ "\n") ++
        ("  DKIM Result: " ++ padRight 15 record.Row.PolicyEvaluated.DKIM ++ " SPF Result: " ++
          padRight 15 record.Row.PolicyEvaluated.SPF ++ " Header From: " ++
          record.Identifiers.HeaderFrom ++ "\n") ++
        formatDKIMAuth record.AuthResults.DKIM ++ formatSPFAuth record.AuthResults.SPF)

/-- Function `FormatReport` (report.go, lines 25-118). -/
def FormatReport (lib : FormatLib) (report : DMARCReport) : String :=
  recordsLoop lib report.Records 0
    (lib.Render "Report Metadata" ++ "\n" ++
      ("  Organization:    " ++ report.ReportMetadata.OrgName ++ "\n") ++
      ("  Email:           " ++ report.ReportMetadata.Email ++ "\n") ++
      ("  Report ID:       " ++ report.ReportMetadata.ReportID ++ "\n") ++
      ("  Date Range:      " ++ lib.Format report.ReportMetadata.DateRange.Begin ++ " to " ++
        lib.Format report.ReportMetadata.DateRange.End ++ "\n") ++
      ("\n" ++ lib.Render "Published Policy" ++ "\n") ++
      ("  Domain:          " ++ report.PolicyPublished.Domain ++ "\n") ++
      ("  DKIM Alignment:  " ++ report.PolicyPublished.ADKIM ++ "\n") ++
      ("  SPF Alignment:   " ++ report.PolicyPublished.ASPF ++ "\n") ++
      ("  Policy:          " ++ report.PolicyPublished.P ++ "\n") ++
      ("  Subdomain Policy: " ++ report.PolicyPublished.SP ++ "\n") ++
      ("  Percentage:      " ++ toString report.PolicyPublished.PCT ++ "%\n") ++
      ("\n" ++ lib.Render ("Records (" ++ toString report.Records.length ++ ")") ++ "\n"))

/-! ## Library: Bubble Tea, its components and its key bindings -/

/-- A message that Bubble Tea delivers to `Update`: the two message types of package ui,
a window size, a key press given by the text of `KeyMsg.String()`, or any other message
(a mouse event, a message of a component), told apart by a number. -/
inductive Msg where
  | checkErrorTimeoutMsg
  | errorMsg (error : GoError)
  | WindowSizeMsg (Width Height : Int)
  | KeyMsg (text : String)
  | otherMsg (tag : Nat)
  deriving DecidableEq, Repr

/-- Type `key.Binding` of package bubbles: the keys, the help text, and whether the binding
was disabled. -/
structure Binding where
  keys : List String
  helpKey : String
  helpDesc : String
  disabled : Bool
  deriving DecidableEq, Repr

/-- The expression `key.NewBinding(key.WithKeys(keys...), key.WithHelp(helpKey, helpDesc))`. -/
def NewBinding (keys : List String) (helpKey helpDesc : String) : Binding :=
  ⟨keys, helpKey, helpDesc, false⟩

/-- Function `key.Matches` for one binding: the text of the key is one of the keys of the
binding and the binding is enabled. -/
def Matches (text : String) (b : Binding) : Bool :=
  b.keys.any (fun v => decide (text = v) && !b.disabled)

/-- The fields of `help.Model` that package ui sets. -/
structure HelpModel where
  ShowAll : Bool
  Width : Int
  deriving DecidableEq, Repr

/-- What package ui takes from the components of package bubbles, from package lipgloss
and from package time.  `L` is the state of `list.Model` and `V` the state of
`viewport.Model`; every method is a function from the state before the call to the state
after it.  `listNew` is the list as lines 109-110 of app.go make it, `listSetItems` takes
the reports of the items, `listSetStyleWidths` is the assignment of the two styles on lines
224-225, `viewportSetMaxWidth` is the assignment of the style with the given `MaxWidth`,
`timeAdd` is `Time.Add` with the duration in nanoseconds, the `Render` functions are the
methods `Render` of the styles of styles.go as they are at the call, and `JoinVertical` is
`lipgloss.JoinVertical` with the position `lipgloss.Left`. -/
structure UILib (L V : Type) where
  listNew : L
  listSetItems : L → List DMARCReport → L
  listIndex : L → Int
  listCursorUp : L → L
  listCursorDown : L → L
  listSetWidth : L → Int → L
  listSetHeight : L → Int → L
  listSetStyleWidths : L → Int → L
  listUpdate : L → Msg → L
  listView : L → String
  viewportNew : Int → Int → V
  viewportSetWidth : V → Int → V
  viewportSetHeight : V → Int → V
  viewportSetMaxWidth : V → Int → V
  viewportSetContent : V → List UInt8 → V
  viewportGotoTop : V → V
  viewportUpdate : V → Msg → V
  viewportView : V → String
  timeAdd : Time → Int → Time
  TitleRender : String → String
  StatusRender : String → String
  HelpRender : String → String
  ErrorRender : String → String
  AppRender : String → String
  JoinVertical : List String → String

/-- What one call of `NewModel` or of `Update` meets outside the model: the two readings
of the clock it can take, the home directory, `os.Mkdir`, the file system and the
decoder, `os.ReadDir`, `strconv.Quote`, `sort.Slice` on reports, the library functions of
the formatter, and the order in which the `range` statements of the formatter visit their
maps.  `operandBeforeCall` tells whether, in the statement
`return m, m.checkErrorTimeout()`, the operand `m` is read before the method is called: the
language leaves the order open. -/
structure World where
  now : Time
  nowAgain : Time
  operandBeforeCall : Bool
  UserHomeDir : Except GoError String
  Mkdir : String → Option GoError
  env : Env
  ReadDir : String → Except GoError (List DirEntry)
  quote : String → String
  slice : SliceSorter
  format : FormatLib
  orders : RangeOrders

/-- The index expression `xs[i]` with `i` an `int`; `none` is the panic of an index out of
range. -/
def indexInt {α : Type} (xs : List α) (i : Int) : Option α :=
  if 0 ≤ i then xs.get? i.toNat else none

/-! ## Package storage: the loader (storage.go) -/

/-- Function `NewReportLoader` (storage.go, lines 36-58). -/
def NewReportLoader (w : World) : Except GoError ReportLoader :=
  match w.UserHomeDir with
  | .error err => .error (.wrapError "could not determine home directory: " err "")
  | .ok homedir =>
    let configDir := Join homedir ".godmarc"
    match w.env.Stat configDir with
    | .err err isNotExist =>
      if isNotExist then
        match w.Mkdir configDir with
        | some err =>
          .error (.wrapError ("failed to create config directory " ++ configDir ++ ": ") err "")
        | none => .ok ⟨configDir⟩
      else
        .error (.wrapError ("error accessing config directory " ++ configDir ++ ": ") err "")
    | .ok _ => .ok ⟨configDir⟩

/-! ## Package ui: key bindings (keys.go) -/

/-- Struct `KeyMap` (keys.go, lines 23-31). -/
structure KeyMap where
  Up : Binding
  Down : Binding
  Enter : Binding
  Back : Binding
  Aggr : Binding
  Quit : Binding
  Reload : Binding
  deriving DecidableEq, Repr

/-- Function `DefaultKeyMap` (keys.go, lines 34-65). -/
def DefaultKeyMap : KeyMap :=
  { Up := NewBinding ["up", "k"] "↑/k" "up"
    Down := NewBinding ["down", "j"] "↓/j" "down"
    Enter := NewBinding ["enter"] "enter" "select"
    Back := NewBinding ["esc"] "esc" "back"
    Aggr := NewBinding ["a"] "a" "aggregated"
    Quit := NewBinding ["q", "ctrl+c"] "q" "quit"
    Reload := NewBinding ["r"] "r" "reload" }

/-- Function `RenderHelp` (keys.go, lines 150-155). -/
def RenderHelp (showReport showAggregated : Bool) (_keys : KeyMap) : String :=
  if showReport || showAggregated then "↑/k up · ↓/j down · esc back · q quit"
  else "↑/k up · ↓/j down · enter select · a aggregated · r reload · q quit"

/-! ## Package ui: the model (app.go) -/

/-- Struct `Model` (app.go, lines 33-49). -/
structure Model (L V : Type) where
  reports : List DMARCReport
  aggregated : AggregatedReport
  list : L
  viewport : V
  help : HelpModel
  keys : KeyMap
  selectedReport : Int
  showReport : Bool
  showAggregated : Bool
  width : Int
  height : Int
  loader : ReportLoader
  errorMsg : String
  showError : Bool
  errorTimeout : Time

namespace Model

/-- Method `showErrorMessage` (app.go, lines 52-56); `now` is the reading of the clock.
The duration is in nanoseconds. -/
def showErrorMessage {L V : Type} (lib : UILib L V) (m : Model L V) (now : Time)
    (msg : String) (duration : Int) : Model L V :=
  { m with errorMsg := msg, showError := true, errorTimeout := lib.timeAdd now duration }

/-- Method `clearErrorMessage` (app.go, lines 59-62). -/
def clearErrorMessage {L V : Type} (m : Model L V) : Model L V :=
  { m with errorMsg := "", showError := false }

/-- Method `checkErrorTimeout` (app.go, lines 65-70): the model after the call. -/
def checkErrorTimeout {L V : Type} (m : Model L V) (now : Time) : Model L V :=
  if m.showError && now.After m.errorTimeout then m.clearErrorMessage else m

/-- The first part of `handleWindowResize` (app.go, lines 206-225): the size is stored and
passed to the list, the viewport and the help.  The call `UpdateStyles` changes the styles
of styles.go only. -/
def resizeComponents {L V : Type} (lib : UILib L V) (m : Model L V) (Width Height : Int) :
    Model L V :=
  { m with
    width := Width
    height := Height
    list := lib.listSetStyleWidths
      (lib.listSetHeight (lib.listSetWidth m.list Width) (wrapInt64 (Height - 6))) Width
    viewport := lib.viewportSetHeight (lib.viewportSetWidth m.viewport Width)
      (wrapInt64 (Height - 6))
    help := { m.help with Width := Width } }

/-- The second part of `handleWindowResize` (app.go, lines 228-255): the content of the
view that is shown is written into a fresh viewport.  `none` is a panic. -/
def refreshContent {L V : Type} (lib : UILib L V) (w : World) (m : Model L V)
    (Width Height : Int) : Option (Model L V) :=
  if m.showReport && decide (m.selectedReport ≥ 0) &&
      decide (m.selectedReport < (m.reports.length : Int)) then do
    let report ← indexInt m.reports m.selectedReport
    let viewport := lib.viewportSetMaxWidth (lib.viewportNew Width (wrapInt64 (Height - 6))) Width
    let viewport := lib.viewportSetContent viewport (goBytes (FormatReport w.format report))
    some { m with viewport := lib.viewportGotoTop viewport }
  else if m.showAggregated then do
    let text ← FormatAggregatedReport w.format w.orders m.aggregated
    let viewport := lib.viewportSetMaxWidth (lib.viewportNew Width (wrapInt64 (Height - 6))) Width
    let viewport := lib.viewportSetContent viewport text
    some { m with viewport := lib.viewportGotoTop viewport }
  else some m

/-- Method `handleWindowResize` (app.go, lines 205-256): the model returned, or `none`
when the method panics. -/
def handleWindowResize {L V : Type} (lib : UILib L V) (w : World) (m : Model L V)
    (Width Height : Int) : Option (Model L V) :=
  refreshContent lib w (resizeComponents lib m Width Height) Width Height

/-- Method `reloadReports` (app.go, lines 295-319): the model returned. -/
def reloadReports {L V : Type} (lib : UILib L V) (w : World) (m : Model L V) : Model L V :=
  let result := LoadReports w.env w.ReadDir w.quote m.loader
  match result.err with
  | some _ => m
  | none =>
    let reports := SortReportsByDate w.slice result.reports
    let m := { m with
      reports := reports
      aggregated := AggregateReports reports
      list := lib.listSetItems m.list reports }
    m.showErrorMessage lib w.nowAgain
      ("Successfully loaded " ++ toString reports.length ++ " reports") 3000000000

/-- The statements of `showAggregatedReport` after the flag was flipped (app.go, lines
324-328).  `none` is a panic. -/
def aggregatedContent {L V : Type} (lib : UILib L V) (w : World) (m : Model L V) :
    Option (Model L V) :=
  if m.showAggregated then do
    let text ← FormatAggregatedReport w.format w.orders m.aggregated
    some { m with viewport := lib.viewportGotoTop (lib.viewportSetContent m.viewport text) }
  else some m

/-- Method `showAggregatedReport` (app.go, lines 322-329): the model returned, or `none`
when the method panics. -/
def showAggregatedReport {L V : Type} (lib : UILib L V) (w : World) (m : Model L V) :
    Option (Model L V) :=
  aggregatedContent lib w { m with showAggregated := !m.showAggregated }

/-- The statements of `showSelectedReport` after the index of the list was stored (app.go,
lines 334-343).  `none` is a panic. -/
def selectedContent {L V : Type} (lib : UILib L V) (w : World) (m : Model L V) :
    Option (Model L V) :=
  if decide (m.selectedReport ≥ 0) && decide (m.selectedReport < (m.reports.length : Int)) then do
    let report ← indexInt m.reports m.selectedReport
    let viewport := lib.viewportNew m.width (wrapInt64 (m.height - 6))
    let viewport := lib.viewportSetContent viewport (goBytes (FormatReport w.format report))
    some { m with showReport := true, viewport := lib.viewportGotoTop viewport }
  else some m

/-- Method `showSelectedReport` (app.go, lines 332-344): the model returned, or `none`
when the method panics. -/
def showSelectedReport {L V : Type} (lib : UILib L V) (w : World) (m : Model L V) :
    Option (Model L V) :=
  selectedContent lib w { m with selectedReport := lib.listIndex m.list }

/-- Method `handleListViewKeys` (app.go, lines 259-274): the model returned, or `none`
when the method panics. -/
def handleListViewKeys {L V : Type} (lib : UILib L V) (w : World) (m : Model L V)
    (text : String) : Option (Model L V) :=
  if Matches text m.keys.Reload then some (m.reloadReports lib w)
  else if Matches text m.keys.Aggr then m.showAggregatedReport lib w
  else if Matches text m.keys.Enter then m.showSelectedReport lib w
  else some m

/-- Method `handleReportViewKeys` (app.go, lines 277-292): the model returned. -/
def handleReportViewKeys {L V : Type} (lib : UILib L V) (m : Model L V) (text : String) :
    Model L V :=
  if Matches text m.keys.Back then { m with showReport := false, showAggregated := false }
  else { m with viewport := lib.viewportUpdate m.viewport (.KeyMsg text) }

/-- The end of `Update` (app.go, lines 191-201): the message is passed to the active
component. -/
def passThrough {L V : Type} (lib : UILib L V) (m : Model L V) (msg : Msg) : Model L V :=
  if m.showReport || m.showAggregated then
    { m with viewport := lib.viewportUpdate m.viewport msg }
  else
    match msg with
    | .KeyMsg _ => m
    | _ => { m with list := lib.listUpdate m.list msg }

/-- The start of `Update` (app.go, lines 140-149): an error message whose time is over
is cleared. -/
def clearExpiredError {L V : Type} (w : World) (m : Model L V) : Model L V :=
  if m.showError then
    if w.now.After m.errorTimeout then m.clearErrorMessage else m
  else m

/-- The `switch` on the message in `Update` and the end of the method (app.go, lines
152-201).  `none` is a panic. -/
def dispatch {L V : Type} (lib : UILib L V) (w : World) (m : Model L V) (msg : Msg) :
    Option (Model L V) :=
  match msg with
  | .checkErrorTimeoutMsg =>
    if w.operandBeforeCall then some m else some (m.checkErrorTimeout w.nowAgain)
  | .errorMsg err => some (m.showErrorMessage lib w.nowAgain (err.Error w.quote) 5000000000)
  | .WindowSizeMsg Width Height =>
    (m.handleWindowResize lib w Width Height).map (fun m => m.passThrough lib msg)
  | .KeyMsg text =>
    if Matches text m.keys.Quit then some m
    else if m.showReport || m.showAggregated then
      some ((m.handleReportViewKeys lib text).passThrough lib msg)
    else if Matches text m.keys.Up then some { m with list := lib.listCursorUp m.list }
    else if Matches text m.keys.Down then some { m with list := lib.listCursorDown m.list }
    else (m.handleListViewKeys lib w text).map (fun m => m.passThrough lib msg)
  | .otherMsg _ => some (m.passThrough lib msg)

/-- Method `Update` (app.go, lines 135-202): the model returned, or `none` when the method
panics.  The commands returned with the model deliver messages later and are left out. -/
def Update {L V : Type} (lib : UILib L V) (w : World) (m : Model L V) (msg : Msg) :
    Option (Model L V) :=
  dispatch lib w (clearExpiredError w m) msg

/-- Method `renderStatusBar` (app.go, lines 390-406): the text, or `none` when the method
panics. -/
def renderStatusBar {L V : Type} (lib : UILib L V) (m : Model L V) : Option String :=
  if m.showReport then do
    let report ← indexInt m.reports m.selectedReport
    some (lib.StatusRender (" Report: " ++ report.ReportMetadata.ReportID ++ " "))
  else if m.showAggregated then some (lib.StatusRender " Aggregated Report ")
  else some (lib.StatusRender (" " ++ toString m.reports.length ++ " Report(s) "))

/-- Method `View` (app.go, lines 347-387): the text, or `none` when the method panics. -/
def View {L V : Type} (lib : UILib L V) (m : Model L V) : Option String :=
  if m.width = 0 then some "Initializing..."
  else do
    let title := lib.TitleRender "godmarc - DMARC Report Analyzer"
    let statusBar ← m.renderStatusBar lib
    let helpView := lib.HelpRender (RenderHelp m.showReport m.showAggregated m.keys)
    let content :=
      if m.showReport || m.showAggregated then lib.viewportView m.viewport
      else lib.listView m.list
    if m.showError then
      some (lib.AppRender (lib.JoinVertical
        [title, lib.ErrorRender m.errorMsg, content, helpView, statusBar]))
    else some (lib.AppRender (lib.JoinVertical [title, content, helpView, statusBar]))

end Model

/-- Function `NewModel` (app.go, lines 73-127). -/
def NewModel {L V : Type} (lib : UILib L V) (w : World) : Except GoError (Model L V) :=
  match NewReportLoader w with
  | .error err => .error (.wrapError "failed to initialize report loader: " err "")
  | .ok loader =>
    let result := LoadReports w.env w.ReadDir w.quote loader
    match result.err with
    | some err => .error (startupLoadError err)
    | none =>
      let reports := SortReportsByDate w.slice result.reports
      .ok
        { reports := reports
          aggregated := AggregateReports reports
          list := lib.listSetItems lib.listNew reports
          viewport := lib.viewportSetMaxWidth (lib.viewportNew 0 0) 9999
          help := ⟨true, 0⟩
          keys := DefaultKeyMap
          selectedReport := 0
          showReport := false
          showAggregated := false
          width := 0
          height := 0
          loader := loader
          errorMsg := ""
          showError := false
          errorTimeout := Time.zero }

/-! ## Vocabulary of the properties: the states of the user interface -/

/-- The models that the program can hold: the model that `NewModel` returns without an
error, and every model that `Update` returns for a model the program can hold, whatever
the message and the world around the call. -/
inductive Reachable {L V : Type} (lib : UILib L V) : Model L V → Prop where
  | init (w : World) (m : Model L V) : NewModel lib w = .ok m → Reachable lib m
  | step (w : World) (m m' : Model L V) (msg : Msg) :
      Reachable lib m → m.Update lib w msg = some m' → Reachable lib m'

/-- The property of a model that `renderStatusBar` relies on: the detail view is shown only
while `selectedReport` is an index of `reports`, and never together with the aggregated
view. -/
def Model.viewInvariant {L V : Type} (m : Model L V) : Prop :=
  (m.showReport = true →
    0 ≤ m.selectedReport ∧ m.selectedReport < (m.reports.length : Int)) ∧
  ¬ (m.showReport = true ∧ m.showAggregated = true)

/-! ## Sample data: a user interface -/

/-- A small instance of the components: the state of the list is its cursor, which moves
up to 0 and down without bound and is reset when the items are set; the state of the
viewport is its content; the styles leave the text as it is and the parts of the view
are joined by line ends. -/
def sampleUILib : UILib Int (List UInt8) :=
  { listNew := 0
    listSetItems := fun _ _ => 0
    listIndex := fun l => l
    listCursorUp := fun l => if l > 0 then l - 1 else l
    listCursorDown := fun l => l + 1
    listSetWidth := fun l _ => l
    listSetHeight := fun l _ => l
    listSetStyleWidths := fun l _ => l
    listUpdate := fun l _ => l
    listView := fun l => "cursor " ++ toString l
    viewportNew := fun _ _ => []
    viewportSetWidth := fun v _ => v
    viewportSetHeight := fun v _ => v
    viewportSetMaxWidth := fun v _ => v
    viewportSetContent := fun _ text => text
    viewportGotoTop := fun v => v
    viewportUpdate := fun v _ => v
    viewportView := fun v => "content of " ++ toString v.length ++ " bytes"
    timeAdd := fun t d => { t with ext := t.ext + d / 1000000000 }
    TitleRender := fun s => s
    StatusRender := fun s => s
    HelpRender := fun s => s
    ErrorRender := fun s => s
    AppRender := fun s => s
    JoinVertical := fun parts => stringsJoin parts "\n" }

/-- A world with the sample directory of reports under the home directory `/home/u`. -/
def sampleWorld : World :=
  { now := Unix 1704067200 0
    nowAgain := Unix 1704067200 0
    operandBeforeCall := false
    UserHomeDir := .ok "/home/u"
    Mkdir := fun _ => none
    env := sampleDirEnv
    ReadDir := sampleReadDir sampleListing
    quote := fun s => s
    slice := goSlice
    format := plainFormatLib
    orders := insertionOrder }

/-- The zero value `Model{}` for the sample components. -/
def zeroModel : Model Int (List UInt8) :=
  { reports := []
    aggregated := ⟨0, 0, DateRange.zero, [], [], [], [], [], []⟩
    list := 0
    viewport := []
    help := ⟨false, 0⟩
    keys := ⟨⟨[], "", "", false⟩, ⟨[], "", "", false⟩, ⟨[], "", "", false⟩, ⟨[], "", "", false⟩,
      ⟨[], "", "", false⟩, ⟨[], "", "", false⟩, ⟨[], "", "", false⟩⟩
    selectedReport := 0
    showReport := false
    showAggregated := false
    width := 0
    height := 0
    loader := ⟨""⟩
    errorMsg := ""
    showError := false
    errorTimeout := Time.zero }

/-- The model that `NewModel` returns in the sample world. -/
def sampleStart : Model Int (List UInt8) :=
  match NewModel sampleUILib sampleWorld with
  | .ok m => m
  | .error _ => zeroModel

/-- The model after the messages of a list were handled in turn, in the sample world;
a panic leaves the zero model. -/
def sampleRun (msgs : List Msg) : Model Int (List UInt8) :=
  msgs.foldl (fun m msg => (m.Update sampleUILib sampleWorld msg).getD zeroModel) sampleStart

/-- The contract of `sort.Strings` and `sort.Slice` in the documentation of package sort,
for the library of the formatter: the slice is rearranged; after `sort.Strings` no string
is less than the string right before it (Go compares strings byte by byte, which on UTF-8
text is the order of the runes); after `sort.Slice` with a strict weak ordering no element
is less than the element right before it. -/
def FormatLib.Sorts (lib : FormatLib) : Prop :=
  (∀ x, (lib.Strings x).Perm x) ∧
  (∀ x, (lib.Strings x).Chain' (fun a b => ¬ b < a)) ∧
  (∀ less x, (lib.Slice less x).Perm x) ∧
  (∀ less, IsStrictWeakOrder less → ∀ x,
    (lib.Slice less x).Chain' (fun a b => less b a = false))

/-- The library `plainFormatLib` with sorting by insertion into a sorted list. -/
def insertionFormatLib : FormatLib :=
  { plainFormatLib with
    Strings := fun x => x.insertionSort (fun a b => ¬ b < a)
    Slice := fun less x => x.insertionSort (fun a b => less b a = false) }

/-! ## Lemmas: frequency maps -/

theorem FreqMap.get_inc (m : FreqMap) (k k' : String) :
    (m.inc k).get k' = m.get k' + if k = k' then 1 else 0 := by
  induction m with
  | nil => simp [FreqMap.inc, FreqMap.get]
  | cons p rest ih =>
    obtain ⟨a, v⟩ := p
    by_cases h : a = k
    · subst h
      by_cases h' : a = k' <;> simp [FreqMap.inc, FreqMap.get, h']
    · by_cases h' : a = k'
      · subst h'
        simp [FreqMap.inc, FreqMap.get, h, Ne.symm h]
      · simp [FreqMap.inc, FreqMap.get, h, h', ih]

theorem FreqMap.has_inc (m : FreqMap) (k k' : String) :
    (m.inc k).has k' = (m.has k' || decide (k = k')) := by
  induction m with
  | nil => simp [FreqMap.inc, FreqMap.has]
  | cons p rest ih =>
    obtain ⟨a, v⟩ := p
    by_cases h : a = k
    · subst h
      by_cases h' : a = k' <;> simp [FreqMap.inc, FreqMap.has, h']
    · simp [FreqMap.inc, FreqMap.has, h, ih, Bool.or_assoc]

theorem FreqMap.get_incAll (keys : List String) (m : FreqMap) (k : String) :
    (m.incAll keys).get k = m.get k + keys.count k := by
  induction keys generalizing m with
  | nil => simp [FreqMap.incAll]
  | cons a rest ih =>
    have h := ih (m.inc a)
    simp only [FreqMap.incAll, List.foldl_cons] at h ⊢
    rw [h, FreqMap.get_inc, List.count_cons]
    by_cases hak : a = k
    · simp [hak]; omega
    · simp [hak]

theorem FreqMap.has_incAll (keys : List String) (m : FreqMap) (k : String) :
    (m.incAll keys).has k = (m.has k || decide (k ∈ keys)) := by
  induction keys generalizing m with
  | nil => simp [FreqMap.incAll]
  | cons a rest ih =>
    have h := ih (m.inc a)
    simp only [FreqMap.incAll, List.foldl_cons] at h ⊢
    rw [h, FreqMap.has_inc]
    by_cases hak : a = k
    · subst hak; simp
    · have hka : ¬ k = a := fun e => hak e.symm
      simp [hak, hka]

theorem FreqMap.incAll_append (m : FreqMap) (xs ys : List String) :
    m.incAll (xs ++ ys) = (m.incAll xs).incAll ys := by
  simp [FreqMap.incAll, List.foldl_append]

/-! ## Lemmas: the loops of `AggregateReports` -/

theorem foldl_aggregateRecord (records : List Record) (aggr : AggregatedReport) :
    records.foldl aggregateRecord aggr =
      { aggr with
        TotalRecords := aggr.TotalRecords + records.length
        Sources := aggr.Sources.incAll (records.map (fun r => r.Row.SourceIP))
        Dispositions :=
          aggr.Dispositions.incAll (records.map (fun r => r.Row.PolicyEvaluated.Disposition))
        DKIMResults := aggr.DKIMResults.incAll (records.map (fun r => r.Row.PolicyEvaluated.DKIM))
        SPFResults := aggr.SPFResults.incAll (records.map (fun r => r.Row.PolicyEvaluated.SPF))
        FailedRecords :=
          aggr.FailedRecords ++ (records.filter Record.failed).map Record.failedRecord } := by
  induction records generalizing aggr with
  | nil => simp [FreqMap.incAll]
  | cons r rest ih =>
    rw [List.foldl_cons, ih]
    by_cases hf : r.failed = true
    · have hc : r.Row.PolicyEvaluated.DKIM ≠ "pass" ∨ r.Row.PolicyEvaluated.SPF ≠ "pass" := by
        simpa [Record.failed] using hf
      simp [aggregateRecord, hc, hf, FreqMap.incAll, Record.failedRecord, Record.reason,
        Nat.add_assoc, Nat.add_comm 1]
    · have hc : ¬ (r.Row.PolicyEvaluated.DKIM ≠ "pass" ∨ r.Row.PolicyEvaluated.SPF ≠ "pass") := by
        simpa [Record.failed] using hf
      simp [aggregateRecord, hc, hf, FreqMap.incAll, Nat.add_assoc, Nat.add_comm 1]

theorem aggregateReport_eq (aggr : AggregatedReport) (report : DMARCReport) :
    aggregateReport aggr report =
      { aggr with
        TotalRecords := aggr.TotalRecords + report.Records.length
        DateRange := aggr.DateRange.extend report
        Domains := aggr.Domains.inc report.PolicyPublished.Domain
        Sources := aggr.Sources.incAll (report.Records.map (fun r => r.Row.SourceIP))
        Dispositions := aggr.Dispositions.incAll
          (report.Records.map (fun r => r.Row.PolicyEvaluated.Disposition))
        DKIMResults := aggr.DKIMResults.incAll
          (report.Records.map (fun r => r.Row.PolicyEvaluated.DKIM))
        SPFResults := aggr.SPFResults.incAll
          (report.Records.map (fun r => r.Row.PolicyEvaluated.SPF))
        FailedRecords := aggr.FailedRecords ++
          (report.Records.filter Record.failed).map Record.failedRecord } := by
  unfold aggregateReport
  simp only [foldl_aggregateRecord, DateRange.extend]
  by_cases h1 : report.ReportMetadata.DateRange.Begin.Before aggr.DateRange.Begin = true <;>
    by_cases h2 : report.ReportMetadata.DateRange.End.After aggr.DateRange.End = true <;>
      simp [h1, h2]

theorem foldl_aggregateReport (reports : List DMARCReport) (aggr : AggregatedReport) :
    reports.foldl aggregateReport aggr =
      { aggr with
        TotalRecords := aggr.TotalRecords + (allRecords reports).length
        DateRange := reports.foldl DateRange.extend aggr.DateRange
        Domains := aggr.Domains.incAll (reports.map (fun r => r.PolicyPublished.Domain))
        Sources := aggr.Sources.incAll ((allRecords reports).map (fun r => r.Row.SourceIP))
        Dispositions := aggr.Dispositions.incAll
          ((allRecords reports).map (fun r => r.Row.PolicyEvaluated.Disposition))
        DKIMResults := aggr.DKIMResults.incAll
          ((allRecords reports).map (fun r => r.Row.PolicyEvaluated.DKIM))
        SPFResults := aggr.SPFResults.incAll
          ((allRecords reports).map (fun r => r.Row.PolicyEvaluated.SPF))
        FailedRecords := aggr.FailedRecords ++
          ((allRecords reports).filter Record.failed).map Record.failedRecord } := by
  induction reports generalizing aggr with
  | nil => simp [allRecords, FreqMap.incAll]
  | cons r rest ih =>
    rw [List.foldl_cons, ih, aggregateReport_eq]
    simp [allRecords, FreqMap.incAll_append, Nat.add_assoc]
    simp [FreqMap.incAll]

theorem AggregateReports_eq (reports : List DMARCReport) :
    AggregateReports reports =
      { TotalReports := reports.length
        TotalRecords := (allRecords reports).length
        DateRange := reports.foldl DateRange.extend (aggregateInit reports).DateRange
        Domains := FreqMap.incAll [] (reports.map (fun r => r.PolicyPublished.Domain))
        Sources := FreqMap.incAll [] ((allRecords reports).map (fun r => r.Row.SourceIP))
        Dispositions := FreqMap.incAll []
          ((allRecords reports).map (fun r => r.Row.PolicyEvaluated.Disposition))
        DKIMResults := FreqMap.incAll []
          ((allRecords reports).map (fun r => r.Row.PolicyEvaluated.DKIM))
        SPFResults := FreqMap.incAll []
          ((allRecords reports).map (fun r => r.Row.PolicyEvaluated.SPF))
        FailedRecords := ((allRecords reports).filter Record.failed).map Record.failedRecord } := by
  unfold AggregateReports
  rw [foldl_aggregateReport]
  cases reports <;> simp [aggregateInit]

/-! ## Lemmas: the order of instants -/

theorem Time.Before_iff (t u : Time) :
    t.Before u = true ↔ t.sec < u.sec ∨ (t.sec = u.sec ∧ t.nsec < u.nsec) := by
  simp [Time.Before]

theorem Time.After_iff (t u : Time) :
    t.After u = true ↔ u.sec < t.sec ∨ (t.sec = u.sec ∧ u.nsec < t.nsec) := by
  simp [Time.After]

theorem Time.After_eq_Before (t u : Time) : t.After u = u.Before t := by
  rw [Bool.eq_iff_iff, Time.After_iff, Time.Before_iff]
  omega

theorem Time.Before_irrefl (t : Time) : t.Before t = false := by
  rw [Bool.eq_false_iff, Ne, Time.Before_iff]
  omega

theorem Time.Before_asymm {t u : Time} (h : t.Before u = true) : u.Before t = false := by
  rw [Bool.eq_false_iff, Ne, Time.Before_iff]
  rw [Time.Before_iff] at h
  omega

theorem Time.not_Before_trans {a b c : Time} (hab : a.Before b = false)
    (hbc : b.Before c = false) : a.Before c = false := by
  rw [Bool.eq_false_iff, Ne, Time.Before_iff] at *
  omega

theorem Time.Equal_of_not_Before {t u : Time} (h1 : t.Before u = false)
    (h2 : u.Before t = false) : t.Equal u = true := by
  rw [Bool.eq_false_iff, Ne, Time.Before_iff] at h1 h2
  simp only [Time.Equal, Bool.and_eq_true, decide_eq_true_eq]
  omega

/-! ## Lemmas: the running date range -/

theorem DateRange.extend_Begin (dr : DateRange) (report : DMARCReport) :
    (dr.extend report).Begin =
      if report.ReportMetadata.DateRange.Begin.Before dr.Begin then
        report.ReportMetadata.DateRange.Begin
      else dr.Begin := by
  unfold DateRange.extend
  by_cases h1 : report.ReportMetadata.DateRange.Begin.Before dr.Begin = true <;>
    by_cases h2 : report.ReportMetadata.DateRange.End.After dr.End = true <;>
      simp [h1, h2]

theorem DateRange.extend_End (dr : DateRange) (report : DMARCReport) :
    (dr.extend report).End =
      if report.ReportMetadata.DateRange.End.After dr.End then
        report.ReportMetadata.DateRange.End
      else dr.End := by
  unfold DateRange.extend
  by_cases h1 : report.ReportMetadata.DateRange.Begin.Before dr.Begin = true <;>
    by_cases h2 : report.ReportMetadata.DateRange.End.After dr.End = true <;>
      simp [h1, h2]

/-- The begin of the running date range after the loop is one of the begins seen and no
begin seen is before it. -/
theorem foldl_extend_Begin (reports : List DMARCReport) (dr : DateRange) :
    ((reports.foldl DateRange.extend dr).Begin ∈
        dr.Begin :: reports.map (fun r => r.ReportMetadata.DateRange.Begin)) ∧
      dr.Begin.Before (reports.foldl DateRange.extend dr).Begin = false ∧
      ∀ r ∈ reports,
        r.ReportMetadata.DateRange.Begin.Before (reports.foldl DateRange.extend dr).Begin
          = false := by
  induction reports generalizing dr with
  | nil => simp [Time.Before_irrefl]
  | cons r rest ih =>
    obtain ⟨hmem, hdr, hall⟩ := ih (dr.extend r)
    rw [List.foldl_cons]
    have hstep : (dr.extend r).Begin = r.ReportMetadata.DateRange.Begin ∧
          r.ReportMetadata.DateRange.Begin.Before dr.Begin = true ∨
        (dr.extend r).Begin = dr.Begin ∧
          r.ReportMetadata.DateRange.Begin.Before dr.Begin = false := by
      rw [DateRange.extend_Begin]
      by_cases h : r.ReportMetadata.DateRange.Begin.Before dr.Begin = true
      · left; simp [h]
      · right; simp [h]
    have hd : dr.Begin.Before (dr.extend r).Begin = false := by
      rcases hstep with ⟨he, hb⟩ | ⟨he, _⟩
      · rw [he]; exact Time.Before_asymm hb
      · rw [he]; exact Time.Before_irrefl _
    have hr : r.ReportMetadata.DateRange.Begin.Before (dr.extend r).Begin = false := by
      rcases hstep with ⟨he, _⟩ | ⟨he, hb⟩
      · rw [he]; exact Time.Before_irrefl _
      · rw [he]; exact hb
    refine ⟨?_, Time.not_Before_trans hd hdr, ?_⟩
    · rcases List.mem_cons.mp hmem with h | h
      · rcases hstep with ⟨he, _⟩ | ⟨he, _⟩
        · rw [h, he]; simp
        · rw [h, he]; simp
      · simp only [List.map_cons, List.mem_cons]
        right; right; exact h
    · intro r' hr'
      rcases List.mem_cons.mp hr' with h | h
      · rw [h]; exact Time.not_Before_trans hr hdr
      · exact hall r' h

/-- The end of the running date range after the loop is one of the ends seen and no end
seen is after it. -/
theorem foldl_extend_End (reports : List DMARCReport) (dr : DateRange) :
    ((reports.foldl DateRange.extend dr).End ∈
        dr.End :: reports.map (fun r => r.ReportMetadata.DateRange.End)) ∧
      dr.End.After (reports.foldl DateRange.extend dr).End = false ∧
      ∀ r ∈ reports,
        r.ReportMetadata.DateRange.End.After (reports.foldl DateRange.extend dr).End
          = false := by
  induction reports generalizing dr with
  | nil => simp [Time.After_eq_Before, Time.Before_irrefl]
  | cons r rest ih =>
    obtain ⟨hmem, hdr, hall⟩ := ih (dr.extend r)
    rw [List.foldl_cons]
    simp only [Time.After_eq_Before] at hdr hall ⊢
    have hstep : (dr.extend r).End = r.ReportMetadata.DateRange.End ∧
          dr.End.Before r.ReportMetadata.DateRange.End = true ∨
        (dr.extend r).End = dr.End ∧
          dr.End.Before r.ReportMetadata.DateRange.End = false := by
      rw [DateRange.extend_End, Time.After_eq_Before]
      by_cases h : dr.End.Before r.ReportMetadata.DateRange.End = true
      · left; simp [h]
      · right; simp [h]
    have hd : (dr.extend r).End.Before dr.End = false := by
      rcases hstep with ⟨he, hb⟩ | ⟨he, _⟩
      · rw [he]; exact Time.Before_asymm hb
      · rw [he]; exact Time.Before_irrefl _
    have hr : (dr.extend r).End.Before r.ReportMetadata.DateRange.End = false := by
      rcases hstep with ⟨he, _⟩ | ⟨he, hb⟩
      · rw [he]; exact Time.Before_irrefl _
      · rw [he]; exact hb
    refine ⟨?_, Time.not_Before_trans hdr hd, ?_⟩
    · rcases List.mem_cons.mp hmem with h | h
      · rcases hstep with ⟨he, _⟩ | ⟨he, _⟩
        · rw [h, he]; simp
        · rw [h, he]; simp
      · simp only [List.map_cons, List.mem_cons]
        right; right; exact h
    · intro r' hr'
      rcases List.mem_cons.mp hr' with h | h
      · rw [h]; exact Time.not_Before_trans hdr hr
      · exact hall r' h

/-- For a non-empty list the aggregated begin is the begin of one of the reports and no
report begins before it; the aggregated end is the end of one of the reports and no
report ends after it. -/
theorem AggregateReports_DateRange (reports : List DMARCReport) (h : reports ≠ []) :
    ((AggregateReports reports).DateRange.Begin ∈
        reports.map (fun r => r.ReportMetadata.DateRange.Begin) ∧
      ∀ r ∈ reports,
        r.ReportMetadata.DateRange.Begin.Before (AggregateReports reports).DateRange.Begin
          = false) ∧
    ((AggregateReports reports).DateRange.End ∈
        reports.map (fun r => r.ReportMetadata.DateRange.End) ∧
      ∀ r ∈ reports,
        r.ReportMetadata.DateRange.End.After (AggregateReports reports).DateRange.End
          = false) := by
  rw [AggregateReports_eq]
  cases reports with
  | nil => exact absurd rfl h
  | cons first rest =>
    obtain ⟨hb1, _, hb3⟩ := foldl_extend_Begin (first :: rest)
      (aggregateInit (first :: rest)).DateRange
    obtain ⟨he1, _, he3⟩ := foldl_extend_End (first :: rest)
      (aggregateInit (first :: rest)).DateRange
    refine ⟨⟨?_, hb3⟩, ⟨?_, he3⟩⟩
    · rcases List.mem_cons.mp hb1 with h1 | h1
      · rw [h1]; simp [aggregateInit]
      · exact h1
    · rcases List.mem_cons.mp he1 with h1 | h1
      · rw [h1]; simp [aggregateInit]
      · exact h1

/-! ## Lemmas: trimming -/

theorem trimRightSpace_append_space (l : List Char) (c : Char) (hc : isSpace c = true) :
    trimRightSpace (l ++ [c]) = trimRightSpace l := by
  simp [trimRightSpace, List.dropWhile_cons, hc]

theorem trimRightSpace_nil : trimRightSpace [] = [] := by
  simp [trimRightSpace]

theorem trimSpace_append_space (l : List Char) (c : Char) (hc : isSpace c = true) :
    trimRightSpace (trimLeftSpace (l ++ [c])) = trimRightSpace (trimLeftSpace l) := by
  unfold trimLeftSpace
  rw [List.dropWhile_append]
  by_cases he : (List.dropWhile isSpace l).isEmpty = true
  · have hnil : List.dropWhile isSpace l = [] := List.isEmpty_iff.mp he
    simp [he, hnil, List.dropWhile_cons, hc]
  · simp only [he]
    exact trimRightSpace_append_space _ c hc

theorem TrimSpace_append_space (s : String) : TrimSpace (s ++ " ") = TrimSpace s := by
  unfold TrimSpace
  rw [String.data_append]
  have h : (" " : String).data = [' '] := rfl
  rw [h, trimSpace_append_space s.data ' ' (by decide)]

theorem trimRightSpace_isInitial (l : List Char) : trimRightSpace l <+: l := by
  unfold trimRightSpace
  have h := List.dropWhile_suffix isSpace (l := l.reverse)
  have h2 := List.reverse_prefix.mpr h
  simpa using h2

theorem trimLeftSpace_head (l : List Char) :
    ∀ c, (trimLeftSpace l).head? = some c → isSpace c = false := by
  intro c hc
  have h := List.head?_dropWhile_not isSpace l
  unfold trimLeftSpace at hc
  rw [hc] at h
  exact h

theorem trimRightSpace_getLast (l : List Char) :
    ∀ c, (trimRightSpace l).getLast? = some c → isSpace c = false := by
  intro c hc
  have h := List.head?_dropWhile_not isSpace l.reverse
  unfold trimRightSpace at hc
  rw [List.getLast?_reverse] at hc
  rw [hc] at h
  exact h

/-- The result of `TrimSpace` neither begins nor ends with white space. -/
theorem TrimSpace_no_surrounding_space (s : String) :
    hasLeadingSpace (TrimSpace s) = false ∧ hasTrailingSpace (TrimSpace s) = false := by
  constructor
  · unfold hasLeadingSpace TrimSpace
    simp only
    cases hh : (trimRightSpace (trimLeftSpace s.data)).head? with
    | none => rfl
    | some c =>
      simp only
      obtain ⟨t, ht⟩ := trimRightSpace_isInitial (trimLeftSpace s.data)
      apply trimLeftSpace_head s.data c
      rw [← ht]
      cases hl : trimRightSpace (trimLeftSpace s.data) with
      | nil => rw [hl] at hh; simp at hh
      | cons a rest => rw [hl] at hh; simpa using hh
  · unfold hasTrailingSpace TrimSpace
    simp only
    cases hh : (trimRightSpace (trimLeftSpace s.data)).getLast? with
    | none => rfl
    | some c => exact trimRightSpace_getLast _ c hh

/-- The reason built by the code is the reason as the specification words it. -/
theorem Record.reason_eq_reasonSpec (record : Record) (h : record.failed = true) :
    record.reason =
      reasonSpec record.Row.PolicyEvaluated.DKIM record.Row.PolicyEvaluated.SPF := by
  have hc : record.Row.PolicyEvaluated.DKIM ≠ "pass" ∨ record.Row.PolicyEvaluated.SPF ≠ "pass" := by
    simpa [Record.failed] using h
  unfold Record.reason reasonSpec
  by_cases hd : record.Row.PolicyEvaluated.DKIM = "pass"
  · have hs : record.Row.PolicyEvaluated.SPF ≠ "pass" := by
      rcases hc with h1 | h1
      · exact absurd hd h1
      · exact h1
    simp [hd, hs]
  · by_cases hs : record.Row.PolicyEvaluated.SPF = "pass"
    · simp only [hd, hs, ne_eq, not_false_eq_true, not_true_eq_false, ite_true, ite_false,
        and_self, String.empty_append]
      exact TrimSpace_append_space _
    · have e : (" SPF:" : String) = " " ++ "SPF:" := by decide
      simp only [hd, hs, ne_eq, not_false_eq_true, ite_true, and_false, and_true, ite_false,
        String.empty_append, false_and]
      rw [e]
      simp only [String.append_assoc]

/-! ## Lemmas: trimming keeps a pattern free of white space at its ends -/

theorem containsChars_iff (pat l : List Char) : containsChars pat l = true ↔ pat <:+: l := by
  induction l with
  | nil =>
    simp only [containsChars, List.isPrefixOf_iff_prefix, List.prefix_nil, List.infix_nil]
  | cons c cs ih =>
    simp only [containsChars, Bool.or_eq_true, List.isPrefixOf_iff_prefix, ih,
      List.infix_cons_iff]

theorem trimRightSpace_append (pat rest : List Char) (c : Char)
    (hlast : pat.getLast? = some c) (hc : isSpace c = false) :
    trimRightSpace (pat ++ rest) = pat ++ trimRightSpace rest := by
  have hrev : List.dropWhile isSpace pat.reverse = pat.reverse := by
    have hh : pat.reverse.head? = some c := by rw [List.head?_reverse]; exact hlast
    cases hp : pat.reverse with
    | nil => rfl
    | cons a t =>
      rw [hp] at hh
      simp only [List.head?_cons, Option.some.injEq] at hh
      rw [List.dropWhile_cons, hh, hc]
      simp
  unfold trimRightSpace
  rw [List.reverse_append, List.dropWhile_append]
  by_cases he : (List.dropWhile isSpace rest.reverse).isEmpty = true
  · have hnil : List.dropWhile isSpace rest.reverse = [] := List.isEmpty_iff.mp he
    simp [he, hnil, hrev]
  · simp [he]

theorem trimLeftSpace_keepsPattern (pat l : List Char) (c : Char)
    (hhead : pat.head? = some c) (hc : isSpace c = false) (h : pat <:+: l) :
    pat <:+: trimLeftSpace l := by
  induction l with
  | nil => exact h
  | cons x xs ih =>
    unfold trimLeftSpace at ih ⊢
    rw [List.dropWhile_cons]
    by_cases hx : isSpace x = true
    · simp only [hx, if_true]
      rcases List.infix_cons_iff.mp h with hp | hi
      · exfalso
        obtain ⟨t, ht⟩ := hp
        cases pat with
        | nil => simp at hhead
        | cons a as =>
          simp only [List.head?_cons, Option.some.injEq] at hhead
          simp only [List.cons_append, List.cons.injEq] at ht
          rw [← ht.1, hhead, hc] at hx
          exact Bool.noConfusion hx
      · exact ih hi
    · simp only [hx]
      exact h

theorem trimSpace_infix_iff (pat l : List Char) (c1 c2 : Char)
    (hhead : pat.head? = some c1) (hc1 : isSpace c1 = false)
    (hlast : pat.getLast? = some c2) (hc2 : isSpace c2 = false) :
    pat <:+: trimRightSpace (trimLeftSpace l) ↔ pat <:+: l := by
  constructor
  · intro h
    have h1 : trimRightSpace (trimLeftSpace l) <:+: trimLeftSpace l :=
      (trimRightSpace_isInitial _).isInfix
    have h2 : trimLeftSpace l <:+: l := (List.dropWhile_suffix isSpace).isInfix
    exact h.trans (h1.trans h2)
  · intro h
    obtain ⟨a, b, hab⟩ := trimLeftSpace_keepsPattern pat l c1 hhead hc1 h
    have hl : (a ++ pat).getLast? = some c2 := by
      cases pat with
      | nil => simp at hhead
      | cons x xs =>
        rw [List.getLast?_append, hlast]
        rfl
    rw [← hab, trimRightSpace_append (a ++ pat) b c2 hl hc2]
    exact ⟨a, trimRightSpace b, rfl⟩

theorem trimSpace_prefix_iff (pat l : List Char) (c2 : Char)
    (hlast : pat.getLast? = some c2) (hc2 : isSpace c2 = false) :
    pat <+: trimRightSpace (trimLeftSpace l) ↔ pat <+: trimLeftSpace l := by
  constructor
  · intro h
    exact h.trans (trimRightSpace_isInitial _)
  · intro h
    obtain ⟨b, hb⟩ := h
    rw [← hb, trimRightSpace_append pat b c2 hlast hc2]
    exact ⟨trimRightSpace b, rfl⟩

/-- Function `hasXMLHeader` tests that the input begins, after leading white space, with
`<?xml`. -/
theorem hasXMLHeader_eq (data : String) :
    hasXMLHeader data = beginsWithXMLDeclaration data := by
  rw [Bool.eq_iff_iff]
  unfold hasXMLHeader beginsWithXMLDeclaration HasPrefix TrimSpace
  simp only [List.isPrefixOf_iff_prefix]
  exact trimSpace_prefix_iff "<?xml".data data.data 'l' (by decide) (by decide)

/-- Function `hasRootElement` tests that the input contains `<feedback` or `<report`. -/
theorem hasRootElement_eq (data : String) :
    hasRootElement data = containsRootTag data := by
  rw [Bool.eq_iff_iff]
  unfold hasRootElement containsRootTag Contains TrimSpace
  simp only [Bool.or_eq_true, containsChars_iff]
  rw [trimSpace_infix_iff "<feedback".data data.data '<' 'k' (by decide) (by decide)
      (by decide) (by decide),
    trimSpace_infix_iff "<report".data data.data '<' 't' (by decide) (by decide)
      (by decide) (by decide)]

/-! ## The aggregator -/

/-- C1: the failed records of `AggregateReports` are, in input order (reports in list
order, records in their order within each report), one entry for each record whose
policy-evaluated DKIM is not exactly "pass" or whose policy-evaluated SPF is not exactly
"pass", and none for a record with both equal to "pass"; each entry carries the source
IP, the header-from domain and the count of its record unchanged. -/
theorem C1_failed_records_in_order (reports : List DMARCReport) :
    (AggregateReports reports).FailedRecords.map (fun f => (f.SourceIP, f.Domain, f.Count)) =
      ((allRecords reports).filter
          (fun r => decide (r.Row.PolicyEvaluated.DKIM ≠ "pass" ∨
            r.Row.PolicyEvaluated.SPF ≠ "pass"))).map
        (fun r => (r.Row.SourceIP, r.Identifiers.HeaderFrom, r.Row.Count)) := by
  rw [AggregateReports_eq]
  simp only [List.map_map]
  rfl

/-- C2: the reasons of the failed records are, in order, the reasons as the specification
words them ("DKIM:d" when only DKIM is not "pass", "SPF:s" when only SPF is not "pass",
"DKIM:d SPF:s" when both are not, each trimmed of surrounding white space); no reason
begins or ends with white space; a single record with DKIM "fail" and SPF "pass" gives
exactly the reason "DKIM:fail", and one with DKIM "fail" and SPF "fail" gives exactly
"DKIM:fail SPF:fail". -/
theorem C2_failed_record_reason (reports : List DMARCReport) :
    (AggregateReports reports).FailedRecords.map (fun f => f.Reason) =
        ((allRecords reports).filter
            (fun r => decide (r.Row.PolicyEvaluated.DKIM ≠ "pass" ∨
              r.Row.PolicyEvaluated.SPF ≠ "pass"))).map
          (fun r => reasonSpec r.Row.PolicyEvaluated.DKIM r.Row.PolicyEvaluated.SPF) ∧
      (∀ f ∈ (AggregateReports reports).FailedRecords,
        hasLeadingSpace f.Reason = false ∧ hasTrailingSpace f.Reason = false) ∧
      (∀ (rm : ReportMetadata) (pp : PolicyPublished) (ip disp hf : String) (count : Int)
          (ar : AuthResults),
        (AggregateReports [⟨rm, pp, [⟨⟨ip, count, ⟨disp, "fail", "pass"⟩⟩, ⟨hf⟩, ar⟩]⟩]).FailedRecords
            = [⟨ip, hf, count, "DKIM:fail"⟩] ∧
        (AggregateReports [⟨rm, pp, [⟨⟨ip, count, ⟨disp, "fail", "fail"⟩⟩, ⟨hf⟩, ar⟩]⟩]).FailedRecords
            = [⟨ip, hf, count, "DKIM:fail SPF:fail"⟩]) := by
  refine ⟨?_, ?_, ?_⟩
  · rw [AggregateReports_eq]
    simp only [List.map_map]
    apply List.map_congr_left
    intro r hr
    have hf : r.failed = true := (List.mem_filter.mp hr).2
    exact Record.reason_eq_reasonSpec r hf
  · intro f hf
    rw [AggregateReports_eq] at hf
    obtain ⟨r, _, hr⟩ := List.mem_map.mp hf
    rw [← hr]
    exact TrimSpace_no_surrounding_space _
  · intro rm pp ip disp hf count ar
    constructor
    · rw [AggregateReports_eq]
      have h1 : TrimSpace "DKIM:fail " = "DKIM:fail" := by decide
      simp [allRecords, Record.failed, Record.failedRecord, Record.reason, h1]
    · rw [AggregateReports_eq]
      have h1 : TrimSpace "DKIM:fail SPF:fail" = "DKIM:fail SPF:fail" := by decide
      simp [allRecords, Record.failed, Record.failedRecord, Record.reason, h1]

/-- C3: `TotalRecords` is the sum over the reports of the number of record entries of
each, `TotalReports` is the number of reports, and two lists of reports that differ only
in the `Count` fields of their records have the same `TotalRecords`, `TotalReports`, date
range and five frequency maps. -/
theorem C3_totals_ignore_count (reports reports' : List DMARCReport)
    (h : reports.map DMARCReport.eraseCounts = reports'.map DMARCReport.eraseCounts) :
    (AggregateReports reports).TotalRecords = (reports.map (fun r => r.Records.length)).sum ∧
      (AggregateReports reports).TotalReports = reports.length ∧
      (AggregateReports reports').TotalRecords = (AggregateReports reports).TotalRecords ∧
      (AggregateReports reports').TotalReports = (AggregateReports reports).TotalReports ∧
      (AggregateReports reports').DateRange = (AggregateReports reports).DateRange ∧
      (AggregateReports reports').Domains = (AggregateReports reports).Domains ∧
      (AggregateReports reports').Sources = (AggregateReports reports).Sources ∧
      (AggregateReports reports').Dispositions = (AggregateReports reports).Dispositions ∧
      (AggregateReports reports').DKIMResults = (AggregateReports reports).DKIMResults ∧
      (AggregateReports reports').SPFResults = (AggregateReports reports).SPFResults := by
  have key : ∀ rs : List DMARCReport,
      (AggregateReports rs).TotalRecords
          = (AggregateReports (rs.map DMARCReport.eraseCounts)).TotalRecords ∧
        (AggregateReports rs).TotalReports
          = (AggregateReports (rs.map DMARCReport.eraseCounts)).TotalReports ∧
        (AggregateReports rs).DateRange
          = (AggregateReports (rs.map DMARCReport.eraseCounts)).DateRange ∧
        (AggregateReports rs).Domains
          = (AggregateReports (rs.map DMARCReport.eraseCounts)).Domains ∧
        (AggregateReports rs).Sources
          = (AggregateReports (rs.map DMARCReport.eraseCounts)).Sources ∧
        (AggregateReports rs).Dispositions
          = (AggregateReports (rs.map DMARCReport.eraseCounts)).Dispositions ∧
        (AggregateReports rs).DKIMResults
          = (AggregateReports (rs.map DMARCReport.eraseCounts)).DKIMResults ∧
        (AggregateReports rs).SPFResults
          = (AggregateReports (rs.map DMARCReport.eraseCounts)).SPFResults := by
    intro rs
    have hrec : allRecords (rs.map DMARCReport.eraseCounts)
        = (allRecords rs).map Record.eraseCount := by
      induction rs with
      | nil => rfl
      | cons r rest ih =>
        simp only [allRecords, List.map_cons, List.flatMap_cons, List.map_append] at ih ⊢
        rw [ih]
        rfl
    have hdr : (rs.map DMARCReport.eraseCounts).foldl DateRange.extend
          (aggregateInit (rs.map DMARCReport.eraseCounts)).DateRange
        = rs.foldl DateRange.extend (aggregateInit rs).DateRange := by
      have hinit : (aggregateInit (rs.map DMARCReport.eraseCounts)).DateRange
          = (aggregateInit rs).DateRange := by
        cases rs <;> rfl
      rw [hinit, List.foldl_map]
      rfl
    rw [AggregateReports_eq, AggregateReports_eq]
    simp only [hrec, hdr, List.length_map, List.map_map]
    refine ⟨trivial, trivial, trivial, ?_, ?_, ?_, ?_, ?_⟩ <;> rfl
  obtain ⟨a1, a2, a3, a4, a5, a6, a7, a8⟩ := key reports
  obtain ⟨b1, b2, b3, b4, b5, b6, b7, b8⟩ := key reports'
  rw [← h] at b1 b2 b3 b4 b5 b6 b7 b8
  refine ⟨?_, ?_, ?_, ?_, ?_, ?_, ?_, ?_, ?_, ?_⟩
  · rw [AggregateReports_eq]
    simp only [allRecords, List.length_flatMap]
    rfl
  · rw [AggregateReports_eq]
  · rw [b1, ← a1]
  · rw [b2, ← a2]
  · rw [b3, ← a3]
  · rw [b4, ← a4]
  · rw [b5, ← a5]
  · rw [b6, ← a6]
  · rw [b7, ← a7]
  · rw [b8, ← a8]

theorem C3_totals_ignore_count_witness :
    [sampleReportA, sampleReportB].map DMARCReport.eraseCounts
        = [sampleReportA2, sampleReportB].map DMARCReport.eraseCounts ∧
      (AggregateReports [sampleReportA, sampleReportB]).TotalRecords = 3 ∧
      (AggregateReports [sampleReportA2, sampleReportB]).TotalRecords
        = (AggregateReports [sampleReportA, sampleReportB]).TotalRecords :=
  ⟨by decide,
   (C3_totals_ignore_count [sampleReportA, sampleReportB] [sampleReportA2, sampleReportB]
      (by decide)).1,
   (C3_totals_ignore_count [sampleReportA, sampleReportB] [sampleReportA2, sampleReportB]
      (by decide)).2.2.1⟩

/-- C4: for a non-empty list of reports the aggregated begin is the minimum of the
reports' begins (it is the begin of one of the reports and no report begins before it)
and the aggregated end is the maximum of the reports' ends (it is the end of one of the
reports and no report ends after it); any reordering of the reports gives the same two
instants; and for the ranges [2024-01-01, 2024-01-05] and [2024-01-03, 2024-01-10], in
either order, the result is [2024-01-01, 2024-01-10]. -/
theorem C4_date_range_is_min_begin_max_end (reports : List DMARCReport) (h : reports ≠ []) :
    ((AggregateReports reports).DateRange.Begin ∈
        reports.map (fun r => r.ReportMetadata.DateRange.Begin) ∧
      ∀ r ∈ reports,
        r.ReportMetadata.DateRange.Begin.Before (AggregateReports reports).DateRange.Begin
          = false) ∧
    ((AggregateReports reports).DateRange.End ∈
        reports.map (fun r => r.ReportMetadata.DateRange.End) ∧
      ∀ r ∈ reports,
        r.ReportMetadata.DateRange.End.After (AggregateReports reports).DateRange.End
          = false) ∧
    (∀ reports' : List DMARCReport, reports'.Perm reports →
      (AggregateReports reports').DateRange.Begin.Equal
          (AggregateReports reports).DateRange.Begin = true ∧
        (AggregateReports reports').DateRange.End.Equal
          (AggregateReports reports).DateRange.End = true) ∧
    (∀ r1 r2 : DMARCReport,
      (AggregateReports
          [r1.withDateRange ⟨Unix 1704067200 0, Unix 1704412800 0⟩,
           r2.withDateRange ⟨Unix 1704240000 0, Unix 1704844800 0⟩]).DateRange
        = ⟨Unix 1704067200 0, Unix 1704844800 0⟩ ∧
      (AggregateReports
          [r2.withDateRange ⟨Unix 1704240000 0, Unix 1704844800 0⟩,
           r1.withDateRange ⟨Unix 1704067200 0, Unix 1704412800 0⟩]).DateRange
        = ⟨Unix 1704067200 0, Unix 1704844800 0⟩) := by
  obtain ⟨⟨hb1, hb2⟩, ⟨he1, he2⟩⟩ := AggregateReports_DateRange reports h
  refine ⟨⟨hb1, hb2⟩, ⟨he1, he2⟩, ?_, ?_⟩
  · intro reports' hp
    have h' : reports' ≠ [] := by
      intro e
      rw [e] at hp
      exact h (List.Perm.nil_eq hp).symm
    obtain ⟨⟨hb1', hb2'⟩, ⟨he1', he2'⟩⟩ := AggregateReports_DateRange reports' h'
    constructor
    · obtain ⟨x, hx, hxe⟩ := List.mem_map.mp hb1
      obtain ⟨y, hy, hye⟩ := List.mem_map.mp hb1'
      apply Time.Equal_of_not_Before
      · have := hb2 y (hp.mem_iff.mp hy)
        rw [hye] at this
        exact this
      · have := hb2' x (hp.mem_iff.mpr hx)
        rw [hxe] at this
        exact this
    · obtain ⟨x, hx, hxe⟩ := List.mem_map.mp he1
      obtain ⟨y, hy, hye⟩ := List.mem_map.mp he1'
      apply Time.Equal_of_not_Before
      · have := he2' x (hp.mem_iff.mpr hx)
        rw [hxe, Time.After_eq_Before] at this
        exact this
      · have := he2 y (hp.mem_iff.mp hy)
        rw [hye, Time.After_eq_Before] at this
        exact this
  · intro r1 r2
    have b1 : (Unix 1704240000 0).Before (Unix 1704067200 0) = false := by decide
    have b2 : (Unix 1704067200 0).Before (Unix 1704240000 0) = true := by decide
    have b3 : (Unix 1704067200 0).Before (Unix 1704067200 0) = false := by decide
    have b4 : (Unix 1704240000 0).Before (Unix 1704240000 0) = false := by decide
    have a1 : (Unix 1704844800 0).After (Unix 1704412800 0) = true := by decide
    have a2 : (Unix 1704412800 0).After (Unix 1704844800 0) = false := by decide
    have a3 : (Unix 1704412800 0).After (Unix 1704412800 0) = false := by decide
    have a4 : (Unix 1704844800 0).After (Unix 1704844800 0) = false := by decide
    constructor
    · rw [AggregateReports_eq]
      simp [aggregateInit, DateRange.extend, DMARCReport.withDateRange, b1, b3, a1, a3]
    · rw [AggregateReports_eq]
      simp [aggregateInit, DateRange.extend, DMARCReport.withDateRange, b2, b4, a2, a4]

theorem C4_date_range_is_min_begin_max_end_witness :
    [sampleReportB, sampleReportA] ≠ [] ∧
      (∀ r ∈ [sampleReportB, sampleReportA],
        r.ReportMetadata.DateRange.Begin.Before
          (AggregateReports [sampleReportB, sampleReportA]).DateRange.Begin = false) ∧
      (AggregateReports [sampleReportA, sampleReportB]).DateRange.Begin.Equal
        (AggregateReports [sampleReportB, sampleReportA]).DateRange.Begin = true :=
  ⟨by decide,
   (C4_date_range_is_min_begin_max_end [sampleReportB, sampleReportA] (by decide)).1.2,
   ((C4_date_range_is_min_begin_max_end [sampleReportB, sampleReportA] (by decide)).2.2.1
      [sampleReportA, sampleReportB] (List.Perm.swap _ _ _)).1⟩

/-- C5: for every key `k`, `Domains[k]` is the number of reports whose published policy
domain is `k`, and `Sources[k]`, `Dispositions[k]`, `DKIMResults[k]`, `SPFResults[k]` are
the numbers of record entries, over all reports, whose source IP, policy-evaluated
disposition, DKIM and SPF equal `k`; a key is present in a map exactly when it occurs at
least once. -/
theorem C5_frequency_maps_count_occurrences (reports : List DMARCReport) (k : String) :
    ((AggregateReports reports).Domains.get k
        = reports.countP (fun r => r.PolicyPublished.Domain == k) ∧
      (AggregateReports reports).Sources.get k
        = (allRecords reports).countP (fun r => r.Row.SourceIP == k) ∧
      (AggregateReports reports).Dispositions.get k
        = (allRecords reports).countP (fun r => r.Row.PolicyEvaluated.Disposition == k) ∧
      (AggregateReports reports).DKIMResults.get k
        = (allRecords reports).countP (fun r => r.Row.PolicyEvaluated.DKIM == k) ∧
      (AggregateReports reports).SPFResults.get k
        = (allRecords reports).countP (fun r => r.Row.PolicyEvaluated.SPF == k)) ∧
    (((AggregateReports reports).Domains.has k = true
        ↔ ∃ r ∈ reports, r.PolicyPublished.Domain = k) ∧
      ((AggregateReports reports).Sources.has k = true
        ↔ ∃ r ∈ allRecords reports, r.Row.SourceIP = k) ∧
      ((AggregateReports reports).Dispositions.has k = true
        ↔ ∃ r ∈ allRecords reports, r.Row.PolicyEvaluated.Disposition = k) ∧
      ((AggregateReports reports).DKIMResults.has k = true
        ↔ ∃ r ∈ allRecords reports, r.Row.PolicyEvaluated.DKIM = k) ∧
      ((AggregateReports reports).SPFResults.has k = true
        ↔ ∃ r ∈ allRecords reports, r.Row.PolicyEvaluated.SPF = k)) := by
  have hget : ∀ {α : Type} (l : List α) (f : α → String),
      (FreqMap.incAll [] (l.map f)).get k = l.countP (fun r => f r == k) := by
    intro α l f
    rw [FreqMap.get_incAll, List.count, List.countP_map]
    simp [FreqMap.get, Function.comp_def]
  have hhas : ∀ {α : Type} (l : List α) (f : α → String),
      ((FreqMap.incAll [] (l.map f)).has k = true ↔ ∃ r ∈ l, f r = k) := by
    intro α l f
    rw [FreqMap.has_incAll]
    simp [FreqMap.has]
  rw [AggregateReports_eq]
  exact ⟨⟨hget _ _, hget _ _, hget _ _, hget _ _, hget _ _⟩,
    ⟨hhas _ _, hhas _ _, hhas _ _, hhas _ _, hhas _ _⟩⟩

/-- C6: `AggregateReports` of the empty list returns (it is a total function) the report
with `TotalReports = 0`, `TotalRecords = 0`, the five frequency maps empty, no failed
records and the zero-value date range. -/
theorem C6_aggregate_empty_list :
    AggregateReports [] =
      { TotalReports := 0
        TotalRecords := 0
        DateRange := ⟨Time.zero, Time.zero⟩
        Domains := []
        Sources := []
        Dispositions := []
        DKIMResults := []
        SPFResults := []
        FailedRecords := [] } := by
  rfl

/-! ## Lemmas: the parser -/

theorem validateReport_eq_none_iff (report : DMARCReport) :
    validateReport report = none ↔
      report.ReportMetadata.ReportID ≠ "" ∧ report.ReportMetadata.OrgName ≠ "" ∧
        report.PolicyPublished.Domain ≠ "" ∧
        report.ReportMetadata.DateRange.Begin ≠ Time.zero ∧
        report.ReportMetadata.DateRange.End ≠ Time.zero := by
  unfold validateReport
  by_cases h1 : report.ReportMetadata.ReportID = ""
  · simp [h1]
  · by_cases h2 : report.ReportMetadata.OrgName = ""
    · simp [h1, h2]
    · by_cases h3 : report.PolicyPublished.Domain = ""
      · simp [h1, h2, h3]
      · by_cases h4 : report.ReportMetadata.DateRange.Begin = Time.zero
        · simp [h1, h2, h3, h4]
        · by_cases h5 : report.ReportMetadata.DateRange.End = Time.zero
          · simp [h1, h2, h3, h4, h5]
          · simp [h1, h2, h3, h4, h5]

/-- A successful `UnmarshalXML` leaves both endpoints set by `time.Unix` from the two
integers read. -/
theorem DateRange.UnmarshalXML_ok (dr dr' : DateRange) (elem : dateRange × Option GoError)
    (h : dr.UnmarshalXML elem = (dr', none)) :
    ∃ b e : Int, ParseInt elem.1.Begin = .ok b ∧ ParseInt elem.1.End = .ok e ∧
      dr' = ⟨Unix b 0, Unix e 0⟩ := by
  unfold DateRange.UnmarshalXML at h
  cases h2 : elem.2 with
  | some err => simp [h2] at h
  | none =>
    cases hb : ParseInt elem.1.Begin with
    | error err => simp [h2, hb] at h
    | ok b =>
      cases he : ParseInt elem.1.End with
      | error err => simp [h2, hb, he] at h
      | ok e =>
        simp only [h2, hb, he, Prod.mk.injEq, and_true] at h
        exact ⟨b, e, rfl, rfl, h.symm⟩

/-- After a successful decoding the date range of the report is either untouched or set
by `time.Unix` at both endpoints. -/
theorem runDecode_DateRange (steps : List DecodeStep) (report report' : DMARCReport)
    (h : runDecode steps report = (report', none)) :
    report'.ReportMetadata.DateRange = report.ReportMetadata.DateRange ∨
      ∃ b e : Int, report'.ReportMetadata.DateRange = ⟨Unix b 0, Unix e 0⟩ := by
  induction steps generalizing report with
  | nil =>
    simp only [runDecode, Prod.mk.injEq, and_true] at h
    left; rw [h]
  | cons step rest ih =>
    cases step with
    | field set =>
      simp only [runDecode] at h
      have h1 := ih _ h
      exact h1
    | dateRange elem =>
      simp only [runDecode] at h
      cases hu : report.ReportMetadata.DateRange.UnmarshalXML elem with
      | mk dr oerr =>
        cases oerr with
        | some err => simp [hu] at h
        | none =>
          simp only [hu] at h
          obtain ⟨b, e, _, _, hdr⟩ := DateRange.UnmarshalXML_ok _ _ _ hu
          rcases ih _ h with h1 | h1
          · right; exact ⟨b, e, by rw [h1, ← hdr]⟩
          · right; exact h1
    | fail err => simp [runDecode] at h

/-- The report that `ParseDMARCReport` returns with a nil error is the outcome of a
successful decoding and passes `validateReport`. -/
theorem ParseDMARCReport_accepts (env : Env) (filepath : String) (report : DMARCReport)
    (h : ParseDMARCReport env filepath = (report, none)) :
    ∃ data : String,
      runDecode (env.xmlSteps (TrimSpace data)) DMARCReport.zero = (report, none) ∧
        validateReport report = none := by
  unfold ParseDMARCReport at h
  cases hs : env.Stat filepath with
  | err e isNotExist =>
    by_cases hn : isNotExist = true <;> simp [hs, hn] at h
  | ok size =>
    by_cases h0 : size = 0
    · simp [hs, h0] at h
    · cases hr : env.ReadFile filepath with
      | error e => simp [hs, h0, hr] at h
      | ok data =>
        by_cases hx : (!hasXMLHeader data && !hasRootElement data) = true
        · simp only [hs, h0, hr, hx, if_true, if_false] at h
          simp at h
        · simp only [hs, h0, hr, hx, if_false, Bool.false_eq_true] at h
          cases hd : runDecode (env.xmlSteps (TrimSpace data)) DMARCReport.zero with
          | mk r oerr =>
            cases oerr with
            | some err => simp [hd] at h
            | none =>
              simp only [hd] at h
              cases hv : validateReport r with
              | some err => simp [hv] at h
              | none =>
                simp only [hv, Prod.mk.injEq, and_true] at h
                exact ⟨data, by rw [hd, h], by rw [← h]; exact hv⟩

/-! ## The parser -/

/-- C7: `validateReport` returns an error if and only if the report ID is empty, the
organisation name is empty, the policy domain is empty, or one endpoint of the date range
is the unset zero-value timestamp; the first condition that holds, in that order, decides
the error, the four errors have pairwise distinct messages, each naming its field; the
records play no part, and a report with the four present is accepted whatever its records
are, zero records included. -/
theorem C7_validateReport_required_fields (report : DMARCReport) :
    ((validateReport report).isSome = true ↔
        (report.ReportMetadata.ReportID = "" ∨ report.ReportMetadata.OrgName = "" ∨
          report.PolicyPublished.Domain = "" ∨
          report.ReportMetadata.DateRange.Begin = Time.zero ∨
          report.ReportMetadata.DateRange.End = Time.zero)) ∧
      (report.ReportMetadata.ReportID = "" →
        validateReport report = some (.errorString "missing report ID")) ∧
      (report.ReportMetadata.ReportID ≠ "" → report.ReportMetadata.OrgName = "" →
        validateReport report = some (.errorString "missing organization name")) ∧
      (report.ReportMetadata.ReportID ≠ "" → report.ReportMetadata.OrgName ≠ "" →
        report.PolicyPublished.Domain = "" →
        validateReport report = some (.errorString "missing domain in policy")) ∧
      (report.ReportMetadata.ReportID ≠ "" → report.ReportMetadata.OrgName ≠ "" →
        report.PolicyPublished.Domain ≠ "" →
        (report.ReportMetadata.DateRange.Begin = Time.zero ∨
          report.ReportMetadata.DateRange.End = Time.zero) →
        validateReport report = some (.errorString "invalid date range")) ∧
      ["missing report ID", "missing organization name", "missing domain in policy",
        "invalid date range"].Nodup ∧
      (Contains "missing report ID" "report ID" = true ∧
        Contains "missing organization name" "organization name" = true ∧
        Contains "missing domain in policy" "domain" = true ∧
        Contains "invalid date range" "date range" = true) ∧
      (∀ records : List Record,
        validateReport { report with Records := records } = validateReport report) ∧
      (report.ReportMetadata.ReportID ≠ "" → report.ReportMetadata.OrgName ≠ "" →
        report.PolicyPublished.Domain ≠ "" →
        report.ReportMetadata.DateRange.Begin ≠ Time.zero →
        report.ReportMetadata.DateRange.End ≠ Time.zero →
        ∀ records : List Record, validateReport { report with Records := records } = none) := by
  refine ⟨?_, ?_, ?_, ?_, ?_, by decide, by decide, fun _ => rfl, ?_⟩
  · have h := validateReport_eq_none_iff report
    cases hv : validateReport report with
    | none =>
      obtain ⟨h1, h2, h3, h4, h5⟩ := h.mp hv
      simp [h1, h2, h3, h4, h5]
    | some e =>
      simp only [Option.isSome_some, true_iff]
      by_contra hc
      simp only [not_or] at hc
      have := h.mpr ⟨hc.1, hc.2.1, hc.2.2.1, hc.2.2.2.1, hc.2.2.2.2⟩
      rw [hv] at this
      exact Option.noConfusion this
  · intro h1
    simp [validateReport, h1]
  · intro h1 h2
    simp [validateReport, h1, h2]
  · intro h1 h2 h3
    simp [validateReport, h1, h2, h3]
  · intro h1 h2 h3 h4
    simp [validateReport, h1, h2, h3, h4]
  · intro h1 h2 h3 h4 h5 records
    exact (validateReport_eq_none_iff _).mpr ⟨h1, h2, h3, h4, h5⟩

set_option maxRecDepth 100000 in
theorem C7_validateReport_required_fields_witness :
    validateReport (sampleDecoded "" 1704067200) = some (.errorString "missing report ID") ∧
      validateReport { sampleReportA with Records := [] } = none :=
  ⟨(C7_validateReport_required_fields (sampleDecoded "" 1704067200)).2.1 (by decide),
   (C7_validateReport_required_fields sampleReportA).2.2.2.2.2.2.2.2
      (by decide) (by decide) (by decide) (by decide) (by decide) []⟩

set_option maxRecDepth 100000 in
/-- The unset timestamp is the zero value `time.Time{}`, not the zero instant: the sample
document whose date range begins at -62135596800 is accepted by the parser, and the begin
of the returned report is the zero instant (method `IsZero` answers true), yet it is set
and differs from the zero value `time.Time{}` by its location pointer. -/
theorem ParseDMARCReport_accepts_zero_instant :
    ParseDMARCReport (sampleEnv "A" "-62135596800") "report.xml"
        = (sampleDecoded "A" (-62135596800), none) ∧
      (sampleDecoded "A" (-62135596800)).ReportMetadata.DateRange.Begin.IsZero = true ∧
      (sampleDecoded "A" (-62135596800)).ReportMetadata.DateRange.Begin ≠ Time.zero := by
  decide

/-- C8.  For every document that the parser accepts (decoding and validation both
succeed), the returned report has a non-empty report ID, a non-empty organisation name, a
non-empty policy domain, and a date range whose begin and end are both non-zero
timestamps: neither is the unset zero value `time.Time{}`, which is what `validateReport`
compares them with.  Both were set by `time.Unix` from the integers written in a
`date_range` element. -/
theorem C8_accepted_report_has_required_fields (env : Env) (filepath : String)
    (report : DMARCReport) (h : ParseDMARCReport env filepath = (report, none)) :
    report.ReportMetadata.ReportID ≠ "" ∧ report.ReportMetadata.OrgName ≠ "" ∧
      report.PolicyPublished.Domain ≠ "" ∧
      report.ReportMetadata.DateRange.Begin ≠ Time.zero ∧
      report.ReportMetadata.DateRange.End ≠ Time.zero ∧
      ∃ b e : Int, report.ReportMetadata.DateRange = ⟨Unix b 0, Unix e 0⟩ := by
  obtain ⟨data, hd, hv⟩ := ParseDMARCReport_accepts env filepath report h
  obtain ⟨h1, h2, h3, h4, h5⟩ := (validateReport_eq_none_iff report).mp hv
  refine ⟨h1, h2, h3, h4, h5, ?_⟩
  rcases runDecode_DateRange _ _ _ hd with hz | hu
  · exfalso
    apply h4
    rw [hz]
    rfl
  · exact hu

set_option maxRecDepth 100000 in
/-- C8 at the sample document that begins on 2024-01-01: it is accepted, its report ID is
not empty and its begin is not the zero value. -/
theorem C8_accepted_report_has_required_fields_witness :
    ParseDMARCReport (sampleEnv "A" "1704067200") "report.xml"
        = (sampleDecoded "A" 1704067200, none) ∧
      (sampleDecoded "A" 1704067200).ReportMetadata.ReportID ≠ "" ∧
      (sampleDecoded "A" 1704067200).ReportMetadata.DateRange.Begin ≠ Time.zero :=
  ⟨by decide,
   (C8_accepted_report_has_required_fields (sampleEnv "A" "1704067200") "report.xml"
      (sampleDecoded "A" 1704067200) (by decide)).1,
   (C8_accepted_report_has_required_fields (sampleEnv "A" "1704067200") "report.xml"
      (sampleDecoded "A" 1704067200) (by decide)).2.2.2.1⟩

set_option maxRecDepth 100000 in
/-- C9, as stated, fails: for the sample document with an empty report ID the decoding
succeeds, validation fails, and `ParseDMARCReport` returns the error together with the
decoded report, which is not the zero-value report. -/
theorem C9_counterexample_report_returned_with_error :
    runDecode ((sampleEnv "" "1704067200").xmlSteps (sampleDocument "" "1704067200"))
        DMARCReport.zero = (sampleDecoded "" 1704067200, none) ∧
      validateReport (sampleDecoded "" 1704067200) = some (.errorString "missing report ID") ∧
      ParseDMARCReport (sampleEnv "" "1704067200") "report.xml"
        = (sampleDecoded "" 1704067200,
            some (.wrapError "invalid DMARC report in file report.xml: "
              (.errorString "missing report ID") "")) ∧
      (ParseDMARCReport (sampleEnv "" "1704067200") "report.xml").1 ≠ DMARCReport.zero := by
  decide

/-- C9, amended: whenever the file is read, passes the pre-check and is decoded without
error to a report on which validation fails with `err`, `ParseDMARCReport` returns a
non-nil error, which is `err` wrapped with the file name, and alongside it the decoded
report as it stands. -/
theorem C9_validation_failure_returns_error_and_decoded_report (env : Env)
    (filepath data : String) (size : Int) (report : DMARCReport) (err : GoError)
    (hstat : env.Stat filepath = .ok size) (hsize : size ≠ 0)
    (hread : env.ReadFile filepath = .ok data)
    (hcheck : hasXMLHeader data = true ∨ hasRootElement data = true)
    (hdecode : runDecode (env.xmlSteps (TrimSpace data)) DMARCReport.zero = (report, none))
    (hvalid : validateReport report = some err) :
    ParseDMARCReport env filepath =
      (report, some (.wrapError ("invalid DMARC report in file " ++ filepath ++ ": ") err "")) := by
  have hx : (!hasXMLHeader data && !hasRootElement data) = false := by
    rcases hcheck with h | h <;> simp [h]
  unfold ParseDMARCReport
  simp only [hstat, hsize, hread, hx, if_false, Bool.false_eq_true, hdecode, hvalid]

set_option maxRecDepth 100000 in
theorem C9_validation_failure_returns_error_and_decoded_report_witness :
    ParseDMARCReport (sampleEnv "" "1704067200") "report.xml" =
      (sampleDecoded "" 1704067200,
        some (.wrapError ("invalid DMARC report in file " ++ "report.xml" ++ ": ")
          (.errorString "missing report ID") "")) :=
  C9_validation_failure_returns_error_and_decoded_report (sampleEnv "" "1704067200")
    "report.xml" (sampleDocument "" "1704067200" ++ "\n")
    ((sampleDocument "" "1704067200").length + 1) (sampleDecoded "" 1704067200)
    (.errorString "missing report ID")
    (by decide) (by decide) (by rfl) (by decide) (by decide) (by decide)

/-- C10: for a file that exists and is read, whose size is 0 exactly when its content is
empty: an empty input fails with the format error "file is empty", and a non-empty input
that neither begins (after leading white space) with `<?xml` nor contains `<feedback` or
`<report` fails with the format error "does not appear to be valid XML"; in both cases the
zero-value report is returned and the outcome is the same whatever the decoder would do,
so no decoding is attempted.  Every other input passes the pre-check and reaches the
decoder: the outcome is that of decoding the trimmed input, followed by validation. -/
theorem C10_format_precheck (env : Env) (filepath data : String) (size : Int)
    (hstat : env.Stat filepath = .ok size) (hread : env.ReadFile filepath = .ok data)
    (hsize : size = 0 ↔ data = "") :
    (data = "" →
      ∀ steps : String → List DecodeStep,
        ParseDMARCReport { env with xmlSteps := steps } filepath =
          (DMARCReport.zero, some (.errorString ("file is empty: " ++ filepath)))) ∧
    (data ≠ "" → beginsWithXMLDeclaration data = false → containsRootTag data = false →
      ∀ steps : String → List DecodeStep,
        ParseDMARCReport { env with xmlSteps := steps } filepath =
          (DMARCReport.zero,
            some (.errorString ("file " ++ filepath ++ " does not appear to be valid XML")))) ∧
    (data ≠ "" → (beginsWithXMLDeclaration data = true ∨ containsRootTag data = true) →
      ParseDMARCReport env filepath =
        match runDecode (env.xmlSteps (TrimSpace data)) DMARCReport.zero with
        | (report, some err) =>
          (report, some (.wrapError ("invalid XML in file " ++ filepath ++ ": ") err ""))
        | (report, none) =>
          match validateReport report with
          | some err =>
            (report,
              some (.wrapError ("invalid DMARC report in file " ++ filepath ++ ": ") err ""))
          | none => (report, none)) := by
  refine ⟨?_, ?_, ?_⟩
  · intro hd steps
    have h0 : size = 0 := hsize.mpr hd
    unfold ParseDMARCReport
    simp only [hstat, h0, if_true]
  · intro hd hb hc steps
    have h0 : size ≠ 0 := fun e => hd (hsize.mp e)
    have hx : (!hasXMLHeader data && !hasRootElement data) = true := by
      rw [hasXMLHeader_eq, hasRootElement_eq, hb, hc]
      rfl
    unfold ParseDMARCReport
    simp only [hstat, h0, hread, hx, if_true, if_false]
  · intro hd hbc
    have h0 : size ≠ 0 := fun e => hd (hsize.mp e)
    have hx : (!hasXMLHeader data && !hasRootElement data) = false := by
      rw [hasXMLHeader_eq, hasRootElement_eq]
      rcases hbc with h | h <;> simp [h]
    unfold ParseDMARCReport
    simp only [hstat, h0, hread, hx, if_false, Bool.false_eq_true]

set_option maxRecDepth 100000 in
theorem C10_format_precheck_witness :
    ParseDMARCReport (textFileEnv "") "notes.txt" =
        (DMARCReport.zero, some (.errorString ("file is empty: " ++ "notes.txt"))) ∧
      ParseDMARCReport (textFileEnv "hello") "notes.txt" =
        (DMARCReport.zero,
          some (.errorString ("file " ++ "notes.txt" ++ " does not appear to be valid XML"))) ∧
      ParseDMARCReport (sampleEnv "A" "x") "report.xml" =
        (match runDecode ((sampleEnv "A" "x").xmlSteps
            (TrimSpace (sampleDocument "A" "x" ++ "\n"))) DMARCReport.zero with
        | (report, some err) =>
          (report, some (.wrapError ("invalid XML in file " ++ "report.xml" ++ ": ") err ""))
        | (report, none) =>
          match validateReport report with
          | some err =>
            (report,
              some (.wrapError ("invalid DMARC report in file " ++ "report.xml" ++ ": ") err ""))
          | none => (report, none)) :=
  ⟨(C10_format_precheck (textFileEnv "") "notes.txt" "" 0 (by rfl) (by rfl) (by decide)).1
      (by rfl) (textFileEnv "").xmlSteps,
   (C10_format_precheck (textFileEnv "hello") "notes.txt" "hello" 5 (by rfl) (by rfl)
      (by decide)).2.1 (by decide) (by decide) (by decide) (textFileEnv "hello").xmlSteps,
   (C10_format_precheck (sampleEnv "A" "x") "report.xml" (sampleDocument "A" "x" ++ "\n")
      ((sampleDocument "A" "x").length + 1) (by rfl) (by rfl) (by decide)).2.2
      (by decide) (by decide)⟩

/-! ## Lemmas: decimal integers and `time.Unix` -/

theorem digitsValue_ge (cs : List Char) (acc v : Nat) (h : digitsValue acc cs = some v) :
    acc ≤ v := by
  induction cs generalizing acc with
  | nil =>
    simp only [digitsValue, Option.some.injEq] at h
    omega
  | cons c cs ih =>
    simp only [digitsValue] at h
    by_cases hd : '0' ≤ c ∧ c ≤ '9'
    · simp only [hd, and_self, if_true] at h
      have := ih _ h
      omega
    · simp [hd] at h

theorem parseUintLoop_ok_iff (cs : List Char) (n v : Nat) :
    parseUintLoop cs n = .ok v ↔ digitsValue n cs = some v ∧ (cs ≠ [] → v ≤ 2 ^ 64 - 1) := by
  induction cs generalizing n with
  | nil =>
    simp only [parseUintLoop, digitsValue, Except.ok.injEq, Option.some.injEq, ne_eq,
      not_true_eq_false, false_implies, and_true]
  | cons c cs ih =>
    simp only [parseUintLoop, digitsValue]
    by_cases hd : '0' ≤ c ∧ c ≤ '9'
    · simp only [hd, and_self, if_true, ne_eq, reduceCtorEq, not_false_eq_true, true_implies]
      by_cases h1 : n ≥ (2 ^ 64 - 1) / 10 + 1
      · simp only [h1, if_true, reduceCtorEq, false_iff, not_and]
        intro hv
        have := digitsValue_ge _ _ _ hv
        omega
      · simp only [h1, if_false]
        by_cases h2 : n * 10 + (c.toNat - '0'.toNat) > 2 ^ 64 - 1
        · simp only [h2, if_true, reduceCtorEq, false_iff, not_and]
          intro hv
          have := digitsValue_ge _ _ _ hv
          omega
        · simp only [h2, if_false]
          rw [ih]
          constructor
          · intro ⟨hv, hb⟩
            refine ⟨hv, ?_⟩
            cases cs with
            | nil =>
              simp only [digitsValue, Option.some.injEq] at hv
              omega
            | cons d ds => exact hb (by simp)
          · intro ⟨hv, hb⟩
            exact ⟨hv, fun _ => hb⟩
    · simp [hd]

theorem parseUintLoop_error (cs : List Char) (n : Nat) (e : GoError)
    (h : parseUintLoop cs n = .error e) : e = ErrSyntax ∨ e = ErrRange := by
  induction cs generalizing n with
  | nil => simp [parseUintLoop] at h
  | cons c cs ih =>
    simp only [parseUintLoop] at h
    split at h
    · split at h
      · right; simpa using h.symm
      · split at h
        · right; simpa using h.symm
        · exact ih _ h
    · left; simpa using h.symm

theorem parseInt_core (s : String) (digits : List Char) (hne : digits ≠ []) (neg : Bool)
    (n : Int) :
    (match parseUintLoop digits 0 with
      | .error e =>
        if e = ErrRange then Except.error (GoError.numError "ParseInt" s ErrRange)
        else Except.error (GoError.numError "ParseInt" s e)
      | .ok un =>
        if !neg && decide (un ≥ 2 ^ 63) then Except.error (GoError.numError "ParseInt" s ErrRange)
        else if neg && decide (un > 2 ^ 63) then
          Except.error (GoError.numError "ParseInt" s ErrRange)
        else Except.ok (if neg then -(un : Int) else (un : Int))) = Except.ok n ↔
      ∃ v : Nat, digitsValue 0 digits = some v ∧
        (if neg = true then -(v : Int) else (v : Int)) = n ∧
        -(2 : Int) ^ 63 ≤ n ∧ n < (2 : Int) ^ 63 := by
  cases hp : parseUintLoop digits 0 with
  | error e =>
    have hnone : ∀ v, digitsValue 0 digits = some v → ¬ v ≤ 2 ^ 64 - 1 := by
      intro v hv hle
      have := (parseUintLoop_ok_iff digits 0 v).mpr ⟨hv, fun _ => hle⟩
      rw [hp] at this
      exact Except.noConfusion this
    have hl : ¬ ((if e = ErrRange then Except.error (GoError.numError "ParseInt" s ErrRange)
        else Except.error (GoError.numError "ParseInt" s e)) = (Except.ok n : Except GoError Int)) := by
      by_cases he : e = ErrRange <;> simp [he]
    simp only [hl, false_iff, not_exists, not_and]
    intro v hv hn hlo hhi
    have := hnone v hv
    cases neg <;> simp at hn <;> omega
  | ok un =>
    obtain ⟨hv, hb⟩ := (parseUintLoop_ok_iff digits 0 un).mp hp
    have hb' := hb hne
    simp only [hv, Option.some.injEq, exists_eq_left']
    cases neg with
    | false =>
      simp only [Bool.not_false, Bool.true_and, Bool.false_and, Bool.false_eq_true, if_false,
        decide_eq_true_eq]
      by_cases hr : un ≥ 2 ^ 63
      · simp only [hr, if_true, reduceCtorEq, false_iff, not_and, not_lt]
        intro h1 _
        omega
      · simp only [hr, if_false, Except.ok.injEq]
        constructor
        · intro h
          refine ⟨h, ?_, ?_⟩ <;> omega
        · intro h
          exact h.1
    | true =>
      simp only [Bool.not_true, Bool.false_and, Bool.false_eq_true, if_false, Bool.true_and,
        decide_eq_true_eq, if_true]
      by_cases hr : un > 2 ^ 63
      · simp only [hr, if_true, reduceCtorEq, false_iff, not_and, not_lt]
        intro h1 h2
        omega
      · simp only [hr, if_false, Except.ok.injEq]
        constructor
        · intro h
          refine ⟨h, ?_, ?_⟩ <;> omega
        · intro h
          exact h.1

theorem decimalInt64_core (digits : List Char) (neg : Prop) [Decidable neg] (n : Int) :
    (match digitsValue 0 digits with
      | none => none
      | some v =>
        if -(2 : Int) ^ 63 ≤ (if neg then -(v : Int) else (v : Int)) ∧
            (if neg then -(v : Int) else (v : Int)) < (2 : Int) ^ 63 then
          some (if neg then -(v : Int) else (v : Int))
        else none) = some n ↔
      ∃ v : Nat, digitsValue 0 digits = some v ∧
        (if neg then -(v : Int) else (v : Int)) = n ∧
        -(2 : Int) ^ 63 ≤ n ∧ n < (2 : Int) ^ 63 := by
  cases hv : digitsValue 0 digits with
  | none => simp
  | some v =>
    simp only [Option.some.injEq, exists_eq_left']
    generalize (if neg then -(v : Int) else (v : Int)) = x
    constructor
    · intro h
      by_cases hr : -(2 : Int) ^ 63 ≤ x ∧ x < (2 : Int) ^ 63
      · rw [if_pos hr] at h
        injection h with h
        subst h
        exact ⟨rfl, hr.1, hr.2⟩
      · rw [if_neg hr] at h
        exact Option.noConfusion h
    · rintro ⟨rfl, h2, h3⟩
      rw [if_pos ⟨h2, h3⟩]

/-- Function `ParseInt` accepts exactly the strings that denote a base-10 signed 64-bit
integer, with that integer as result. -/
theorem ParseInt_ok_iff (s : String) (n : Int) :
    ParseInt s = .ok n ↔ decimalInt64 s = some n := by
  unfold ParseInt decimalInt64
  cases hs : s.data with
  | nil => simp
  | cons c cs =>
    simp only
    by_cases hsign : c = '+' ∨ c = '-'
    · have hb1 : ((c == '+') || (c == '-')) = true := by
        rcases hsign with h | h <;> simp [h]
      simp only [hb1, hsign, if_true]
      cases cs with
      | nil => simp
      | cons d ds =>
        simp only
        rw [parseInt_core s (d :: ds) (by simp) (c == '-') n,
          decimalInt64_core (d :: ds) (c = '-') n]
        simp
    · have hb1 : ((c == '+') || (c == '-')) = false := by
        simp only [not_or] at hsign
        simp [hsign.1, hsign.2]
      simp only [hb1, hsign, if_false, Bool.false_eq_true]
      rw [parseInt_core s (c :: cs) (by simp) (c == '-') n,
        decimalInt64_core (c :: cs) (c = '-') n]
      simp

/-- A failing `ParseInt` returns a `NumError` that holds the input string and is either a
syntax error or a range error. -/
theorem ParseInt_error (s : String) (e : GoError) (h : ParseInt s = .error e) :
    e = .numError "ParseInt" s ErrSyntax ∨ e = .numError "ParseInt" s ErrRange := by
  unfold ParseInt at h
  cases hs : s.data with
  | nil =>
    rw [hs] at h
    left; simpa using h.symm
  | cons c cs =>
    rw [hs] at h
    simp only at h
    have key : ∀ digits : List Char,
        (match digits with
          | [] => Except.error (GoError.numError "ParseInt" s ErrSyntax)
          | x =>
            match parseUintLoop digits 0 with
            | .error e =>
              if e = ErrRange then Except.error (GoError.numError "ParseInt" s ErrRange)
              else Except.error (GoError.numError "ParseInt" s e)
            | .ok un =>
              if !(c == '-') && decide (un ≥ 2 ^ 63) then
                Except.error (GoError.numError "ParseInt" s ErrRange)
              else if (c == '-') && decide (un > 2 ^ 63) then
                Except.error (GoError.numError "ParseInt" s ErrRange)
              else Except.ok (if (c == '-') = true then -(un : Int) else (un : Int)))
          = Except.error e →
        e = .numError "ParseInt" s ErrSyntax ∨ e = .numError "ParseInt" s ErrRange := by
      intro digits hd
      cases digits with
      | nil => left; simpa using hd.symm
      | cons d ds =>
        simp only at hd
        cases hp : parseUintLoop (d :: ds) 0 with
        | error e' =>
          rw [hp] at hd
          simp only at hd
          rcases parseUintLoop_error _ _ _ hp with h1 | h1
          · subst h1
            left
            have : ¬ (ErrSyntax = ErrRange) := by decide
            simp only [this, if_false, Except.error.injEq] at hd
            exact hd.symm
          · subst h1
            right
            simp only [if_true, Except.error.injEq] at hd
            exact hd.symm
        | ok un =>
          rw [hp] at hd
          simp only at hd
          split at hd
          · right; simpa using hd.symm
          · split at hd
            · right; simpa using hd.symm
            · exact Except.noConfusion hd
    exact key _ h

theorem Unix_zero_nsec (sec : Int) :
    Unix sec 0 = ⟨0, wrapInt64 (sec + unixToInternal), .Local⟩ := by
  simp [Unix]

theorem Unix_roundtrip (sec : Int) (hlo : -(2 : Int) ^ 63 ≤ sec) (hhi : sec < (2 : Int) ^ 63) :
    (Unix sec 0).Unix = sec := by
  rw [Unix_zero_nsec]
  simp only [Time.Unix, Time.sec, wrapInt64, unixToInternal]
  omega

theorem Unix_sec_exact (sec : Int) (hlo : -(2 : Int) ^ 63 ≤ sec)
    (hhi : sec + unixToInternal < (2 : Int) ^ 63) :
    (Unix sec 0).sec = sec + unixToInternal ∧ (Unix sec 0).nsec = 0 := by
  rw [Unix_zero_nsec]
  simp only [Time.sec, Time.nsec, wrapInt64, unixToInternal] at *
  constructor <;> omega

theorem decimalInt64_range (s : String) (n : Int) (h : decimalInt64 s = some n) :
    -(2 : Int) ^ 63 ≤ n ∧ n < (2 : Int) ^ 63 := by
  unfold decimalInt64 at h
  cases hs : s.data with
  | nil => rw [hs] at h; exact Option.noConfusion h
  | cons c cs =>
    rw [hs] at h
    simp only at h
    generalize (if c = '+' ∨ c = '-' then cs else c :: cs) = digits at h
    cases digits with
    | nil => exact Option.noConfusion h
    | cons d ds =>
      simp only at h
      cases hv : digitsValue 0 (d :: ds) with
      | none => rw [hv] at h; exact Option.noConfusion h
      | some v =>
        rw [hv] at h
        simp only at h
        generalize (if c = '-' then -(v : Int) else (v : Int)) = x at h
        by_cases hr : -(2 : Int) ^ 63 ≤ x ∧ x < (2 : Int) ^ 63
        · rw [if_pos hr] at h
          injection h with h
          rw [← h]
          exact hr
        · rw [if_neg hr] at h
          exact Option.noConfusion h

/-! ## Lemmas: substrings of messages -/

theorem Contains_iff (s p : String) : Contains s p = true ↔ p.data <:+: s.data := by
  unfold Contains
  exact containsChars_iff _ _

theorem Contains_self_append (a p b : String) : Contains (a ++ p ++ b) p = true := by
  rw [Contains_iff]
  exact ⟨a.data, b.data, by simp [String.data_append]⟩

theorem Contains_append_of_Contains (a s b p : String) (h : Contains s p = true) :
    Contains (a ++ s ++ b) p = true := by
  rw [Contains_iff] at h ⊢
  have h2 : s.data <:+: (a ++ s ++ b).data := ⟨a.data, b.data, by simp [String.data_append]⟩
  exact h.trans h2

/-! ## Decoding the date range -/

/-- C11, as stated, fails: the begin "9223372036854775807" parses as a base-10 signed
64-bit integer, but the `time.Unix` of it is not the instant that many seconds after the
Unix epoch: the seconds count of the `time.Time` wraps around in `int64`, and the decoded
begin lies before the Unix epoch itself. -/
theorem C11_counterexample_begin_wraps_around :
    decimalInt64 "9223372036854775807" = some 9223372036854775807 ∧
      DateRange.zero.UnmarshalXML (⟨"9223372036854775807", "1700000000"⟩, none)
        = (⟨Unix 9223372036854775807 0, Unix 1700000000 0⟩, none) ∧
      (Unix 9223372036854775807 0).sec ≠ 9223372036854775807 + unixToInternal ∧
      (Unix 9223372036854775807 0).Before (Unix 0 0) = true := by
  decide

/-- C11, amended: `UnmarshalXML` reads the begin and end strings as base-10 signed 64-bit
integers.  When both parse, to `b` and `e`, it sets Begin to `time.Unix(b, 0)` and End to
`time.Unix(e, 0)`, whose `Unix()` are `b` and `e`, and which are the instants `b` and `e`
seconds after the Unix epoch (seconds count `b + unixToInternal`, no nanoseconds) whenever
that count fits in `int64`.  When begin does not parse the call fails with "invalid begin
timestamp" wrapping a `NumError` that holds the raw begin string, whatever end is; when
begin parses and end does not, with "invalid end timestamp" wrapping a `NumError` that
holds the raw end string; the message contains the quoted raw string.  The strings
"not-a-number", "", " 1700000000 " and "9223372036854775808" do not parse, and
"1700000000" gives the instant 1700000000 s after the epoch. -/
theorem C11_date_range_decoding (dr : DateRange) (raw : dateRange) :
    (∀ b e : Int, decimalInt64 raw.Begin = some b → decimalInt64 raw.End = some e →
      dr.UnmarshalXML (raw, none) = (⟨Unix b 0, Unix e 0⟩, none) ∧
        (Unix b 0).Unix = b ∧ (Unix e 0).Unix = e ∧
        (b + unixToInternal < (2 : Int) ^ 63 →
          (Unix b 0).sec = b + unixToInternal ∧ (Unix b 0).nsec = 0) ∧
        (e + unixToInternal < (2 : Int) ^ 63 →
          (Unix e 0).sec = e + unixToInternal ∧ (Unix e 0).nsec = 0)) ∧
    (decimalInt64 raw.Begin = none →
      ∃ kind : GoError, (kind = ErrSyntax ∨ kind = ErrRange) ∧
        dr.UnmarshalXML (raw, none) =
          (dr, some (.wrapError "invalid begin timestamp: "
            (.numError "ParseInt" raw.Begin kind) ""))) ∧
    (∀ b : Int, decimalInt64 raw.Begin = some b → decimalInt64 raw.End = none →
      ∃ kind : GoError, (kind = ErrSyntax ∨ kind = ErrRange) ∧
        dr.UnmarshalXML (raw, none) =
          ({ dr with Begin := Unix b 0 }, some (.wrapError "invalid end timestamp: "
            (.numError "ParseInt" raw.End kind) ""))) ∧
    (∀ (quote : String → String) (pre s : String) (kind : GoError),
      Contains (GoError.Error quote (.wrapError pre (.numError "ParseInt" s kind) ""))
        (quote s) = true) ∧
    (decimalInt64 "not-a-number" = none ∧ decimalInt64 "" = none ∧
      decimalInt64 " 1700000000 " = none ∧ decimalInt64 "9223372036854775808" = none ∧
      decimalInt64 "1700000000" = some 1700000000 ∧
      (Unix 1700000000 0).sec = 1700000000 + unixToInternal) := by
  refine ⟨?_, ?_, ?_, ?_, by decide⟩
  · intro b e hb he
    have pb := (ParseInt_ok_iff raw.Begin b).mpr hb
    have pe := (ParseInt_ok_iff raw.End e).mpr he
    obtain ⟨hb1, hb2⟩ := decimalInt64_range _ _ hb
    obtain ⟨he1, he2⟩ := decimalInt64_range _ _ he
    refine ⟨?_, Unix_roundtrip b hb1 hb2, Unix_roundtrip e he1 he2,
      fun h => Unix_sec_exact b hb1 h, fun h => Unix_sec_exact e he1 h⟩
    simp [DateRange.UnmarshalXML, pb, pe]
  · intro hb
    cases hp : ParseInt raw.Begin with
    | ok b =>
      have := (ParseInt_ok_iff raw.Begin b).mp hp
      rw [hb] at this
      exact Option.noConfusion this
    | error err =>
      rcases ParseInt_error _ _ hp with h | h
      · exact ⟨ErrSyntax, Or.inl rfl, by simp [DateRange.UnmarshalXML, hp, h]⟩
      · exact ⟨ErrRange, Or.inr rfl, by simp [DateRange.UnmarshalXML, hp, h]⟩
  · intro b hb he
    have pb := (ParseInt_ok_iff raw.Begin b).mpr hb
    cases hp : ParseInt raw.End with
    | ok e =>
      have := (ParseInt_ok_iff raw.End e).mp hp
      rw [he] at this
      exact Option.noConfusion this
    | error err =>
      rcases ParseInt_error _ _ hp with h | h
      · exact ⟨ErrSyntax, Or.inl rfl, by simp [DateRange.UnmarshalXML, pb, hp, h]⟩
      · exact ⟨ErrRange, Or.inr rfl, by simp [DateRange.UnmarshalXML, pb, hp, h]⟩
  · intro quote pre s kind
    simp only [GoError.Error]
    rw [Contains_iff]
    refine ⟨(pre ++ ("strconv." ++ "ParseInt" ++ ": parsing ")).data,
      (": " ++ GoError.Error quote kind ++ "").data, ?_⟩
    simp [String.data_append]

theorem C11_date_range_decoding_witness :
    DateRange.zero.UnmarshalXML (⟨"1700000000", "1700086400"⟩, none)
        = (⟨Unix 1700000000 0, Unix 1700086400 0⟩, none) ∧
      (Unix 1700000000 0).sec = 1700000000 + unixToInternal ∧
      (∃ kind : GoError, (kind = ErrSyntax ∨ kind = ErrRange) ∧
        DateRange.zero.UnmarshalXML (⟨"not-a-number", "x"⟩, none) =
          (DateRange.zero, some (.wrapError "invalid begin timestamp: "
            (.numError "ParseInt" "not-a-number" kind) ""))) :=
  ⟨((C11_date_range_decoding DateRange.zero ⟨"1700000000", "1700086400"⟩).1
      1700000000 1700086400 (by decide) (by decide)).1,
   (((C11_date_range_decoding DateRange.zero ⟨"1700000000", "1700086400"⟩).1
      1700000000 1700086400 (by decide) (by decide)).2.2.2.1 (by decide)).1,
   (C11_date_range_decoding DateRange.zero ⟨"not-a-number", "x"⟩).2.1 (by decide)⟩

/-! ## Errors name their file -/

/-- C12: every error that `ParseDMARCReport` returns for a file path has a message that
contains the path: file missing, inaccessible, empty, unreadable, not XML, invalid XML or
failed validation. -/
theorem C12_errors_name_the_file (env : Env) (filepath : String) (report : DMARCReport)
    (err : GoError) (quote : String → String)
    (h : ParseDMARCReport env filepath = (report, some err)) :
    Contains (err.Error quote) filepath = true := by
  have hA : ∀ a : String, Contains (a ++ filepath) filepath = true := by
    intro a
    have := Contains_self_append a filepath ""
    simpa using this
  have hW : ∀ (a : String) (e : GoError),
      Contains (GoError.Error quote (.wrapError (a ++ filepath ++ ": ") e "")) filepath
        = true := by
    intro a e
    simp only [GoError.Error]
    rw [Contains_iff]
    exact ⟨a.data, (": " ++ GoError.Error quote e ++ "").data, by simp [String.data_append]⟩
  unfold ParseDMARCReport at h
  cases hs : env.Stat filepath with
  | err e isNotExist =>
    by_cases hn : isNotExist = true
    · simp only [hs, hn, if_true, Prod.mk.injEq, Option.some.injEq] at h
      rw [← h.2]
      exact hA _
    · simp only [hs, hn, if_false, Bool.false_eq_true, Prod.mk.injEq, Option.some.injEq] at h
      rw [← h.2]
      exact hW _ _
  | ok size =>
    by_cases h0 : size = 0
    · simp only [hs, h0, if_true, Prod.mk.injEq, Option.some.injEq] at h
      rw [← h.2]
      exact hA _
    · cases hr : env.ReadFile filepath with
      | error e =>
        simp only [hs, h0, hr, if_false, Prod.mk.injEq, Option.some.injEq] at h
        rw [← h.2]
        exact hW _ _
      | ok data =>
        by_cases hx : (!hasXMLHeader data && !hasRootElement data) = true
        · simp only [hs, h0, hr, hx, if_true, if_false, Prod.mk.injEq,
            Option.some.injEq] at h
          rw [← h.2]
          exact Contains_self_append "file " filepath " does not appear to be valid XML"
        · simp only [hs, h0, hr, hx, if_false, Bool.false_eq_true] at h
          cases hd : runDecode (env.xmlSteps (TrimSpace data)) DMARCReport.zero with
          | mk r oerr =>
            cases oerr with
            | some e =>
              simp only [hd, Prod.mk.injEq, Option.some.injEq] at h
              rw [← h.2]
              exact hW _ _
            | none =>
              simp only [hd] at h
              cases hv : validateReport r with
              | some e =>
                simp only [hv, Prod.mk.injEq, Option.some.injEq] at h
                rw [← h.2]
                exact hW _ _
              | none => simp [hv] at h

set_option maxRecDepth 100000 in
theorem C12_errors_name_the_file_witness :
    Contains
      (GoError.Error (fun s => s)
        (.wrapError "invalid DMARC report in file report.xml: "
          (.errorString "missing report ID") ""))
      "report.xml" = true :=
  C12_errors_name_the_file (sampleEnv "" "1704067200") "report.xml"
    (sampleDecoded "" 1704067200)
    (.wrapError "invalid DMARC report in file report.xml: " (.errorString "missing report ID") "")
    (fun s => s) (by decide)

/-! ## Lemmas: the loader -/

/-- The test of `LoadReports` on the cleaned name is the condition on the name itself. -/
theorem suspiciousName_iff (name : String) :
    (Clean name ≠ name ∨ IsAbs (Clean name) = true ∨ Contains (Clean name) ".." = true ∨
        Contains (Clean name) "/" = true ∨ Contains (Clean name) backslash = true) ↔
      suspiciousName name = true := by
  unfold suspiciousName
  by_cases h : Clean name = name
  · rw [h]
    simp only [ne_eq, not_true_eq_false, false_or, decide_False, Bool.false_or,
      Bool.or_eq_true, or_assoc]
  · simp [h]

theorem loadReportsStep_eq (env : Env) (quote : String → String) (l : ReportLoader)
    (st : loadState) (file : DirEntry) :
    loadReportsStep env quote l st file =
      if file.IsDir then st
      else
        match fileOutcome env quote l file with
        | .ok report =>
          { st with
            parsed := st.parsed ++ [Join l.ConfigDir file.Name]
            reports := st.reports ++ [report]
            successCount := st.successCount + 1 }
        | .error msg =>
          { st with
            parsed := st.parsed ++
              (if suspiciousName file.Name then [] else [Join l.ConfigDir file.Name])
            parseErrors := st.parseErrors ++ [msg]
            failureCount := st.failureCount + 1 } := by
  unfold loadReportsStep fileOutcome
  by_cases hd : file.IsDir = true
  · simp [hd]
  · simp only [hd, if_false, Bool.false_eq_true]
    by_cases hs : suspiciousName file.Name = true
    · have hc := (suspiciousName_iff file.Name).mpr hs
      simp only [hc, hs, if_true, List.append_nil]
    · have hc : ¬ (Clean file.Name ≠ file.Name ∨ IsAbs (Clean file.Name) = true ∨
          Contains (Clean file.Name) ".." = true ∨ Contains (Clean file.Name) "/" = true ∨
          Contains (Clean file.Name) backslash = true) :=
        fun h => hs ((suspiciousName_iff file.Name).mp h)
      simp only [hc, hs, if_false, Bool.false_eq_true]
      cases hp : ParseDMARCReport env (Join l.ConfigDir file.Name) with
      | mk r oerr =>
        cases oerr <;> rfl

theorem foldl_loadReportsStep (env : Env) (quote : String → String) (l : ReportLoader)
    (files : List DirEntry) (st : loadState) :
    files.foldl (loadReportsStep env quote l) st =
      { reports := st.reports ++ successes env quote l files
        parseErrors := st.parseErrors ++ failures env quote l files
        successCount := st.successCount + (successes env quote l files).length
        failureCount := st.failureCount + (failures env quote l files).length
        parsed := st.parsed ++ acceptedPaths l files } := by
  induction files generalizing st with
  | nil => simp [successes, failures, acceptedPaths, candidates]
  | cons f rest ih =>
    rw [List.foldl_cons, ih, loadReportsStep_eq]
    by_cases hd : f.IsDir = true
    · simp [hd, successes, failures, acceptedPaths, candidates]
    · simp only [hd, if_false, Bool.false_eq_true]
      have hd' : f.IsDir = false := by simpa using hd
      cases ho : fileOutcome env quote l f with
      | ok report =>
        have hs : suspiciousName f.Name = false := by
          unfold fileOutcome at ho
          by_cases hs : suspiciousName f.Name = true
          · simp [hs] at ho
          · simpa using hs
        simp [successes, failures, acceptedPaths, candidates, hd', ho, hs, Nat.add_assoc,
          Nat.add_comm 1]
      | error msg =>
        by_cases hs : suspiciousName f.Name = true
        · simp [successes, failures, acceptedPaths, candidates, hd', ho, hs, Nat.add_assoc,
            Nat.add_comm 1]
        · simp [successes, failures, acceptedPaths, candidates, hd', ho, hs, Nat.add_assoc,
            Nat.add_comm 1]

theorem LoadReports_eq (env : Env) (ReadDir : String → Except GoError (List DirEntry))
    (quote : String → String) (l : ReportLoader) (files : List DirEntry)
    (hread : ReadDir l.ConfigDir = .ok files) (hne : files ≠ []) :
    LoadReports env ReadDir quote l =
      if successes env quote l files = [] then
        if failures env quote l files ≠ [] then
          { reports := []
            err := some (.errorString
              ("failed to parse any reports: " ++ stringsJoin (failures env quote l files) "; "))
            stdout := "", parsed := acceptedPaths l files }
        else
          { reports := [], err := some ErrNoReports, stdout := "",
            parsed := acceptedPaths l files }
      else if failures env quote l files ≠ [] then
        { reports := successes env quote l files
          err := none
          stdout := "Warning: " ++ toString (failures env quote l files).length ++ " of " ++
            toString ((successes env quote l files).length +
              (failures env quote l files).length) ++
            " files failed to parse\n" ++ printLines (failures env quote l files)
          parsed := acceptedPaths l files }
      else
        { reports := successes env quote l files, err := none, stdout := "",
          parsed := acceptedPaths l files } := by
  unfold LoadReports
  have hlen : ¬ files.length = 0 := by
    intro h
    exact hne (List.length_eq_zero.mp h)
  simp only [hread, hlen, if_false, foldl_loadReportsStep, List.nil_append, Nat.zero_add]
  by_cases hs : successes env quote l files = []
  · by_cases hf : failures env quote l files = []
    · simp [hs, hf]
    · have hpos : (failures env quote l files).length > 0 :=
        List.length_pos.mpr hf
      simp [hs, hf, hpos]
  · have hspos : ¬ (successes env quote l files).length = 0 := fun h =>
      hs (List.length_eq_zero.mp h)
    by_cases hf : failures env quote l files = []
    · simp [hs, hf, hspos]
    · have hpos : (failures env quote l files).length > 0 :=
        List.length_pos.mpr hf
      simp [hs, hf, hspos, hpos]

theorem successes_length_add_failures_length (env : Env) (quote : String → String)
    (l : ReportLoader) (files : List DirEntry) :
    (successes env quote l files).length + (failures env quote l files).length
      = (candidates files).length := by
  unfold successes failures
  induction candidates files with
  | nil => rfl
  | cons f rest ih =>
    cases ho : fileOutcome env quote l f with
    | ok r =>
      simp only [List.filterMap_cons, ho, List.length_cons]
      omega
    | error m =>
      simp only [List.filterMap_cons, ho, List.length_cons]
      omega

theorem Contains_stringsJoin (msgs : List String) (sep m : String) (h : m ∈ msgs) :
    Contains (stringsJoin msgs sep) m = true := by
  induction msgs with
  | nil => simp at h
  | cons a rest ih =>
    cases rest with
    | nil =>
      simp only [List.mem_singleton] at h
      subst h
      simp only [stringsJoin]
      exact (Contains_iff _ _).mpr (List.infix_refl _)
    | cons b rest2 =>
      simp only [stringsJoin]
      rcases List.mem_cons.mp h with h1 | h1
      · subst h1
        have := Contains_self_append "" m (sep ++ stringsJoin (b :: rest2) sep)
        rw [Contains_iff] at this ⊢
        simpa [String.data_append] using this
      · have h2 := ih h1
        have := Contains_append_of_Contains (a ++ sep) (stringsJoin (b :: rest2) sep) "" m h2
        rw [Contains_iff] at this ⊢
        simpa [String.data_append] using this

/-! ## The loader -/

/-- C13: for a directory listing in which at least one candidate file parses, `LoadReports`
returns no error and exactly the successfully parsed reports in enumeration order; every
candidate whose name is accepted is passed to the parser, a failure never ending the
batch; subdirectories are counted nowhere: the `s` parsed reports and the `f` candidates
that were rejected or failed to parse add up to the number of candidates; when `f > 0`
the diagnostic printed is "Warning: f of s+f files failed to parse" followed by the
messages, and nothing is printed when `f = 0`; so 3 parseable and 2 malformed files give
3 reports and "Warning: 2 of 5 files failed to parse". -/
theorem C13_partial_failure_tolerated (env : Env)
    (ReadDir : String → Except GoError (List DirEntry)) (quote : String → String)
    (l : ReportLoader) (files : List DirEntry)
    (hread : ReadDir l.ConfigDir = .ok files)
    (hsome : successes env quote l files ≠ []) :
    (LoadReports env ReadDir quote l).err = none ∧
      (LoadReports env ReadDir quote l).reports = successes env quote l files ∧
      (LoadReports env ReadDir quote l).parsed = acceptedPaths l files ∧
      (successes env quote l files).length + (failures env quote l files).length
        = (files.filter (fun f => !f.IsDir)).length ∧
      (LoadReports env ReadDir quote l).stdout =
        (if failures env quote l files = [] then ""
         else "Warning: " ++ toString (failures env quote l files).length ++ " of " ++
           toString ((successes env quote l files).length +
             (failures env quote l files).length) ++
           " files failed to parse\n" ++ printLines (failures env quote l files)) ∧
      ((successes env quote l files).length = 3 → (failures env quote l files).length = 2 →
        (LoadReports env ReadDir quote l).reports.length = 3 ∧
        (LoadReports env ReadDir quote l).stdout =
          "Warning: 2 of 5 files failed to parse\n" ++
            printLines (failures env quote l files)) := by
  have hne : files ≠ [] := by
    intro h
    apply hsome
    rw [h]
    rfl
  rw [LoadReports_eq env ReadDir quote l files hread hne]
  have hcount := successes_length_add_failures_length env quote l files
  by_cases hf : failures env quote l files = []
  · simp only [hsome, hf, if_false, if_true, ne_eq, not_true_eq_false, List.length_nil,
      true_and]
    refine ⟨?_, ?_⟩
    · rw [hf] at hcount
      exact hcount
    · intro _ h2
      exact absurd h2 (by decide)
  · simp only [hsome, hf, if_false, if_true, ne_eq, not_false_eq_true, true_and]
    refine ⟨hcount, ?_⟩
    intro h3 h2
    rw [h3, h2]
    exact ⟨rfl, rfl⟩

set_option maxRecDepth 100000 in
theorem C13_partial_failure_tolerated_witness :
    (LoadReports sampleDirEnv (sampleReadDir sampleListing) (fun s => s) sampleLoader).err
        = none ∧
      (LoadReports sampleDirEnv (sampleReadDir sampleListing) (fun s => s)
        sampleLoader).reports.length = 3 ∧
      (LoadReports sampleDirEnv (sampleReadDir sampleListing) (fun s => s) sampleLoader).stdout
        = "Warning: 2 of 5 files failed to parse\n" ++
          printLines (failures sampleDirEnv (fun s => s) sampleLoader sampleListing) :=
  ⟨(C13_partial_failure_tolerated sampleDirEnv (sampleReadDir sampleListing) (fun s => s)
      sampleLoader sampleListing (by rfl) (by decide)).1,
   ((C13_partial_failure_tolerated sampleDirEnv (sampleReadDir sampleListing) (fun s => s)
      sampleLoader sampleListing (by rfl) (by decide)).2.2.2.2.2 (by decide) (by decide)).1,
   ((C13_partial_failure_tolerated sampleDirEnv (sampleReadDir sampleListing) (fun s => s)
      sampleLoader sampleListing (by rfl) (by decide)).2.2.2.2.2 (by decide) (by decide)).2⟩

/-- C14: `LoadReports` fails exactly when no file parsed successfully, and then returns no
reports.  When the directory cannot be read it returns that error wrapped; for a directory
with no entries it returns an error that wraps `ErrNoReports`; for a directory with
entries but no successful parse it returns one combined error whose message contains every
per-file message when there is at least one, and `ErrNoReports` itself when there is none,
which is the case exactly when every entry is a subdirectory. -/
theorem C14_load_fails_without_success (env : Env)
    (ReadDir : String → Except GoError (List DirEntry)) (quote : String → String)
    (l : ReportLoader) :
    (∀ e : GoError, ReadDir l.ConfigDir = .error e →
      (LoadReports env ReadDir quote l).err
          = some (.wrapError ("failed to read directory " ++ l.ConfigDir ++ ": ") e "") ∧
        (LoadReports env ReadDir quote l).reports = []) ∧
    (ReadDir l.ConfigDir = .ok [] →
      (LoadReports env ReadDir quote l).err
          = some (.wrapError "" ErrNoReports (" in " ++ l.ConfigDir)) ∧
        (GoError.wrapError "" ErrNoReports (" in " ++ l.ConfigDir)).Is ErrNoReports = true ∧
        (LoadReports env ReadDir quote l).reports = []) ∧
    (∀ files : List DirEntry, ReadDir l.ConfigDir = .ok files →
      (((LoadReports env ReadDir quote l).err ≠ none ↔ successes env quote l files = []) ∧
        ((LoadReports env ReadDir quote l).err ≠ none →
          (LoadReports env ReadDir quote l).reports = []) ∧
        (files ≠ [] → successes env quote l files = [] →
          failures env quote l files ≠ [] →
          (LoadReports env ReadDir quote l).err
              = some (.errorString ("failed to parse any reports: " ++
                  stringsJoin (failures env quote l files) "; ")) ∧
            ∀ msg ∈ failures env quote l files,
              Contains ("failed to parse any reports: " ++
                stringsJoin (failures env quote l files) "; ") msg = true) ∧
        (files ≠ [] → successes env quote l files = [] →
          failures env quote l files = [] →
          (LoadReports env ReadDir quote l).err = some ErrNoReports) ∧
        ((successes env quote l files = [] ∧ failures env quote l files = []) ↔
          ∀ f ∈ files, f.IsDir = true))) := by
  refine ⟨?_, ?_, ?_⟩
  · intro e he
    simp [LoadReports, he]
  · intro he
    refine ⟨by simp [LoadReports, he], by simp [GoError.Is, ErrNoReports],
      by simp [LoadReports, he]⟩
  · intro files hread
    have hcount := successes_length_add_failures_length env quote l files
    refine ⟨?_, ?_, ?_, ?_, ?_⟩
    · cases files with
      | nil => simp [LoadReports, hread, successes, candidates]
      | cons f rest =>
        rw [LoadReports_eq env ReadDir quote l (f :: rest) hread (by simp)]
        by_cases hs : successes env quote l (f :: rest) = [] <;>
          by_cases hf : failures env quote l (f :: rest) = [] <;> simp [hs, hf]
    · cases files with
      | nil => simp [LoadReports, hread]
      | cons f rest =>
        rw [LoadReports_eq env ReadDir quote l (f :: rest) hread (by simp)]
        by_cases hs : successes env quote l (f :: rest) = [] <;>
          by_cases hf : failures env quote l (f :: rest) = [] <;> simp [hs, hf]
    · intro hne hs hf
      rw [LoadReports_eq env ReadDir quote l files hread hne]
      simp only [hs, hf, if_true, ne_eq, not_false_eq_true, true_and]
      intro msg hmsg
      have h1 := Contains_stringsJoin (failures env quote l files) "; " msg hmsg
      have h2 := Contains_append_of_Contains "failed to parse any reports: "
        (stringsJoin (failures env quote l files) "; ") "" msg h1
      simpa using h2
    · intro hne hs hf
      rw [LoadReports_eq env ReadDir quote l files hread hne]
      simp [hs, hf]
    · constructor
      · intro ⟨hs, hf⟩
        rw [hs, hf] at hcount
        have hc : candidates files = [] := List.length_eq_zero.mp hcount.symm
        intro f hfm
        by_contra hd
        have : f ∈ candidates files := by
          unfold candidates
          exact List.mem_filter.mpr ⟨hfm, by simpa using hd⟩
        rw [hc] at this
        exact List.not_mem_nil _ this
      · intro hall
        have hc : candidates files = [] := by
          unfold candidates
          rw [List.filter_eq_nil_iff]
          intro f hfm
          simp [hall f hfm]
        constructor
        · unfold successes; rw [hc]; rfl
        · unfold failures; rw [hc]; rfl

set_option maxRecDepth 100000 in
theorem C14_load_fails_without_success_witness :
    (LoadReports sampleDirEnv (sampleReadDir []) (fun s => s) sampleLoader).err
        = some (.wrapError "" ErrNoReports (" in " ++ "/home/u/.godmarc")) ∧
      (LoadReports sampleDirEnv (sampleReadDir [⟨"archive", true⟩]) (fun s => s)
        sampleLoader).err = some ErrNoReports ∧
      (LoadReports sampleDirEnv (sampleReadDir [⟨"d.txt", false⟩, ⟨"e.xml", false⟩])
        (fun s => s) sampleLoader).err
        = some (.errorString ("failed to parse any reports: " ++
            stringsJoin (failures sampleDirEnv (fun s => s) sampleLoader
              [⟨"d.txt", false⟩, ⟨"e.xml", false⟩]) "; ")) :=
  ⟨((C14_load_fails_without_success sampleDirEnv (sampleReadDir []) (fun s => s)
      sampleLoader).2.1 (by rfl)).1,
   ((C14_load_fails_without_success sampleDirEnv (sampleReadDir [⟨"archive", true⟩])
      (fun s => s) sampleLoader).2.2 [⟨"archive", true⟩] (by rfl)).2.2.2.1
      (by decide) (by decide) (by decide),
   (((C14_load_fails_without_success sampleDirEnv
      (sampleReadDir [⟨"d.txt", false⟩, ⟨"e.xml", false⟩]) (fun s => s) sampleLoader).2.2
      [⟨"d.txt", false⟩, ⟨"e.xml", false⟩] (by rfl)).2.2.1
      (by decide) (by decide) (by decide)).1⟩

/-- C15: for a non-directory entry whose name differs from its cleaned form, is an
absolute path, or contains "..", "/" or a backslash, the loop of `LoadReports` records one
"Security warning" message naming it and adds one to the failure tally, and nothing else
changes: no report is added and no path is passed to the parser, whatever the parser would
do.  Over a whole run the parser is called exactly on the accepted candidates.  The name
"../../etc/passwd" and every name containing a path separator are such names. -/
theorem C15_suspicious_names_never_parsed (env : Env) (quote : String → String)
    (l : ReportLoader) :
    (∀ (st : loadState) (file : DirEntry), file.IsDir = false →
      suspiciousName file.Name = true →
      loadReportsStep env quote l st file =
        { st with
          parseErrors := st.parseErrors ++
            ["Security warning: skipping suspicious filename: " ++ file.Name]
          failureCount := st.failureCount + 1 }) ∧
    (∀ (ReadDir : String → Except GoError (List DirEntry)) (files : List DirEntry),
      ReadDir l.ConfigDir = .ok files →
      (LoadReports env ReadDir quote l).parsed =
        ((files.filter (fun f => !f.IsDir)).filter (fun f => !suspiciousName f.Name)).map
          (fun f => Join l.ConfigDir f.Name)) ∧
    suspiciousName "../../etc/passwd" = true ∧
    (∀ name : String, Contains name "/" = true ∨ Contains name backslash = true →
      suspiciousName name = true) := by
  refine ⟨?_, ?_, by decide, ?_⟩
  · intro st file hd hs
    rw [loadReportsStep_eq]
    simp [hd, fileOutcome, hs]
  · intro ReadDir files hread
    cases files with
    | nil => simp [LoadReports, hread]
    | cons f rest =>
      rw [LoadReports_eq env ReadDir quote l (f :: rest) hread (by simp)]
      have : acceptedPaths l (f :: rest) =
          (((f :: rest).filter (fun f => !f.IsDir)).filter
            (fun f => !suspiciousName f.Name)).map (fun f => Join l.ConfigDir f.Name) := rfl
      by_cases hs : successes env quote l (f :: rest) = [] <;>
        by_cases hf : failures env quote l (f :: rest) = [] <;> simp [hs, hf, this]
  · intro name h
    unfold suspiciousName
    rcases h with h | h <;> simp [h]

set_option maxRecDepth 100000 in
theorem C15_suspicious_names_never_parsed_witness :
    loadReportsStep sampleDirEnv (fun s => s) sampleLoader
        { reports := [], parseErrors := [], successCount := 0, failureCount := 0, parsed := [] }
        ⟨"../../etc/passwd", false⟩ =
      { reports := []
        parseErrors := ["Security warning: skipping suspicious filename: " ++ "../../etc/passwd"]
        successCount := 0
        failureCount := 1
        parsed := [] } :=
  (C15_suspicious_names_never_parsed sampleDirEnv (fun s => s) sampleLoader).1
    { reports := [], parseErrors := [], successCount := 0, failureCount := 0, parsed := [] }
    ⟨"../../etc/passwd", false⟩ (by rfl) (by decide)

set_option maxRecDepth 100000 in
/-- C16, as stated, fails: the name "report..xml" equals its cleaned form, is not an
absolute path, has no parent-directory segment and no path separator, and yet the loop
of `LoadReports` skips it as suspicious, because it contains two dots in a row: the parser
is not called. -/
theorem C16_counterexample_two_dots_inside_a_name :
    Clean "report..xml" = "report..xml" ∧ IsAbs "report..xml" = false ∧
      hasParentSegment "report..xml" = false ∧ Contains "report..xml" "/" = false ∧
      Contains "report..xml" backslash = false ∧
      loadReportsStep sampleDirEnv (fun s => s) sampleLoader
          { reports := [], parseErrors := [], successCount := 0, failureCount := 0,
            parsed := [] }
          ⟨"report..xml", false⟩ =
        { reports := []
          parseErrors := ["Security warning: skipping suspicious filename: report..xml"]
          successCount := 0
          failureCount := 1
          parsed := [] } := by
  decide

/-- C16, amended: a non-directory entry whose name equals its cleaned form, is not an
absolute path, and contains neither two dots in a row (anywhere, not only as a whole
segment), nor a slash, nor a backslash, is treated as valid: the loop passes the path
`Join(ConfigDir, name)` to `ParseDMARCReport` and records the report or the parse error. -/
theorem C16_accepted_names_are_parsed (env : Env) (quote : String → String)
    (l : ReportLoader) (st : loadState) (file : DirEntry)
    (hdir : file.IsDir = false) (hclean : Clean file.Name = file.Name)
    (habs : IsAbs file.Name = false) (hdots : Contains file.Name ".." = false)
    (hslash : Contains file.Name "/" = false)
    (hback : Contains file.Name backslash = false) :
    loadReportsStep env quote l st file =
      match ParseDMARCReport env (Join l.ConfigDir file.Name) with
      | (_, some err) =>
        { st with
          parsed := st.parsed ++ [Join l.ConfigDir file.Name]
          parseErrors := st.parseErrors ++
            ["Error parsing " ++ file.Name ++ ": " ++ err.Error quote]
          failureCount := st.failureCount + 1 }
      | (report, none) =>
        { st with
          parsed := st.parsed ++ [Join l.ConfigDir file.Name]
          reports := st.reports ++ [report]
          successCount := st.successCount + 1 } := by
  unfold loadReportsStep
  simp [hdir, hclean, habs, hdots, hslash, hback]

set_option maxRecDepth 100000 in
theorem C16_accepted_names_are_parsed_witness :
    loadReportsStep sampleDirEnv (fun s => s) sampleLoader
        { reports := [], parseErrors := [], successCount := 0, failureCount := 0, parsed := [] }
        ⟨"a.xml", false⟩ =
      { reports := [sampleDecoded "A" 1704067200]
        parseErrors := []
        successCount := 1
        failureCount := 0
        parsed := ["/home/u/.godmarc/a.xml"] } :=
  (C16_accepted_names_are_parsed sampleDirEnv (fun s => s) sampleLoader
    { reports := [], parseErrors := [], successCount := 0, failureCount := 0, parsed := [] }
    ⟨"a.xml", false⟩ (by rfl) (by decide) (by decide) (by decide) (by decide)
    (by decide)).trans (by decide)

/-! ## Lemmas: sorting -/

theorem newestFirst_isStrictWeakOrder : IsStrictWeakOrder newestFirst := by
  refine ⟨?_, ?_, ?_⟩
  · intro x
    unfold newestFirst
    rw [Time.After_eq_Before]
    exact Time.Before_irrefl _
  · intro x y z hxy hyz
    unfold newestFirst at *
    rw [Time.After_iff] at *
    omega
  · intro x y z hxy hyz
    unfold newestFirst at *
    rw [Bool.eq_false_iff, Ne, Time.After_iff] at *
    omega

theorem IsStrictWeakOrder.pairwise_of_chain {α : Type} {less : α → α → Bool}
    (h : IsStrictWeakOrder less) (l : List α)
    (hc : l.Chain' (fun x y => less y x = false)) :
    l.Pairwise (fun x y => less y x = false) := by
  haveI : IsTrans α (fun x y => less y x = false) :=
    ⟨fun x y z hxy hyz => h.2.2 z y x hyz hxy⟩
  exact List.chain'_iff_pairwise.mp hc

/-- Insertion into a sorted list meets the contract of `sort.Slice`. -/
theorem insertionSlice_sortsSlices : SortsSlices insertionSlice := by
  refine ⟨?_, ?_⟩
  · intro less data
    exact List.perm_insertionSort _ data
  · intro less h data
    haveI : IsTrans DMARCReport (fun x y => less y x = false) :=
      ⟨fun x y z hxy hyz => h.2.2 z y x hyz hxy⟩
    haveI : IsTotal DMARCReport (fun x y => less y x = false) := by
      refine ⟨fun x y => ?_⟩
      by_cases hyx : less y x = true
      · right
        by_contra hxy
        have hxy' : less x y = true := by simpa using hxy
        have := h.2.1 y x y hyx hxy'
        rw [h.1 y] at this
        exact Bool.noConfusion this
      · left
        simpa using hyx
    have hs : (data.insertionSort (fun x y => less y x = false)).Sorted
        (fun x y => less y x = false) := List.sorted_insertionSort _ data
    exact List.Pairwise.chain' hs

theorem swapAt_adjacent {α : Type} (less : α → α → Bool) (p : α → Bool)
    (hp : ∀ x y, less x y = true → p x = true → p y = true → False)
    (data : List α) (j : Nat) (x y : α)
    (hy : data[j]? = some y) (hx : data[j + 1]? = some x) (hlt : less x y = true) :
    ∃ d, swapAt data (j + 1) j = some d ∧ d.length = data.length ∧
      d.filter p = data.filter p := by
  induction data generalizing j with
  | nil => simp at hy
  | cons h t ih =>
    cases j with
    | zero =>
      cases t with
      | nil => simp at hx
      | cons h2 rest =>
        simp only [List.getElem?_cons_zero, Option.some.injEq] at hy
        simp only [List.getElem?_cons_succ, List.getElem?_cons_zero, Option.some.injEq] at hx
        subst hy hx
        refine ⟨h2 :: h :: rest, by simp [swapAt], by simp, ?_⟩
        by_cases p1 : p h = true <;> by_cases p2 : p h2 = true
        · exact absurd p1 (fun _ => hp h2 h hlt p2 p1)
        · simp [List.filter_cons, p1, p2]
        · simp [List.filter_cons, p1, p2]
        · simp [List.filter_cons, p1, p2]
    | succ j' =>
      simp only [List.getElem?_cons_succ] at hy hx
      obtain ⟨d, hd, hlen, hfil⟩ := ih j' hy hx
      refine ⟨h :: d, ?_, by simp [hlen], by simp [List.filter_cons, hfil]⟩
      unfold swapAt at hd ⊢
      simp only [List.getElem?_cons_succ, hx, hy, Option.some.injEq] at hd ⊢
      simp [List.set_cons_succ, hd]

theorem insertionInner_filter {α : Type} (less : α → α → Bool) (p : α → Bool)
    (hp : ∀ x y, less x y = true → p x = true → p y = true → False) (a : Nat) :
    ∀ (j : Nat) (data : List α), j < data.length →
      ∃ d, insertionInner less a j data = some d ∧ d.length = data.length ∧
        d.filter p = data.filter p := by
  intro j
  induction j with
  | zero =>
    intro data _
    exact ⟨data, rfl, rfl, rfl⟩
  | succ j ih =>
    intro data hj
    unfold insertionInner
    by_cases ha : j + 1 > a
    · simp only [ha, if_true]
      have hj1 : j < data.length := by omega
      have hx : data[j + 1]? = some (data[j + 1]) := List.getElem?_eq_getElem hj
      have hy : data[j]? = some (data[j]) := List.getElem?_eq_getElem hj1
      have hl : lessAt less data (j + 1) j = some (less data[j + 1] data[j]) := by
        simp [lessAt, hx, hy]
      rw [hl]
      cases hlt : less data[j + 1] data[j] with
      | false => exact ⟨data, rfl, rfl, rfl⟩
      | true =>
        obtain ⟨d, hd, hlen, hfil⟩ := swapAt_adjacent less p hp data j _ _ hy hx hlt
        simp only [hd]
        obtain ⟨d2, hd2, hlen2, hfil2⟩ := ih d (by omega)
        exact ⟨d2, hd2, by omega, by rw [hfil2, hfil]⟩
    · simp only [ha, if_false]
      exact ⟨data, rfl, rfl, rfl⟩

theorem insertionOuter_filter {α : Type} (less : α → α → Bool) (p : α → Bool)
    (hp : ∀ x y, less x y = true → p x = true → p y = true → False) (a : Nat) :
    ∀ (count i : Nat) (data : List α), (count = 0 ∨ i + count ≤ data.length) →
      ∃ d, insertionOuter less a count i data = some d ∧ d.length = data.length ∧
        d.filter p = data.filter p := by
  intro count
  induction count with
  | zero =>
    intro i data _
    exact ⟨data, rfl, rfl, rfl⟩
  | succ count ih =>
    intro i data h
    have hi : i + (count + 1) ≤ data.length := by
      rcases h with h | h
      · omega
      · exact h
    unfold insertionOuter
    obtain ⟨d, hd, hlen, hfil⟩ := insertionInner_filter less p hp a i data (by omega)
    simp only [hd]
    obtain ⟨d2, hd2, hlen2, hfil2⟩ := ih (i + 1) d (Or.inr (by omega))
    exact ⟨d2, hd2, by omega, by rw [hfil2, hfil]⟩

/-- On a slice of at most twelve elements `sort.Slice` returns and keeps, in their order,
the elements of every class of elements none of which is less than another. -/
theorem sortSlice_small_filter {α : Type} (less : α → α → Bool) (next : Nat → Nat)
    (p : α → Bool) (hp : ∀ x y, less x y = true → p x = true → p y = true → False)
    (data : List α) (hlen : data.length ≤ 12) :
    ∃ d, sortSlice less next data = some d ∧ d.length = data.length ∧
      d.filter p = data.filter p := by
  unfold sortSlice pdqsort_func
  simp only [Nat.sub_zero, hlen, if_true]
  unfold insertionSort_func
  apply insertionOuter_filter less p hp 0
  omega

/-! ## Lemmas: insertion sort of package sort, as a function on lists -/

theorem swapAt_append_adjacent {α : Type} (pre post : List α) (x y : α) :
    swapAt (pre ++ y :: x :: post) (pre.length + 1) pre.length
      = some (pre ++ x :: y :: post) := by
  induction pre with
  | nil => simp [swapAt]
  | cons h t ih =>
    unfold swapAt at ih ⊢
    have h1 : (t ++ y :: x :: post)[t.length + 1]? = some x := by
      rw [List.getElem?_append_right (by omega)]
      simp
    have h2 : (t ++ y :: x :: post)[t.length]? = some y := by
      rw [List.getElem?_append_right (by omega)]
      simp
    simp only [h1, h2, Option.some.injEq] at ih
    simp only [List.cons_append, List.length_cons, List.getElem?_cons_succ, h1, h2,
      List.set_cons_succ, Option.some.injEq, List.cons.injEq, true_and]
    exact ih

theorem lessAt_append_adjacent {α : Type} (less : α → α → Bool) (pre post : List α)
    (x y : α) :
    lessAt less (pre ++ y :: x :: post) (pre.length + 1) pre.length = some (less x y) := by
  have h1 : (pre ++ y :: x :: post)[pre.length + 1]? = some x := by
    rw [List.getElem?_append_right (by omega)]
    simp
  have h2 : (pre ++ y :: x :: post)[pre.length]? = some y := by
    rw [List.getElem?_append_right (by omega)]
    simp
  simp [lessAt, h1, h2]

theorem insertionInner_eq {α : Type} (less : α → α → Bool) (rpre : List α) :
    ∀ (x : α) (post : List α),
      insertionInner less 0 rpre.length (rpre.reverse ++ x :: post)
        = some ((insertFromRight less x rpre).reverse ++ post) := by
  induction rpre with
  | nil =>
    intro x post
    simp [insertionInner, insertFromRight]
  | cons y ys ih =>
    intro x post
    have hdata : (y :: ys).reverse ++ x :: post = ys.reverse ++ y :: x :: post := by simp
    have hlen : ys.length = ys.reverse.length := by simp
    rw [hdata]
    simp only [List.length_cons, insertionInner, Nat.succ_pos, gt_iff_lt, if_true,
      Nat.zero_lt_succ]
    have hl := lessAt_append_adjacent less ys.reverse post x y
    have hs := swapAt_append_adjacent ys.reverse post x y
    rw [← hlen] at hl hs
    rw [hl]
    cases hxy : less x y with
    | false => simp [insertFromRight, hxy]
    | true =>
      simp only [hs]
      rw [ih x (y :: post)]
      simp [insertFromRight, hxy]

theorem insertFromRight_length {α : Type} (less : α → α → Bool) (x : α) (l : List α) :
    (insertFromRight less x l).length = l.length + 1 := by
  induction l with
  | nil => rfl
  | cons y ys ih =>
    simp only [insertFromRight]
    split <;> simp [ih]

theorem insertionOuter_eq {α : Type} (less : α → α → Bool) (rest : List α) :
    ∀ rpre : List α,
      insertionOuter less 0 rest.length rpre.length (rpre.reverse ++ rest)
        = some (insertAll less rpre rest).reverse := by
  induction rest with
  | nil =>
    intro rpre
    simp [insertionOuter, insertAll]
  | cons x rest ih =>
    intro rpre
    simp only [List.length_cons, insertionOuter, insertionInner_eq]
    have := ih (insertFromRight less x rpre)
    rw [insertFromRight_length] at this
    rw [this]
    rfl

/-- On a slice of at most twelve elements `sort.Slice` returns the list built by inserting
the elements in turn. -/
theorem sortSlice_small_eq {α : Type} (less : α → α → Bool) (next : Nat → Nat)
    (data : List α) (hlen : data.length ≤ 12) :
    sortSlice less next data = some (insertAll less [] data).reverse := by
  unfold sortSlice pdqsort_func
  simp only [Nat.sub_zero, hlen, if_true]
  unfold insertionSort_func
  cases data with
  | nil => rfl
  | cons h rest =>
    have := insertionOuter_eq less rest [h]
    simp only [List.length_cons, List.length_nil, Nat.zero_add, List.reverse_cons,
      List.reverse_nil, List.nil_append, List.singleton_append] at this
    simp only [List.length_cons, Nat.add_sub_cancel, Nat.zero_add]
    rw [this]
    rfl

theorem insertFromRight_perm {α : Type} (less : α → α → Bool) (x : α) (l : List α) :
    (insertFromRight less x l).Perm (x :: l) := by
  induction l with
  | nil => exact List.Perm.refl _
  | cons y ys ih =>
    simp only [insertFromRight]
    split
    · exact (List.Perm.cons y ih).trans (List.Perm.swap x y ys)
    · exact List.Perm.refl _

theorem insertAll_perm {α : Type} (less : α → α → Bool) (data : List α) :
    ∀ acc : List α, (insertAll less acc data).Perm (data ++ acc) := by
  induction data with
  | nil => intro acc; exact List.Perm.refl _
  | cons x rest ih =>
    intro acc
    unfold insertAll at ih ⊢
    rw [List.foldl_cons]
    refine (ih _).trans ?_
    refine (List.Perm.append_left rest (insertFromRight_perm less x acc)).trans ?_
    exact List.perm_middle

theorem insertFromRight_pairwise {α : Type} {less : α → α → Bool}
    (h : IsStrictWeakOrder less) (x : α) (l : List α)
    (hl : l.Pairwise (fun u v => less u v = false)) :
    (insertFromRight less x l).Pairwise (fun u v => less u v = false) := by
  induction l with
  | nil => simp [insertFromRight]
  | cons y ys ih =>
    obtain ⟨hy, hys⟩ := List.pairwise_cons.mp hl
    simp only [insertFromRight]
    by_cases hxy : less x y = true
    · simp only [hxy, if_true]
      refine List.pairwise_cons.mpr ⟨?_, ih hys⟩
      intro v hv
      have hv' := (List.Perm.mem_iff (insertFromRight_perm less x ys)).mp hv
      rcases List.mem_cons.mp hv' with hvx | hvys
      · rw [hvx]
        by_contra hyx
        have hyx' : less y x = true := by simpa using hyx
        have := h.2.1 x y x hxy hyx'
        rw [h.1 x] at this
        exact Bool.noConfusion this
      · exact hy v hvys
    · have hxy' : less x y = false := by simpa using hxy
      simp only [hxy, if_false, Bool.false_eq_true]
      refine List.pairwise_cons.mpr ⟨?_, hl⟩
      intro v hv
      rcases List.mem_cons.mp hv with hv | hv
      · rw [hv]; exact hxy'
      · exact h.2.2 x y v hxy' (hy v hv)

theorem insertAll_pairwise {α : Type} {less : α → α → Bool} (h : IsStrictWeakOrder less)
    (data : List α) :
    ∀ acc : List α, acc.Pairwise (fun u v => less u v = false) →
      (insertAll less acc data).Pairwise (fun u v => less u v = false) := by
  induction data with
  | nil => intro acc hacc; exact hacc
  | cons x rest ih =>
    intro acc hacc
    unfold insertAll at ih ⊢
    rw [List.foldl_cons]
    exact ih _ (insertFromRight_pairwise h x acc hacc)

/-- On a slice of at most twelve elements and with a strict weak ordering, `sort.Slice`
returns a sorted rearrangement of the slice. -/
theorem sortSlice_small_sorted {α : Type} {less : α → α → Bool} (h : IsStrictWeakOrder less)
    (next : Nat → Nat) (data : List α) (hlen : data.length ≤ 12) :
    ∃ d, sortSlice less next data = some d ∧ d.Perm data ∧
      d.Pairwise (fun x y => less y x = false) := by
  refine ⟨_, sortSlice_small_eq less next data hlen, ?_, ?_⟩
  · have := insertAll_perm less data []
    simp only [List.append_nil] at this
    exact (List.reverse_perm _).trans this
  · rw [List.pairwise_reverse]
    exact insertAll_pairwise h data [] List.Pairwise.nil

/-! ## Sorting the reports -/

/-- C17: with a `sort.Slice` that meets the contract of package sort, for every list of
reports `SortReportsByDate` leaves a permutation of the input that is ordered by begin,
most recent first: the begin of each report is not before the begin of the report that
follows it, nor before the begin of any later report.  For a list of at most twelve
reports the same holds of the `sort.Slice` of Go itself, which then sorts by insertion and
returns, with no assumption on the library. -/
theorem C17_sorted_newest_first (slice : SliceSorter) (hslice : SortsSlices slice)
    (reports : List DMARCReport) :
    (SortReportsByDate slice reports).Perm reports ∧
      (SortReportsByDate slice reports).Chain'
        (fun r s =>
          r.ReportMetadata.DateRange.Begin.Before s.ReportMetadata.DateRange.Begin = false) ∧
      (SortReportsByDate slice reports).Pairwise
        (fun r s =>
          r.ReportMetadata.DateRange.Begin.Before s.ReportMetadata.DateRange.Begin = false) ∧
      (reports.length ≤ 12 →
        sortSlice newestFirst xorshiftNext reports = some (SortReportsByDate goSlice reports) ∧
        (SortReportsByDate goSlice reports).Perm reports ∧
        (SortReportsByDate goSlice reports).Pairwise
          (fun r s =>
            r.ReportMetadata.DateRange.Begin.Before s.ReportMetadata.DateRange.Begin
              = false)) := by
  have hchain := hslice.2 newestFirst newestFirst_isStrictWeakOrder reports
  have hpair := newestFirst_isStrictWeakOrder.pairwise_of_chain _ hchain
  have hrel : ∀ r s : DMARCReport, newestFirst s r = false →
      r.ReportMetadata.DateRange.Begin.Before s.ReportMetadata.DateRange.Begin = false := by
    intro r s h
    unfold newestFirst at h
    rw [Time.After_eq_Before] at h
    exact h
  refine ⟨hslice.1 newestFirst reports, ?_, ?_, ?_⟩
  · exact List.Chain'.imp hrel hchain
  · exact List.Pairwise.imp (fun {r s} h => hrel r s h) hpair
  · intro hlen
    obtain ⟨d, hd, hperm, hsorted⟩ :=
      sortSlice_small_sorted newestFirst_isStrictWeakOrder xorshiftNext reports hlen
    have hgo : SortReportsByDate goSlice reports = d := by
      simp [SortReportsByDate, goSlice, hd]
    rw [hgo]
    exact ⟨hd, hperm, List.Pairwise.imp (fun {r s} h => hrel r s h) hsorted⟩

theorem C17_sorted_newest_first_witness :
    SortsSlices insertionSlice ∧
      (SortReportsByDate insertionSlice [sampleReportA, sampleReportB]).Perm
        [sampleReportA, sampleReportB] ∧
      (SortReportsByDate insertionSlice [sampleReportA, sampleReportB]).Chain'
        (fun r s =>
          r.ReportMetadata.DateRange.Begin.Before s.ReportMetadata.DateRange.Begin = false) :=
  ⟨insertionSlice_sortsSlices,
   (C17_sorted_newest_first insertionSlice insertionSlice_sortsSlices
      [sampleReportA, sampleReportB]).1,
   (C17_sorted_newest_first insertionSlice insertionSlice_sortsSlices
      [sampleReportA, sampleReportB]).2.1⟩

set_option maxRecDepth 100000 in
/-- C18, as stated, fails: on the thirteen sample reports, twelve of which begin at the
same instant, `sort.Slice` returns (no index out of range, loops ended) and
`SortReportsByDate` leaves the report 6 before the reports 2 and 0, and the report 1 last:
the reports with equal begin do not keep their input order. -/
theorem C18_counterexample_ties_reordered :
    sortSlice newestFirst xorshiftNext thirteenReports
        = some (SortReportsByDate goSlice thirteenReports) ∧
      (SortReportsByDate goSlice thirteenReports).map (fun r => r.ReportMetadata.ReportID)
        = ["12", "6", "2", "3", "4", "5", "0", "7", "8", "9", "10", "11", "1"] ∧
      (reportsAt (Unix 1704067200 0) thirteenReports).map
          (fun r => r.ReportMetadata.ReportID)
        = ["0", "1", "2", "3", "4", "5", "6", "7", "8", "9", "10", "11"] ∧
      reportsAt (Unix 1704067200 0) (SortReportsByDate goSlice thirteenReports)
        ≠ reportsAt (Unix 1704067200 0) thirteenReports := by
  decide

/-- C18, amended: `SortReportsByDate` is a function of its input, and for a list of at most
twelve reports, which `sort.Slice` sorts by insertion, the call returns and any reports
with equal begin timestamps keep their relative input order: for every instant, the
reports that begin at it are the same list before and after. -/
theorem C18_ties_keep_order_up_to_twelve (reports : List DMARCReport)
    (hlen : reports.length ≤ 12) :
    sortSlice newestFirst xorshiftNext reports = some (SortReportsByDate goSlice reports) ∧
      (SortReportsByDate goSlice reports).length = reports.length ∧
      ∀ t : Time, reportsAt t (SortReportsByDate goSlice reports) = reportsAt t reports := by
  have hp : ∀ t : Time, ∀ x y : DMARCReport, newestFirst x y = true →
      x.ReportMetadata.DateRange.Begin.Equal t = true →
      y.ReportMetadata.DateRange.Begin.Equal t = true → False := by
    intro t x y hxy hx hy
    unfold newestFirst at hxy
    rw [Time.After_iff] at hxy
    simp only [Time.Equal, Bool.and_eq_true, decide_eq_true_eq] at hx hy
    omega
  have key : ∀ t : Time, ∃ d, sortSlice newestFirst xorshiftNext reports = some d ∧
      d.length = reports.length ∧ reportsAt t d = reportsAt t reports := fun t =>
    sortSlice_small_filter newestFirst xorshiftNext
      (fun r => r.ReportMetadata.DateRange.Begin.Equal t) (hp t) reports hlen
  obtain ⟨d, hd, hdl, _⟩ := key Time.zero
  have hgo : SortReportsByDate goSlice reports = d := by
    simp [SortReportsByDate, goSlice, hd]
  rw [hgo]
  refine ⟨hd, hdl, ?_⟩
  intro t
  obtain ⟨d2, hd2, _, hfil⟩ := key t
  rw [hd] at hd2
  injection hd2 with hd2
  rw [hd2]
  exact hfil

theorem C18_ties_keep_order_up_to_twelve_witness :
    [sampleReportA, sampleReportA2, sampleReportB].length ≤ 12 ∧
      reportsAt (Unix 1704067200 0)
          (SortReportsByDate goSlice [sampleReportA, sampleReportA2, sampleReportB])
        = reportsAt (Unix 1704067200 0) [sampleReportA, sampleReportA2, sampleReportB] :=
  ⟨by decide,
   (C18_ties_keep_order_up_to_twelve [sampleReportA, sampleReportA2, sampleReportB]
      (by decide)).2.2 (Unix 1704067200 0)⟩

/-! ## The start-up error -/

theorem Contains_Error_of_Is (quote : String → String) (err : GoError)
    (h : err.Is ErrNoReports = true) :
    Contains (err.Error quote) (ErrNoReports.Error quote) = true := by
  induction err with
  | errorString msg =>
    simp only [GoError.Is, decide_eq_true_eq] at h
    rw [h]
    exact (Contains_iff _ _).mpr (List.infix_refl _)
  | wrapError pre err post ih =>
    simp only [GoError.Is, Bool.or_eq_true, decide_eq_true_eq] at h
    rcases h with h | h
    · exact absurd h (by simp [ErrNoReports])
    · simp only [GoError.Error]
      exact Contains_append_of_Contains _ _ _ _ (ih h)
  | numError fn num err ih =>
    simp only [GoError.Is, Bool.or_eq_true, decide_eq_true_eq] at h
    rcases h with h | h
    · exact absurd h (by simp [ErrNoReports])
    · simp only [GoError.Error]
      have := Contains_append_of_Contains ("strconv." ++ fn ++ ": parsing " ++ quote num ++ ": ")
        (GoError.Error quote err) "" _ (ih h)
      simpa using this

/-- When the load failed with the no-reports condition, `handleStartupError` prints the
onboarding guidance. -/
theorem handleStartupError_of_Is (quote : String → String) (IsPermission : GoError → Bool)
    (err : GoError) (h : err.Is ErrNoReports = true) :
    handleStartupError quote IsPermission (startupLoadError err) = noReportsGuidance := by
  have h2 := Contains_Error_of_Is quote err h
  have h3 := Contains_append_of_Contains "failed to load reports: " (err.Error quote) ""
    (ErrNoReports.Error quote) h2
  have h4 : GoError.Error quote ErrNoReports = "no DMARC reports found" := rfl
  rw [h4] at h3
  unfold handleStartupError startupLoadError
  simp only [GoError.Error]
  rw [if_pos h3]

set_option maxRecDepth 100000 in
/-- C19 fails on the code: in a directory whose only file is a text file named
"no DMARC reports found", `LoadReports` fails with the combined "failed to parse any
reports" error, which is not the no-reports condition, and `handleStartupError` prints the
no-reports onboarding guidance for it, because the message contains the file name. -/
theorem C19_guidance_printed_for_a_parse_failure :
    (LoadReports (oneTextFileEnv "no DMARC reports found")
        (sampleReadDir [⟨"no DMARC reports found", false⟩]) (fun s => s) sampleLoader).err
      = some (.errorString ("failed to parse any reports: " ++
          "Error parsing no DMARC reports found: " ++
          "file /home/u/.godmarc/no DMARC reports found does not appear to be valid XML")) ∧
    GoError.Is (.errorString ("failed to parse any reports: " ++
        "Error parsing no DMARC reports found: " ++
        "file /home/u/.godmarc/no DMARC reports found does not appear to be valid XML"))
      ErrNoReports = false ∧
    handleStartupError (fun s => s) (fun _ => false)
      (startupLoadError (.errorString ("failed to parse any reports: " ++
        "Error parsing no DMARC reports found: " ++
        "file /home/u/.godmarc/no DMARC reports found does not appear to be valid XML")))
      = noReportsGuidance := by
  decide

/-! ## Lemmas: truncation -/

theorem wrapInt64_of_range (x : Int) (hlo : -(2 : Int) ^ 63 ≤ x) (hhi : x < (2 : Int) ^ 63) :
    wrapInt64 x = x := by
  unfold wrapInt64
  rw [Int.emod_eq_of_lt (by omega) (by omega)]
  omega

theorem TruncateString_short (s : List UInt8) (maxLen : Int) (h : (s.length : Int) ≤ maxLen) :
    TruncateString s maxLen = some s := by
  unfold TruncateString
  rw [if_pos h]

theorem TruncateString_long (s : List UInt8) (maxLen : Int) (h3 : 3 ≤ maxLen)
    (h : maxLen < (s.length : Int)) (hint : maxLen < (2 : Int) ^ 63) :
    TruncateString s maxLen = some (s.take (maxLen - 3).toNat ++ goBytes "...") := by
  unfold TruncateString
  rw [if_neg (by omega)]
  have hw : wrapInt64 (maxLen - 3) = maxLen - 3 :=
    wrapInt64_of_range _ (by norm_num; omega) (by omega)
  simp only [hw]
  rw [if_pos ⟨by omega, by omega⟩]

/-- Below 3 the slice bound `maxLen-3` is negative: a string longer than `maxLen` makes
`TruncateString` panic. -/
theorem TruncateString_panics_below_three :
    TruncateString (goBytes "abcd") 2 = none := by
  decide

/-! ## Lemmas: the parts of the text that do not depend on the order of iteration -/

theorem sorted_strings_unique (l1 l2 : List String) (hp : l1.Perm l2)
    (h1 : l1.Chain' (fun a b => ¬ b < a)) (h2 : l2.Chain' (fun a b => ¬ b < a)) :
    l1 = l2 := by
  haveI : IsTrans String (fun a b => ¬ b < a) :=
    ⟨fun a b c hab hbc => not_lt.mpr (le_trans (not_lt.mp hab) (not_lt.mp hbc))⟩
  haveI : IsAntisymm String (fun a b => ¬ b < a) :=
    ⟨fun a b hab hba => le_antisymm (not_lt.mp hab) (not_lt.mp hba)⟩
  exact List.eq_of_perm_of_sorted hp (List.chain'_iff_pairwise.mp h1)
    (List.chain'_iff_pairwise.mp h2)

theorem Strings_perm_invariant (lib : FormatLib) (hlib : lib.Sorts) (l1 l2 : List String)
    (hp : l1.Perm l2) : lib.Strings l1 = lib.Strings l2 :=
  sorted_strings_unique _ _
    (((hlib.1 l1).trans hp).trans (hlib.1 l2).symm) (hlib.2.1 l1) (hlib.2.1 l2)

theorem domainEntries_perm_invariant (lib : FormatLib) (hlib : lib.Sorts)
    (v1 v2 : List (String × Nat)) (hp : v1.Perm v2) :
    domainEntries lib v1 = domainEntries lib v2 :=
  Strings_perm_invariant lib hlib _ _ (hp.map _)

theorem formatDomains_perm_invariant (lib : FormatLib) (hlib : lib.Sorts)
    (v1 v2 : List (String × Nat)) (hp : v1.Perm v2) :
    formatDomains lib v1 = formatDomains lib v2 := by
  unfold formatDomains
  rw [domainEntries_perm_invariant lib hlib v1 v2 hp]

theorem maxKeyLen_perm_invariant (v1 v2 : List (String × Nat)) (hp : v1.Perm v2) :
    maxKeyLen v1 = maxKeyLen v2 := by
  unfold maxKeyLen
  apply List.Perm.foldl_eq' hp
  intro x _ y _ z
  generalize x.1.utf8ByteSize = a
  generalize y.1.utf8ByteSize = b
  by_cases h1 : a > z <;> by_cases h2 : b > z <;> by_cases h3 : b > a <;>
    by_cases h4 : a > b <;> simp only [h1, h2, h3, h4, if_true, if_false] <;> omega

theorem columnEntries_perm_invariant (lib : FormatLib) (hlib : lib.Sorts) (maxLen : Nat)
    (v1 v2 : List (String × Nat)) (hp : v1.Perm v2) :
    columnEntries lib maxLen v1 = columnEntries lib maxLen v2 :=
  Strings_perm_invariant lib hlib _ _ (hp.map _)

theorem RangeOrders.Valid.perm {o1 o2 : RangeOrders} (h1 : o1.Valid) (h2 : o2.Valid)
    (m : FreqMap) :
    (o1.domains m).Perm (o2.domains m) ∧
    (o1.dispositionLengths m).Perm (o2.dispositionLengths m) ∧
    (o1.dkimLengths m).Perm (o2.dkimLengths m) ∧
    (o1.spfLengths m).Perm (o2.spfLengths m) ∧
    (o1.dispositions m).Perm (o2.dispositions m) ∧
    (o1.dkimResults m).Perm (o2.dkimResults m) ∧
    (o1.spfResults m).Perm (o2.spfResults m) ∧
    (o1.sources m).Perm (o2.sources m) := by
  obtain ⟨a1, a2, a3, a4, a5, a6, a7, a8⟩ := h1 m
  obtain ⟨b1, b2, b3, b4, b5, b6, b7, b8⟩ := h2 m
  exact ⟨a1.trans b1.symm, a2.trans b2.symm, a3.trans b3.symm, a4.trans b4.symm,
    a5.trans b5.symm, a6.trans b6.symm, a7.trans b7.symm, a8.trans b8.symm⟩

theorem formatSummary_order_invariant (lib : FormatLib) (hlib : lib.Sorts)
    (o1 o2 : RangeOrders) (h1 : o1.Valid) (h2 : o2.Valid) (aggr : AggregatedReport) :
    formatSummary lib o1 aggr = formatSummary lib o2 aggr := by
  obtain ⟨_, p2, _, _, p5, _, _, _⟩ := RangeOrders.Valid.perm h1 h2 aggr.Dispositions
  obtain ⟨_, _, p3, _, _, p6, _, _⟩ := RangeOrders.Valid.perm h1 h2 aggr.DKIMResults
  obtain ⟨_, _, _, p4, _, _, p7, _⟩ := RangeOrders.Valid.perm h1 h2 aggr.SPFResults
  unfold formatSummary
  simp only []
  rw [maxKeyLen_perm_invariant _ _ p2, maxKeyLen_perm_invariant _ _ p3,
    maxKeyLen_perm_invariant _ _ p4,
    columnEntries_perm_invariant lib hlib _ _ _ p5,
    columnEntries_perm_invariant lib hlib _ _ _ p6,
    columnEntries_perm_invariant lib hlib _ _ _ p7]

theorem countDescending_isStrictWeakOrder : IsStrictWeakOrder countDescending := by
  refine ⟨fun x => ?_, fun x y z hxy hyz => ?_, fun x y z hxy hyz => ?_⟩
  · simp [countDescending]
  · simp only [countDescending, decide_eq_true_eq] at *
    omega
  · simp only [countDescending, decide_eq_false_iff_not] at *
    omega

/-- When no two sources have the same count, the sorted slice of sources is the same for
every order in which the map is visited. -/
theorem sortedSources_perm_invariant (lib : FormatLib) (hlib : lib.Sorts)
    (v1 v2 : List (String × Nat)) (hp : v1.Perm v2)
    (hties : (v1.map Prod.snd).Nodup) :
    sortedSources lib v1 = sortedSources lib v2 := by
  have key : ∀ v : List (String × Nat), (v.map Prod.snd).Nodup →
      (sortedSources lib v).Sorted (fun a b => a.count > b.count) := by
    intro v hv
    have hpw := countDescending_isStrictWeakOrder.pairwise_of_chain _
      (hlib.2.2.2 countDescending countDescending_isStrictWeakOrder
        (v.map (fun p => (⟨p.1, p.2⟩ : sourceCount))))
    have hperm := hlib.2.2.1 countDescending (v.map (fun p => (⟨p.1, p.2⟩ : sourceCount)))
    have hnd : ((sortedSources lib v).map sourceCount.count).Nodup := by
      have hcnt : ((v.map (fun p => (⟨p.1, p.2⟩ : sourceCount))).map sourceCount.count) =
          v.map Prod.snd := by
        rw [List.map_map]
        rfl
      have := (hperm.map sourceCount.count).nodup_iff.mpr (by rw [hcnt]; exact hv)
      exact this
    have hne : (sortedSources lib v).Pairwise (fun a b => a.count ≠ b.count) :=
      (List.pairwise_map.mp hnd)
    have hboth := List.Pairwise.and hpw hne
    refine hboth.imp ?_
    intro a b hab
    have h1 : ¬ b.count > a.count := by
      simpa [countDescending] using hab.1
    have h2 := hab.2
    omega
  haveI : IsAntisymm sourceCount (fun a b => a.count > b.count) :=
    ⟨fun a b hab hba => absurd hab (by omega)⟩
  have hp' : (sortedSources lib v1).Perm (sortedSources lib v2) :=
    ((hlib.2.2.1 _ _).trans (hp.map _)).trans (hlib.2.2.1 _ _).symm
  exact List.eq_of_perm_of_sorted hp' (key v1 hties)
    (key v2 ((hp.map Prod.snd).nodup_iff.mp hties))

/-- With sorting functions that meet the contract of package sort, the text of
`FormatAggregatedReport` is the same for every order of iteration over the maps when no
two sources have the same count. -/
theorem FormatAggregatedReport_order_invariant (lib : FormatLib) (hlib : lib.Sorts)
    (o1 o2 : RangeOrders) (h1 : o1.Valid) (h2 : o2.Valid) (aggr : AggregatedReport)
    (hties : (aggr.Sources.map Prod.snd).Nodup) :
    FormatAggregatedReport lib o1 aggr = FormatAggregatedReport lib o2 aggr := by
  have hs1 : ((o1.sources aggr.Sources).map Prod.snd).Nodup :=
    (((h1 aggr.Sources).2.2.2.2.2.2.2).map Prod.snd).nodup_iff.mpr hties
  have hsrc := sortedSources_perm_invariant lib hlib _ _
    (RangeOrders.Valid.perm h1 h2 aggr.Sources).2.2.2.2.2.2.2 hs1
  unfold FormatAggregatedReport formatTopSources
  simp only []
  rw [hsrc, formatDomains_perm_invariant lib hlib _ _
      (RangeOrders.Valid.perm h1 h2 aggr.Domains).1,
    formatSummary_order_invariant lib hlib o1 o2 h1 h2 aggr]

/-- Sorting by insertion meets the contract of package sort. -/
theorem insertionFormatLib_sorts : insertionFormatLib.Sorts := by
  refine ⟨?_, ?_, ?_, ?_⟩
  · intro x
    exact List.perm_insertionSort _ x
  · intro x
    haveI : IsTrans String (fun a b => ¬ b < a) :=
      ⟨fun a b c hab hbc => not_lt.mpr (le_trans (not_lt.mp hab) (not_lt.mp hbc))⟩
    haveI : IsTotal String (fun a b => ¬ b < a) :=
      ⟨fun a b => (le_total a b).imp not_lt.mpr not_lt.mpr⟩
    exact List.Pairwise.chain' (List.sorted_insertionSort (fun a b : String => ¬ b < a) x)
  · intro less x
    exact List.perm_insertionSort _ x
  · intro less h x
    haveI : IsTrans sourceCount (fun a b => less b a = false) :=
      ⟨fun a b c hab hbc => h.2.2 c b a hbc hab⟩
    haveI : IsTotal sourceCount (fun a b => less b a = false) := by
      refine ⟨fun a b => ?_⟩
      by_cases hba : less b a = true
      · right
        by_contra hab
        have hab' : less a b = true := by simpa using hab
        have := h.2.1 b a b hba hab'
        rw [h.1 b] at this
        exact Bool.noConfusion this
      · left
        simpa using hba
    exact List.Pairwise.chain'
      (List.sorted_insertionSort (fun a b : sourceCount => less b a = false) x)

/-! ## The aggregated report as text -/

theorem insertionOrder_valid : insertionOrder.Valid := by
  intro m
  exact ⟨List.Perm.refl m, List.Perm.refl m, List.Perm.refl m, List.Perm.refl m,
    List.Perm.refl m, List.Perm.refl m, List.Perm.refl m, List.Perm.refl m⟩

theorem reverseOrder_valid : reverseOrder.Valid := by
  intro m
  exact ⟨List.reverse_perm m, List.reverse_perm m, List.reverse_perm m, List.reverse_perm m,
    List.reverse_perm m, List.reverse_perm m, List.reverse_perm m, List.reverse_perm m⟩

set_option maxRecDepth 100000 in
/-- C21.  The text of `FormatAggregatedReport` depends on the order in which the map of
sources is visited when two sources have equal counts.  For the aggregate of one report
with a record from 192.0.2.1 and a record from 192.0.2.2, the two sources are written in
the order in which the `range` statement visits them: visiting the map in the two
possible orders gives two different lists of top sources and two different texts. -/
theorem C21_top_sources_follow_iteration_order :
    insertionOrder.Valid ∧ reverseOrder.Valid ∧
    twoSourcesAggregate.Sources = [("192.0.2.1", 1), ("192.0.2.2", 1)] ∧
    formatTopSources plainFormatLib (insertionOrder.sources twoSourcesAggregate.Sources) =
      some ("\nTop Sources\n" ++
        "  192.0.2.1            1              192.0.2.2            1\n") ∧
    formatTopSources plainFormatLib (reverseOrder.sources twoSourcesAggregate.Sources) =
      some ("\nTop Sources\n" ++
        "  192.0.2.2            1              192.0.2.1            1\n") ∧
    FormatAggregatedReport plainFormatLib insertionOrder twoSourcesAggregate ≠
      FormatAggregatedReport plainFormatLib reverseOrder twoSourcesAggregate := by
  refine ⟨insertionOrder_valid, reverseOrder_valid, ?_, ?_, ?_, ?_⟩
  · decide
  · decide
  · decide
  · decide

/-! ## Lemmas: aggregation over a concatenation -/

theorem pickFirst_append {α : Type} (lt : α → α → Bool) (a : α) (ts us : List α) :
    pickFirst lt a (ts ++ us) = pickFirst lt (pickFirst lt a ts) us := by
  simp [pickFirst, List.foldl_append]

theorem pickFirst_concat {α : Type} (lt : α → α → Bool) (a z : α) (ts : List α) :
    pickFirst lt a (ts ++ [z]) =
      if lt z (pickFirst lt a ts) then z else pickFirst lt a ts := by
  simp [pickFirst, List.foldl_append]

/-- Continuing the loop from `a` over `y :: ys` ends at the value the loop from `y` ends
at when that value is less than `a`, and at `a` otherwise. -/
theorem pickFirst_cons_eq {α : Type} {lt : α → α → Bool} (h : IsStrictWeakOrder lt)
    (a y : α) (ys : List α) :
    pickFirst lt a (y :: ys) =
      if lt (pickFirst lt y ys) a then pickFirst lt y ys else a := by
  obtain ⟨_, htrans, hneg⟩ := h
  induction ys using List.reverseRecOn with
  | nil => simp [pickFirst]
  | append_singleton ys z ih =>
    have e : y :: (ys ++ [z]) = (y :: ys) ++ [z] := rfl
    rw [e, pickFirst_concat, pickFirst_concat, ih]
    by_cases hm : lt (pickFirst lt y ys) a = true
    · rw [if_pos hm]
      by_cases hz : lt z (pickFirst lt y ys) = true
      · rw [if_pos hz, if_pos (htrans _ _ _ hz hm)]
      · rw [if_neg hz, if_pos hm]
    · rw [if_neg hm]
      by_cases hz : lt z (pickFirst lt y ys) = true
      · rw [if_pos hz]
      · rw [if_neg hz, if_neg hm]
        have hza : lt z a = false :=
          hneg _ _ _ (Bool.eq_false_iff.mpr hz) (Bool.eq_false_iff.mpr hm)
        rw [hza]
        simp

theorem pickFirst_self {α : Type} {lt : α → α → Bool} (hirr : ∀ x, lt x x = false)
    (y : α) (ys : List α) : pickFirst lt y (y :: ys) = pickFirst lt y ys := by
  simp [pickFirst, hirr]

theorem Time.Before_trans {a b c : Time} (hab : a.Before b = true) (hbc : b.Before c = true) :
    a.Before c = true := by
  rw [Time.Before_iff] at *
  omega

theorem Before_isStrictWeakOrder : IsStrictWeakOrder Time.Before :=
  ⟨Time.Before_irrefl, fun _ _ _ => Time.Before_trans, fun _ _ _ => Time.not_Before_trans⟩

theorem After_isStrictWeakOrder : IsStrictWeakOrder Time.After := by
  refine ⟨fun x => ?_, fun x y z hxy hyz => ?_, fun x y z hxy hyz => ?_⟩
  · rw [Time.After_eq_Before]; exact Time.Before_irrefl x
  · rw [Time.After_eq_Before] at *
    exact Time.Before_trans hyz hxy
  · rw [Time.After_eq_Before] at *
    exact Time.not_Before_trans hyz hxy

theorem foldl_extend_Begin_eq (reports : List DMARCReport) (dr : DateRange) :
    (reports.foldl DateRange.extend dr).Begin =
      pickFirst Time.Before dr.Begin
        (reports.map (fun r => r.ReportMetadata.DateRange.Begin)) := by
  induction reports generalizing dr with
  | nil => rfl
  | cons r rest ih =>
    rw [List.foldl_cons, ih, DateRange.extend_Begin]
    rfl

theorem foldl_extend_End_eq (reports : List DMARCReport) (dr : DateRange) :
    (reports.foldl DateRange.extend dr).End =
      pickFirst Time.After dr.End
        (reports.map (fun r => r.ReportMetadata.DateRange.End)) := by
  induction reports generalizing dr with
  | nil => rfl
  | cons r rest ih =>
    rw [List.foldl_cons, ih, DateRange.extend_End]
    rfl

theorem AggregateReports_Begin_cons (r : DMARCReport) (rest : List DMARCReport) :
    (AggregateReports (r :: rest)).DateRange.Begin =
      pickFirst Time.Before r.ReportMetadata.DateRange.Begin
        (rest.map (fun r => r.ReportMetadata.DateRange.Begin)) := by
  rw [AggregateReports_eq]
  show ((r :: rest).foldl DateRange.extend _).Begin = _
  rw [foldl_extend_Begin_eq, List.map_cons]
  exact pickFirst_self Time.Before_irrefl _ _

theorem AggregateReports_End_cons (r : DMARCReport) (rest : List DMARCReport) :
    (AggregateReports (r :: rest)).DateRange.End =
      pickFirst Time.After r.ReportMetadata.DateRange.End
        (rest.map (fun r => r.ReportMetadata.DateRange.End)) := by
  rw [AggregateReports_eq]
  show ((r :: rest).foldl DateRange.extend _).End = _
  rw [foldl_extend_End_eq, List.map_cons]
  exact pickFirst_self After_isStrictWeakOrder.1 _ _

theorem allRecords_append (xs ys : List DMARCReport) :
    allRecords (xs ++ ys) = allRecords xs ++ allRecords ys := by
  simp [allRecords]

theorem FreqMap.get_nil (k : String) : FreqMap.get [] k = 0 := rfl

theorem FreqMap.has_nil (k : String) : FreqMap.has [] k = false := rfl

/-- The map counting the keys of `xs ++ ys` is the key-wise sum of the map counting the
keys of `xs` and the map counting the keys of `ys`. -/
theorem FreqMap.incAll_keywise (xs ys : List String) (k : String) :
    (FreqMap.incAll [] (xs ++ ys)).get k =
        (FreqMap.incAll [] xs).get k + (FreqMap.incAll [] ys).get k ∧
      (FreqMap.incAll [] (xs ++ ys)).has k =
        ((FreqMap.incAll [] xs).has k || (FreqMap.incAll [] ys).has k) := by
  simp only [FreqMap.get_incAll, FreqMap.has_incAll, FreqMap.get_nil, FreqMap.has_nil,
    List.count_append, List.mem_append, Bool.false_or, Bool.decide_or]
  constructor
  · omega
  · trivial

/-! ## Aggregation is additive -/

/-- C22.  `AggregateReports` is additive over concatenation.  For all lists `xs` and `ys`
of reports, the aggregate of `xs ++ ys` has `TotalReports` and `TotalRecords` equal to the
sums of those of the aggregates of `xs` and of `ys`; in each of its five frequency maps
every key has the sum of its two counts and is present when it is present in one of the
two maps; its `FailedRecords` are those of `xs` followed by those of `ys`; and when both
lists are non-empty its `Begin` is the earlier of the two `Begin`s (that of `xs` when
neither is before the other) and its `End` the later of the two `End`s (that of `xs` when
neither is after the other). -/
theorem C22_aggregate_additive (xs ys : List DMARCReport) :
    (AggregateReports (xs ++ ys)).TotalReports =
        (AggregateReports xs).TotalReports + (AggregateReports ys).TotalReports ∧
    (AggregateReports (xs ++ ys)).TotalRecords =
        (AggregateReports xs).TotalRecords + (AggregateReports ys).TotalRecords ∧
    (∀ k : String,
      ((AggregateReports (xs ++ ys)).Domains.get k =
          (AggregateReports xs).Domains.get k + (AggregateReports ys).Domains.get k ∧
        (AggregateReports (xs ++ ys)).Domains.has k =
          ((AggregateReports xs).Domains.has k || (AggregateReports ys).Domains.has k)) ∧
      ((AggregateReports (xs ++ ys)).Sources.get k =
          (AggregateReports xs).Sources.get k + (AggregateReports ys).Sources.get k ∧
        (AggregateReports (xs ++ ys)).Sources.has k =
          ((AggregateReports xs).Sources.has k || (AggregateReports ys).Sources.has k)) ∧
      ((AggregateReports (xs ++ ys)).Dispositions.get k =
          (AggregateReports xs).Dispositions.get k +
            (AggregateReports ys).Dispositions.get k ∧
        (AggregateReports (xs ++ ys)).Dispositions.has k =
          ((AggregateReports xs).Dispositions.has k ||
            (AggregateReports ys).Dispositions.has k)) ∧
      ((AggregateReports (xs ++ ys)).DKIMResults.get k =
          (AggregateReports xs).DKIMResults.get k +
            (AggregateReports ys).DKIMResults.get k ∧
        (AggregateReports (xs ++ ys)).DKIMResults.has k =
          ((AggregateReports xs).DKIMResults.has k ||
            (AggregateReports ys).DKIMResults.has k)) ∧
      ((AggregateReports (xs ++ ys)).SPFResults.get k =
          (AggregateReports xs).SPFResults.get k + (AggregateReports ys).SPFResults.get k ∧
        (AggregateReports (xs ++ ys)).SPFResults.has k =
          ((AggregateReports xs).SPFResults.has k ||
            (AggregateReports ys).SPFResults.has k))) ∧
    (AggregateReports (xs ++ ys)).FailedRecords =
        (AggregateReports xs).FailedRecords ++ (AggregateReports ys).FailedRecords ∧
    (xs ≠ [] → ys ≠ [] →
      (AggregateReports (xs ++ ys)).DateRange.Begin =
          (if (AggregateReports ys).DateRange.Begin.Before
                (AggregateReports xs).DateRange.Begin then
            (AggregateReports ys).DateRange.Begin
          else (AggregateReports xs).DateRange.Begin) ∧
        (AggregateReports (xs ++ ys)).DateRange.End =
          (if (AggregateReports ys).DateRange.End.After
                (AggregateReports xs).DateRange.End then
            (AggregateReports ys).DateRange.End
          else (AggregateReports xs).DateRange.End)) := by
  refine ⟨?_, ?_, ?_, ?_, ?_⟩
  · simp [AggregateReports_eq]
  · simp [AggregateReports_eq, allRecords_append]
  · intro k
    simp only [AggregateReports_eq, allRecords_append, List.map_append]
    exact ⟨FreqMap.incAll_keywise _ _ k, FreqMap.incAll_keywise _ _ k,
      FreqMap.incAll_keywise _ _ k, FreqMap.incAll_keywise _ _ k,
      FreqMap.incAll_keywise _ _ k⟩
  · simp [AggregateReports_eq, allRecords_append]
  · intro hx hy
    obtain ⟨x, xs', rfl⟩ := List.exists_cons_of_ne_nil hx
    obtain ⟨y, ys', rfl⟩ := List.exists_cons_of_ne_nil hy
    constructor
    · rw [List.cons_append, AggregateReports_Begin_cons, AggregateReports_Begin_cons,
        AggregateReports_Begin_cons, List.map_append, pickFirst_append, List.map_cons,
        pickFirst_cons_eq Before_isStrictWeakOrder]
    · rw [List.cons_append, AggregateReports_End_cons, AggregateReports_End_cons,
        AggregateReports_End_cons, List.map_append, pickFirst_append, List.map_cons,
        pickFirst_cons_eq After_isStrictWeakOrder]

/-- C22 at the lists `[sampleReportB]` and `[sampleReportA]`: the aggregate of the
concatenation begins on 2024-01-01, the begin of the second list, and ends on 2024-01-10,
the end of the first. -/
theorem C22_aggregate_additive_witness :
    (AggregateReports ([sampleReportB] ++ [sampleReportA])).DateRange.Begin =
        (if (AggregateReports [sampleReportA]).DateRange.Begin.Before
              (AggregateReports [sampleReportB]).DateRange.Begin then
          (AggregateReports [sampleReportA]).DateRange.Begin
        else (AggregateReports [sampleReportB]).DateRange.Begin) ∧
      (AggregateReports ([sampleReportB] ++ [sampleReportA])).DateRange.End =
        (if (AggregateReports [sampleReportA]).DateRange.End.After
              (AggregateReports [sampleReportB]).DateRange.End then
          (AggregateReports [sampleReportA]).DateRange.End
        else (AggregateReports [sampleReportB]).DateRange.End) :=
  (C22_aggregate_additive [sampleReportB] [sampleReportA]).2.2.2.2
    (List.cons_ne_nil _ _) (List.cons_ne_nil _ _)

/-! ## Lemmas: the formatter does not panic -/

theorem TruncateString_isSome (s : List UInt8) (maxLen : Int) (h3 : 3 ≤ maxLen)
    (hint : maxLen < (2 : Int) ^ 63) : ∃ r, TruncateString s maxLen = some r := by
  by_cases h : (s.length : Int) ≤ maxLen
  · exact ⟨_, TruncateString_short s maxLen h⟩
  · exact ⟨_, TruncateString_long s maxLen h3 (by omega) hint⟩

theorem topSourcesLoop_isSome (sourceCounts : List sourceCount) (topCount : Nat)
    (htop : topCount ≤ sourceCounts.length) (indices : List Nat)
    (hidx : ∀ i ∈ indices, i < topCount) (sb : String) :
    ∃ text, topSourcesLoop sourceCounts topCount indices sb = some text := by
  induction indices generalizing sb with
  | nil => exact ⟨sb, rfl⟩
  | cons i rest ih =>
    have hi : i < topCount := hidx i (List.mem_cons_self _ _)
    have hrest : ∀ j ∈ rest, j < topCount := fun j hj => hidx j (List.mem_cons_of_mem _ hj)
    obtain ⟨l, hl⟩ : ∃ l, sourceCounts.get? i = some l :=
      ⟨_, List.get?_eq_get (by omega)⟩
    unfold topSourcesLoop
    rw [hl]
    by_cases h1 : i + 1 < topCount
    · obtain ⟨r, hr⟩ : ∃ r, sourceCounts.get? (i + 1) = some r :=
        ⟨_, List.get?_eq_get (by omega)⟩
      simp only [Option.bind_eq_bind, Option.some_bind, if_pos h1, hr, Option.map_some']
      split
      · exact ih hrest _
      · exact ih hrest _
    · simp only [Option.bind_eq_bind, Option.some_bind, if_neg h1]
      split
      · exact ih hrest _
      · exact ih hrest _

theorem Min_le_right (a b : Nat) : Min a b ≤ b := by
  unfold Min
  split <;> omega

theorem formatTopSources_isSome (lib : FormatLib) (visited : List (String × Nat)) :
    ∃ text, formatTopSources lib visited = some text := by
  unfold formatTopSources
  exact topSourcesLoop_isSome _ _ (Min_le_right _ _) _
    (fun i hi => (List.mem_range.mp (List.mem_filter.mp hi).1)) _

theorem failedRecordsLoop_isSome (lib : FormatLib) (total : Nat) (records : List FailedRecord)
    (i : Nat) (sb : List UInt8) :
    ∃ text, failedRecordsLoop lib total records i sb = some text := by
  induction records generalizing i sb with
  | nil => exact ⟨sb, rfl⟩
  | cons record rest ih =>
    unfold failedRecordsLoop
    by_cases h : i ≥ 20
    · rw [if_pos h]
      exact ⟨_, rfl⟩
    · rw [if_neg h]
      obtain ⟨a, ha⟩ := TruncateString_isSome (goBytes record.SourceIP) 20 (by decide)
        (by decide)
      obtain ⟨b, hb⟩ := TruncateString_isSome (goBytes record.Domain) 30 (by decide)
        (by decide)
      simp only [Option.bind_eq_bind, ha, hb, Option.some_bind]
      exact ih _ _

/-- `FormatAggregatedReport` returns a text for every aggregate, whatever the library and
the order of iteration. -/
theorem FormatAggregatedReport_isSome (lib : FormatLib) (o : RangeOrders)
    (aggr : AggregatedReport) : ∃ text, FormatAggregatedReport lib o aggr = some text := by
  obtain ⟨top, htop⟩ := formatTopSources_isSome lib (o.sources aggr.Sources)
  obtain ⟨failed, hfailed⟩ := failedRecordsLoop_isSome lib aggr.FailedRecords.length
    aggr.FailedRecords 0
    (goBytes ("\n" ++
        lib.Render ("Failed Records (" ++ toString aggr.FailedRecords.length ++ ")") ++ "\n") ++
      goBytes ("  " ++ padRight 20 "Source IP" ++ " " ++ padRight 30 "Domain" ++ " " ++
        padRight 8 "Count" ++ " " ++ "Reason" ++ "\n") ++
      goBytes ("  " ++ String.mk (List.replicate 78 '-') ++ "\n"))
  unfold FormatAggregatedReport formatFailedRecords
  simp only [Option.bind_eq_bind, htop, hfailed, Option.some_bind]
  exact ⟨_, rfl⟩

/-! ## Lemmas: the handlers of the user interface -/

theorem indexInt_isSome {α : Type} (xs : List α) (i : Int) (h0 : 0 ≤ i)
    (h1 : i < (xs.length : Int)) : ∃ x, indexInt xs i = some x := by
  unfold indexInt
  rw [if_pos h0]
  exact ⟨_, List.get?_eq_get (by omega)⟩

theorem Model.passThrough_viewInvariant {L V : Type} (lib : UILib L V) (m : Model L V)
    (msg : Msg) (h : m.viewInvariant) : (m.passThrough lib msg).viewInvariant := by
  unfold Model.passThrough
  split
  · exact h
  · cases msg <;> exact h

theorem Model.refreshContent_isSome {L V : Type} (lib : UILib L V) (w : World)
    (m : Model L V) (Width Height : Int) :
    ∃ m', m.refreshContent lib w Width Height = some m' := by
  unfold Model.refreshContent
  split
  · rename_i hc
    simp only [Bool.and_eq_true, decide_eq_true_eq] at hc
    obtain ⟨report, hr⟩ := indexInt_isSome m.reports m.selectedReport hc.1.2 hc.2
    simp only [Option.bind_eq_bind, hr, Option.some_bind]
    exact ⟨_, rfl⟩
  · split
    · obtain ⟨text, ht⟩ := FormatAggregatedReport_isSome w.format w.orders m.aggregated
      simp only [Option.bind_eq_bind, ht, Option.some_bind]
      exact ⟨_, rfl⟩
    · exact ⟨_, rfl⟩

theorem Model.refreshContent_viewInvariant {L V : Type} (lib : UILib L V) (w : World)
    (m m' : Model L V) (Width Height : Int) (h : m.viewInvariant)
    (hm : m.refreshContent lib w Width Height = some m') : m'.viewInvariant := by
  unfold Model.refreshContent at hm
  split at hm
  · simp only [Option.bind_eq_bind, Option.bind_eq_some] at hm
    obtain ⟨report, _, hm⟩ := hm
    injection hm with hm
    subst hm
    exact h
  · split at hm
    · simp only [Option.bind_eq_bind, Option.bind_eq_some] at hm
      obtain ⟨text, _, hm⟩ := hm
      injection hm with hm
      subst hm
      exact h
    · injection hm with hm
      subst hm
      exact h

theorem Model.handleWindowResize_isSome {L V : Type} (lib : UILib L V) (w : World)
    (m : Model L V) (Width Height : Int) :
    ∃ m', m.handleWindowResize lib w Width Height = some m' :=
  Model.refreshContent_isSome lib w _ Width Height

theorem Model.handleWindowResize_viewInvariant {L V : Type} (lib : UILib L V) (w : World)
    (m m' : Model L V) (Width Height : Int) (h : m.viewInvariant)
    (hm : m.handleWindowResize lib w Width Height = some m') : m'.viewInvariant :=
  Model.refreshContent_viewInvariant lib w (m.resizeComponents lib Width Height) m' Width
    Height h hm

theorem Model.reloadReports_views {L V : Type} (lib : UILib L V) (w : World) (m : Model L V) :
    (m.reloadReports lib w).showReport = m.showReport ∧
      (m.reloadReports lib w).showAggregated = m.showAggregated := by
  unfold Model.reloadReports
  simp only []
  split
  · exact ⟨rfl, rfl⟩
  · exact ⟨rfl, rfl⟩

theorem Model.aggregatedContent_isSome {L V : Type} (lib : UILib L V) (w : World)
    (m : Model L V) : ∃ m', m.aggregatedContent lib w = some m' := by
  unfold Model.aggregatedContent
  split
  · obtain ⟨text, ht⟩ := FormatAggregatedReport_isSome w.format w.orders m.aggregated
    simp only [Option.bind_eq_bind, ht, Option.some_bind]
    exact ⟨_, rfl⟩
  · exact ⟨_, rfl⟩

theorem Model.aggregatedContent_showReport {L V : Type} (lib : UILib L V) (w : World)
    (m m' : Model L V) (hm : m.aggregatedContent lib w = some m') :
    m'.showReport = m.showReport := by
  unfold Model.aggregatedContent at hm
  split at hm
  · simp only [Option.bind_eq_bind, Option.bind_eq_some] at hm
    obtain ⟨text, _, hm⟩ := hm
    injection hm with hm
    subst hm
    rfl
  · injection hm with hm
    subst hm
    rfl

theorem Model.showAggregatedReport_isSome {L V : Type} (lib : UILib L V) (w : World)
    (m : Model L V) : ∃ m', m.showAggregatedReport lib w = some m' :=
  Model.aggregatedContent_isSome lib w _

theorem Model.showAggregatedReport_showReport {L V : Type} (lib : UILib L V) (w : World)
    (m m' : Model L V) (hm : m.showAggregatedReport lib w = some m') :
    m'.showReport = m.showReport :=
  Model.aggregatedContent_showReport lib w { m with showAggregated := !m.showAggregated } m' hm

theorem Model.selectedContent_isSome {L V : Type} (lib : UILib L V) (w : World)
    (m : Model L V) : ∃ m', m.selectedContent lib w = some m' := by
  unfold Model.selectedContent
  split
  · rename_i hc
    simp only [Bool.and_eq_true, decide_eq_true_eq] at hc
    obtain ⟨report, hr⟩ := indexInt_isSome m.reports m.selectedReport hc.1 hc.2
    simp only [Option.bind_eq_bind, hr, Option.some_bind]
    exact ⟨_, rfl⟩
  · exact ⟨_, rfl⟩

theorem Model.selectedContent_viewInvariant {L V : Type} (lib : UILib L V) (w : World)
    (m m' : Model L V) (hr : m.showReport = false) (ha : m.showAggregated = false)
    (hm : m.selectedContent lib w = some m') : m'.viewInvariant := by
  unfold Model.selectedContent at hm
  split at hm
  · rename_i hc
    simp only [Bool.and_eq_true, decide_eq_true_eq] at hc
    simp only [Option.bind_eq_bind, Option.bind_eq_some] at hm
    obtain ⟨report, _, hm⟩ := hm
    injection hm with hm
    subst hm
    refine ⟨fun _ => ⟨hc.1, hc.2⟩, fun hboth => ?_⟩
    have h2 : m.showAggregated = true := hboth.2
    rw [ha] at h2
    exact Bool.false_ne_true h2
  · injection hm with hm
    subst hm
    refine ⟨fun h1 => ?_, fun hboth => ?_⟩
    · rw [hr] at h1
      exact absurd h1 Bool.false_ne_true
    · rw [hr] at hboth
      exact Bool.false_ne_true hboth.1

theorem Model.showSelectedReport_isSome {L V : Type} (lib : UILib L V) (w : World)
    (m : Model L V) : ∃ m', m.showSelectedReport lib w = some m' :=
  Model.selectedContent_isSome lib w _

theorem Model.showSelectedReport_viewInvariant {L V : Type} (lib : UILib L V) (w : World)
    (m m' : Model L V) (hr : m.showReport = false) (ha : m.showAggregated = false)
    (hm : m.showSelectedReport lib w = some m') : m'.viewInvariant :=
  Model.selectedContent_viewInvariant lib w { m with selectedReport := lib.listIndex m.list } m'
    hr ha hm

theorem Model.viewInvariant_of_showReport_false {L V : Type} (m : Model L V)
    (hr : m.showReport = false) : m.viewInvariant := by
  refine ⟨fun h1 => ?_, fun hboth => ?_⟩
  · rw [hr] at h1
    exact absurd h1 Bool.false_ne_true
  · rw [hr] at hboth
    exact Bool.false_ne_true hboth.1

theorem Model.handleListViewKeys_isSome {L V : Type} (lib : UILib L V) (w : World)
    (m : Model L V) (text : String) : ∃ m', m.handleListViewKeys lib w text = some m' := by
  unfold Model.handleListViewKeys
  split
  · exact ⟨_, rfl⟩
  · split
    · exact Model.showAggregatedReport_isSome lib w m
    · split
      · exact Model.showSelectedReport_isSome lib w m
      · exact ⟨_, rfl⟩

theorem Model.handleListViewKeys_viewInvariant {L V : Type} (lib : UILib L V) (w : World)
    (m m' : Model L V) (text : String) (hr : m.showReport = false)
    (ha : m.showAggregated = false) (hm : m.handleListViewKeys lib w text = some m') :
    m'.viewInvariant := by
  unfold Model.handleListViewKeys at hm
  split at hm
  · injection hm with hm
    subst hm
    exact Model.viewInvariant_of_showReport_false _
      ((Model.reloadReports_views lib w m).1.trans hr)
  · split at hm
    · exact Model.viewInvariant_of_showReport_false _
        ((Model.showAggregatedReport_showReport lib w m m' hm).trans hr)
    · split at hm
      · exact Model.showSelectedReport_viewInvariant lib w m m' hr ha hm
      · injection hm with hm
        subst hm
        exact Model.viewInvariant_of_showReport_false _ hr

theorem Model.handleReportViewKeys_viewInvariant {L V : Type} (lib : UILib L V)
    (m : Model L V) (text : String) (h : m.viewInvariant) :
    (m.handleReportViewKeys lib text).viewInvariant := by
  unfold Model.handleReportViewKeys
  split
  · exact Model.viewInvariant_of_showReport_false _ rfl
  · exact h

theorem Model.checkErrorTimeout_viewInvariant {L V : Type} (m : Model L V) (now : Time)
    (h : m.viewInvariant) : (m.checkErrorTimeout now).viewInvariant := by
  unfold Model.checkErrorTimeout
  split
  · exact h
  · exact h

theorem Model.dispatch_isSome {L V : Type} (lib : UILib L V) (w : World) (m : Model L V)
    (msg : Msg) : ∃ m', m.dispatch lib w msg = some m' := by
  unfold Model.dispatch
  cases msg with
  | checkErrorTimeoutMsg =>
    simp only []
    split
    · exact ⟨_, rfl⟩
    · exact ⟨_, rfl⟩
  | errorMsg err => exact ⟨_, rfl⟩
  | WindowSizeMsg Width Height =>
    simp only []
    obtain ⟨m1, h1⟩ := Model.handleWindowResize_isSome lib w m Width Height
    rw [h1]
    exact ⟨_, rfl⟩
  | KeyMsg text =>
    simp only []
    split
    · exact ⟨_, rfl⟩
    · split
      · exact ⟨_, rfl⟩
      · split
        · exact ⟨_, rfl⟩
        · split
          · exact ⟨_, rfl⟩
          · obtain ⟨m1, h1⟩ := Model.handleListViewKeys_isSome lib w m text
            rw [h1]
            exact ⟨_, rfl⟩
  | otherMsg tag => exact ⟨_, rfl⟩

/-- `Update` returns a model for every model, message and world: it does not panic. -/
theorem Model.Update_isSome {L V : Type} (lib : UILib L V) (w : World) (m : Model L V)
    (msg : Msg) : ∃ m', m.Update lib w msg = some m' :=
  Model.dispatch_isSome lib w _ msg

theorem Model.clearExpiredError_viewInvariant {L V : Type} (w : World) (m : Model L V)
    (h : m.viewInvariant) : (m.clearExpiredError w).viewInvariant := by
  unfold Model.clearExpiredError
  split
  · split
    · exact h
    · exact h
  · exact h

theorem Model.dispatch_viewInvariant {L V : Type} (lib : UILib L V) (w : World)
    (m0 m' : Model L V) (msg : Msg) (h0 : m0.viewInvariant)
    (hm : m0.dispatch lib w msg = some m') : m'.viewInvariant := by
  unfold Model.dispatch at hm
  cases msg with
  | checkErrorTimeoutMsg =>
    simp only [] at hm
    split at hm
    · injection hm with hm
      subst hm
      exact h0
    · injection hm with hm
      subst hm
      exact Model.checkErrorTimeout_viewInvariant m0 _ h0
  | errorMsg err =>
    simp only [] at hm
    injection hm with hm
    subst hm
    exact h0
  | WindowSizeMsg Width Height =>
    simp only [Option.map_eq_some'] at hm
    obtain ⟨m1, h1, hm⟩ := hm
    subst hm
    exact Model.passThrough_viewInvariant lib m1 _
      (Model.handleWindowResize_viewInvariant lib w m0 m1 Width Height h0 h1)
  | KeyMsg text =>
    simp only [] at hm
    split at hm
    · injection hm with hm
      subst hm
      exact h0
    · split at hm
      · injection hm with hm
        subst hm
        exact Model.passThrough_viewInvariant lib _ _
          (Model.handleReportViewKeys_viewInvariant lib m0 text h0)
      · rename_i hview
        have hr : m0.showReport = false := by
          cases hs : m0.showReport
          · rfl
          · exact absurd (by simp [hs]) hview
        have ha : m0.showAggregated = false := by
          cases hs : m0.showAggregated
          · rfl
          · exact absurd (by simp [hs]) hview
        split at hm
        · injection hm with hm
          subst hm
          exact h0
        · split at hm
          · injection hm with hm
            subst hm
            exact h0
          · simp only [Option.map_eq_some'] at hm
            obtain ⟨m1, h1, hm⟩ := hm
            subst hm
            exact Model.passThrough_viewInvariant lib m1 _
              (Model.handleListViewKeys_viewInvariant lib w m0 m1 text hr ha h1)
  | otherMsg tag =>
    simp only [] at hm
    injection hm with hm
    subst hm
    exact Model.passThrough_viewInvariant lib m0 _ h0

/-- `Update` keeps the invariant of the views. -/
theorem Model.Update_viewInvariant {L V : Type} (lib : UILib L V) (w : World)
    (m m' : Model L V) (msg : Msg) (h : m.viewInvariant)
    (hm : m.Update lib w msg = some m') : m'.viewInvariant :=
  Model.dispatch_viewInvariant lib w _ m' msg (Model.clearExpiredError_viewInvariant w m h) hm

/-- The model that `NewModel` returns shows the list. -/
theorem NewModel_viewInvariant {L V : Type} (lib : UILib L V) (w : World) (m : Model L V)
    (hm : NewModel lib w = .ok m) : m.viewInvariant := by
  unfold NewModel at hm
  split at hm
  · exact absurd hm (by simp)
  · simp only [] at hm
    split at hm
    · exact absurd hm (by simp)
    · injection hm with hm
      subst hm
      exact Model.viewInvariant_of_showReport_false _ rfl

theorem Reachable.viewInvariant {L V : Type} {lib : UILib L V} {m : Model L V}
    (h : Reachable lib m) : m.viewInvariant := by
  induction h with
  | init w m hm => exact NewModel_viewInvariant lib w m hm
  | step w m m' msg _ hm ih => exact Model.Update_viewInvariant lib w m m' msg ih hm

theorem Model.renderStatusBar_isSome {L V : Type} (lib : UILib L V) (m : Model L V)
    (h : m.viewInvariant) : ∃ status, m.renderStatusBar lib = some status := by
  unfold Model.renderStatusBar
  split
  · rename_i hs
    obtain ⟨h0, h1⟩ := h.1 hs
    obtain ⟨report, hr⟩ := indexInt_isSome m.reports m.selectedReport h0 h1
    simp only [Option.bind_eq_bind, hr, Option.some_bind]
    exact ⟨_, rfl⟩
  · split
    · exact ⟨_, rfl⟩
    · exact ⟨_, rfl⟩

theorem Model.View_isSome {L V : Type} (lib : UILib L V) (m : Model L V)
    (h : m.viewInvariant) : ∃ text, m.View lib = some text := by
  unfold Model.View
  split
  · exact ⟨_, rfl⟩
  · obtain ⟨status, hs⟩ := Model.renderStatusBar_isSome lib m h
    simp only [Option.bind_eq_bind, hs, Option.some_bind]
    split
    · exact ⟨_, rfl⟩
    · exact ⟨_, rfl⟩

/-! ## Lemmas: the sample user interface -/

set_option maxRecDepth 100000 in
theorem NewModel_sampleWorld : NewModel sampleUILib sampleWorld = .ok sampleStart := by
  rfl

theorem sampleRun_reachable (msgs : List Msg) : Reachable sampleUILib (sampleRun msgs) := by
  unfold sampleRun
  have h0 : Reachable sampleUILib sampleStart :=
    Reachable.init sampleWorld sampleStart NewModel_sampleWorld
  generalize sampleStart = m at h0
  induction msgs generalizing m with
  | nil => exact h0
  | cons msg rest ih =>
    rw [List.foldl_cons]
    apply ih
    obtain ⟨m', hm'⟩ := Model.Update_isSome sampleUILib sampleWorld m msg
    rw [hm']
    exact Reachable.step sampleWorld m m' msg h0 hm'

/-! ## The views of the user interface -/

/-- C23.  In every model that the program can hold (the model that `NewModel` returns, and
every model that `Update` returns from such a model, for every message and every world
around the call): when `showReport` is true, `selectedReport` is at least 0 and below
`len(reports)`; `showReport` and `showAggregated` are not both true; `renderStatusBar` and
`View` return their text without a panic; and `Update` returns a model for every message,
so the next model exists. -/
theorem C23_detail_view_has_a_report {L V : Type} (lib : UILib L V) (m : Model L V)
    (h : Reachable lib m) :
    (m.showReport = true →
      0 ≤ m.selectedReport ∧ m.selectedReport < (m.reports.length : Int)) ∧
    ¬ (m.showReport = true ∧ m.showAggregated = true) ∧
    (∃ status, m.renderStatusBar lib = some status) ∧
    (∃ text, m.View lib = some text) ∧
    (∀ (w : World) (msg : Msg), ∃ m', m.Update lib w msg = some m') := by
  have hinv := h.viewInvariant
  exact ⟨hinv.1, hinv.2, Model.renderStatusBar_isSome lib m hinv, Model.View_isSome lib m hinv,
    fun w msg => Model.Update_isSome lib w m msg⟩

set_option maxRecDepth 100000 in
/-- C23 in the sample world, after the window got its size, the cursor moved down once and
the enter key was pressed: the detail view shows the report at index 1 of three reports,
and the status bar names it. -/
theorem C23_detail_view_has_a_report_witness :
    (sampleRun [.WindowSizeMsg 80 24, .KeyMsg "down", .KeyMsg "enter"]).showReport = true ∧
    (sampleRun [.WindowSizeMsg 80 24, .KeyMsg "down", .KeyMsg "enter"]).selectedReport = 1 ∧
    (sampleRun [.WindowSizeMsg 80 24, .KeyMsg "down", .KeyMsg "enter"]).reports.length = 3 ∧
    (sampleRun [.WindowSizeMsg 80 24, .KeyMsg "down", .KeyMsg "enter"]).renderStatusBar
      sampleUILib = some " Report: B " ∧
    (((sampleRun [.WindowSizeMsg 80 24, .KeyMsg "down", .KeyMsg "enter"]).showReport = true →
      0 ≤ (sampleRun [.WindowSizeMsg 80 24, .KeyMsg "down", .KeyMsg "enter"]).selectedReport ∧
      (sampleRun [.WindowSizeMsg 80 24, .KeyMsg "down", .KeyMsg "enter"]).selectedReport <
        ((sampleRun [.WindowSizeMsg 80 24, .KeyMsg "down", .KeyMsg "enter"]).reports.length :
          Int)) ∧
    ¬ ((sampleRun [.WindowSizeMsg 80 24, .KeyMsg "down", .KeyMsg "enter"]).showReport = true ∧
      (sampleRun [.WindowSizeMsg 80 24, .KeyMsg "down", .KeyMsg "enter"]).showAggregated
        = true) ∧
    (∃ status, (sampleRun [.WindowSizeMsg 80 24, .KeyMsg "down", .KeyMsg "enter"]).renderStatusBar
      sampleUILib = some status) ∧
    (∃ text, (sampleRun [.WindowSizeMsg 80 24, .KeyMsg "down", .KeyMsg "enter"]).View
      sampleUILib = some text) ∧
    (∀ (w : World) (msg : Msg), ∃ m',
      (sampleRun [.WindowSizeMsg 80 24, .KeyMsg "down", .KeyMsg "enter"]).Update
        sampleUILib w msg = some m')) :=
  ⟨by decide, by decide, by decide, by decide,
    C23_detail_view_has_a_report sampleUILib
      (sampleRun [.WindowSizeMsg 80 24, .KeyMsg "down", .KeyMsg "enter"])
      (sampleRun_reachable _)⟩

/-! ## Truncation for display -/

/-- C24.  For every string `s` and every `maxLen` of at least 3 (an `int`, so below `2^63`),
`TruncateString(s, maxLen)` does not panic and returns a string `r` of at most `maxLen`
bytes: `r` is `s` itself when `len(s) <= maxLen`; otherwise `r` is the first `maxLen-3`
bytes of `s` followed by "..." and has exactly `maxLen` bytes.  Truncating `r` again with
the same `maxLen` returns `r`. -/
theorem C24_truncate_string (s : List UInt8) (maxLen : Int)
    (h3 : 3 ≤ maxLen) (hint : maxLen < (2 : Int) ^ 63) :
    ∃ r, TruncateString s maxLen = some r ∧
      (r.length : Int) ≤ maxLen ∧
      ((s.length : Int) ≤ maxLen → r = s) ∧
      (maxLen < (s.length : Int) →
        r = s.take (maxLen - 3).toNat ++ goBytes "..." ∧ (r.length : Int) = maxLen) ∧
      TruncateString r maxLen = some r := by
  by_cases h : (s.length : Int) ≤ maxLen
  · refine ⟨s, TruncateString_short s maxLen h, h, fun _ => rfl, fun h' => ?_,
      TruncateString_short s maxLen h⟩
    omega
  · have hlt : maxLen < (s.length : Int) := by omega
    have hlen : ((s.take (maxLen - 3).toNat ++ goBytes "...").length : Int) = maxLen := by
      have h0 : (goBytes "...").length = 3 := by decide
      rw [List.length_append, List.length_take, h0]
      omega
    refine ⟨_, TruncateString_long s maxLen h3 hlt hint, by omega, fun h' => ?_,
      fun _ => ⟨rfl, hlen⟩, TruncateString_short _ maxLen (by omega)⟩
    omega

/-- C24 at a string of 26 bytes and the width 20 of the source column: the result is the
first 17 bytes followed by "...". -/
theorem C24_truncate_string_witness :
    ∃ r, TruncateString (goBytes "2001:db8:85a3::8a2e:370:73") 20 = some r ∧
      (r.length : Int) ≤ 20 ∧
      (((goBytes "2001:db8:85a3::8a2e:370:73").length : Int) ≤ 20 →
        r = goBytes "2001:db8:85a3::8a2e:370:73") ∧
      ((20 : Int) < ((goBytes "2001:db8:85a3::8a2e:370:73").length : Int) →
        r = (goBytes "2001:db8:85a3::8a2e:370:73").take ((20 : Int) - 3).toNat ++ goBytes "..." ∧
          (r.length : Int) = 20) ∧
      TruncateString r 20 = some r :=
  C24_truncate_string (goBytes "2001:db8:85a3::8a2e:370:73") 20 (by decide) (by decide)

end GoDMARC
